import Mathlib

/-!
# Verification of the Praat-textgrids library (`textgrids` package, v1.0.3)

A shallow embedding, in Lean 4, of the parts of `src/textgrids/__init__.py`
and `src/textgrids/transcript.py` that the specification's claims are about:

* the data model (`Interval`, `Point`, `Tier`, `TextGrid`),
* the long- and short-format text parsers and the long-text serializer,
* the format dispatcher `TextGrid.parse`,
* the CSV tier import `TextGrid.tier_from_csv`,
* the Praat/Unicode transcoder `Transcript.transcode`.

Modelling conventions:

* Python strings are `List Char` (`Str` below).
* Python floats are modelled as exact rationals (`ℚ`).  Values written by
  `str(float)` are modelled by `pyFloatRepr`, which renders a rational with a
  power-of-ten denominator as Python renders the corresponding float
  (`0.5 ↦ "0.5"`, `2 ↦ "2.0"`); rationals outside that set, exponent
  renderings of very large/small floats, and IEEE rounding are outside the
  model.  `float(str)` is `parseFloat` (decimal notation with optional
  exponent; the IEEE non-finite values `inf`/`nan` and underscore separators
  are outside the rational model).
* Python's dynamic typing of the fields that the code stores without
  conversion is modelled by `PyVal` (a string, a number, or `None`).
* A fallible expression is an `Except PyError α`; mutation of a `TextGrid`
  during parsing is explicit state passing, and the top-level parse entry
  points return the final (possibly partially-mutated) grid together with
  `Option PyError`, matching the fact that a raised Python exception leaves
  `self` with all mutations performed before the raise.
-/

namespace Textgrids

abbrev Str := List Char

/-- Whitespace characters stripped by Python's `str.strip()` / `str.split()`
(the ASCII ones; the code never meets the exotic Unicode whitespace). -/
def isWsChar (c : Char) : Bool :=
  c = ' ' ∨ c = '\t' ∨ c = '\n' ∨ c = '\x0d' ∨ c = '\x0b' ∨ c = '\x0c'

/-- Python `str.strip()` (no argument): drop whitespace from both ends. -/
def pyStrip (s : Str) : Str :=
  ((s.dropWhile isWsChar).reverse.dropWhile isWsChar).reverse

/-- Python `str.strip('"')`: drop double quotes from both ends. -/
def stripQuotes (s : Str) : Str :=
  ((s.dropWhile (· = '"')).reverse.dropWhile (· = '"')).reverse

/-- Python `str.split()` (no argument): split on whitespace runs, dropping
empty fields. -/
def splitWs : Str → List Str
  | [] => []
  | c :: rest =>
    if isWsChar c then splitWs rest
    else
      match splitWs rest with
      | [] => [[c]]
      | w :: ws =>
        match rest with
        | [] => [[c]]
        | d :: _ => if isWsChar d then [c] :: w :: ws else (c :: w) :: ws

/-- Split a string at newline characters (how iterating over an opened text
file chops the buffer into lines, up to the `'\n'` terminators which the
code immediately strips). -/
def splitNl (s : Str) : List Str :=
  match s with
  | [] => [[]]
  | c :: rest =>
    let r := splitNl rest
    if c = '\n' then [] :: r
    else
      match r with
      | [] => [[c]]
      | l :: ls => (c :: l) :: ls

/-- `'\n'.join(lines)`. -/
def joinNl (ls : List Str) : Str :=
  match ls with
  | [] => []
  | [l] => l
  | l :: ls => l ++ '\n' :: joinNl ls

/-- Python `str.replace(pat, rep)`: leftmost, non-overlapping, all
occurrences.  The patterns used by the code are never empty, so the empty
pattern (which Python treats specially) is mapped to the identity. -/
def pyReplaceF : ℕ → Str → Str → Str → Str
  | 0, s, _, _ => s
  | _ + 1, [], _, _ => []
  | f + 1, c :: rest, pat, rep =>
    if pat ≠ [] ∧ pat.isPrefixOf (c :: rest) then
      rep ++ pyReplaceF f (rest.drop (pat.length - 1)) pat rep
    else
      c :: pyReplaceF f rest pat rep

/-- The fuel (`s.length`) only bounds the recursion depth; it never runs
out because each step consumes at least one character. -/
def pyReplace (s pat rep : Str) : Str :=
  pyReplaceF s.length s pat rep

/-- Python `sub in s` (substring containment). -/
def containsSub (s sub : Str) : Bool :=
  if sub.isPrefixOf s then true
  else
    match s with
    | [] => false
    | _ :: rest => containsSub rest sub

/-! ## Decimal digits -/

def isDigitCh (c : Char) : Bool := '0' ≤ c ∧ c ≤ '9'

def digitToCh (d : ℕ) : Char := Char.ofNat (48 + d)

def chToDigit (c : Char) : ℕ := c.toNat - 48

/-- Base-10 digits of a natural number, most significant first. -/
def natDigits (n : ℕ) : List ℕ :=
  if h : n < 10 then [n]
  else natDigits (n / 10) ++ [n % 10]
decreasing_by
  exact Nat.div_lt_self (by omega) (by omega)

/-- Decimal rendering of a natural number. -/
def natStr (n : ℕ) : Str := (natDigits n).map digitToCh

/-- Value of a big-endian digit list. -/
def digitsVal (ds : List ℕ) : ℕ := ds.foldl (fun a d => a * 10 + d) 0

/-- Value of a big-endian digit-character list. -/
def digitsChVal (ds : Str) : ℕ := ds.foldl (fun a c => a * 10 + chToDigit c) 0

/-! ## The model of Python floats

Python floats are modelled as exact rationals.  `str(float)` on the values
the library meets renders a (finite, moderate-magnitude) float as its exact
shortest decimal; in the model, a rational whose denominator divides a power
of ten is rendered as that exact decimal (always keeping at least one
fractional digit, as Python does: `str(2.0) = '2.0'`).  Rationals outside
that set cannot arise as exact Python float values and get an unparseable
fallback rendering. -/

/-- Multiplicity of `p` in `n` (for `p ≥ 2`, `n ≥ 1`). -/
def multOf (p n : ℕ) : ℕ :=
  if h : 2 ≤ p ∧ 1 ≤ n ∧ n % p = 0 then multOf p (n / p) + 1 else 0
decreasing_by
  exact Nat.div_lt_self (by omega) (by omega)

/-- The least `k` with `q * 10^k` integral, if the denominator of `q`
divides a power of ten. -/
def denExp (q : ℚ) : Option ℕ :=
  let a := multOf 2 q.den
  let b := multOf 5 q.den
  if q.den = 2 ^ a * 5 ^ b then some (max a b) else none

/-- A rational that is exactly representable as a decimal string
(equivalently: an exact value of `str` on the floats the code meets). -/
def IsDec (q : ℚ) : Prop := denExp q ≠ none

instance (q : ℚ) : Decidable (IsDec q) := by
  unfold IsDec; infer_instance

/-- Fractional digit block of length `k` for numerator `fr < 10^k`
(zero-padded on the left, as in `1.05`). -/
def fracStr (k fr : ℕ) : Str :=
  List.replicate (k - (natDigits fr).length) '0' ++ natStr fr

/-- `str(x)` for the model float `q` (see the module comment): sign, integer
part, `'.'`, fractional digits; integral values render as `'…​.0'`. -/
def pyFloatRepr (q : ℚ) : Str :=
  match denExp q with
  | some k =>
    let n : ℕ := (q.num.natAbs * 10 ^ k) / q.den
    let sign : Str := if q < 0 then ['-'] else []
    if k = 0 then sign ++ natStr n ++ ['.', '0']
    else sign ++ natStr (n / 10 ^ k) ++ '.' :: fracStr k (n % 10 ^ k)
  | none => natStr q.num.natAbs ++ '/' :: natStr q.den

/-! ## `float(str)` and `int(str)` -/

/-- Longest digit prefix and the rest. -/
def spanDigits (s : Str) : Str × Str := (s.takeWhile isDigitCh, s.dropWhile isDigitCh)

/-- Parse an optional sign, returning `(negative?, rest)`. -/
def parseSign (s : Str) : Bool × Str :=
  match s with
  | '-' :: r => (true, r)
  | '+' :: r => (false, r)
  | _ => (false, s)

/-- Parse the exponent suffix `([eE][+-]?digits)?`; `none` marks a malformed
trailing part. -/
def parseExp (s : Str) : Option ℤ :=
  match s with
  | [] => some 0
  | e :: r =>
    if e = 'e' ∨ e = 'E' then
      let (neg, r') := parseSign r
      let (ds, rest) := spanDigits r'
      if ds = [] ∨ rest ≠ [] then none
      else some (if neg then -(digitsChVal ds : ℤ) else (digitsChVal ds : ℤ))
    else none

/-- The rational value of a parsed float: sign, integer digits, fraction
digits, decimal exponent.  Built with `mkRat` over `Nat` arithmetic so that
it evaluates inside the kernel. -/
def floatVal (neg : Bool) (ip fp : Str) (e : ℤ) : ℚ :=
  let m : ℕ := digitsChVal ip * 10 ^ fp.length + digitsChVal fp
  let num : ℤ := if neg then -(m : ℤ) else (m : ℤ)
  if 0 ≤ e then mkRat (num * ((10 ^ e.toNat : ℕ) : ℤ)) (10 ^ fp.length)
  else mkRat num (10 ^ fp.length * 10 ^ (-e).toNat)

/-- The model of Python's `float(str)`: optional surrounding whitespace and
sign, then `digits[.digits] | .digits`, then an optional exponent.  The
non-finite literals (`inf`, `nan`) and underscore digit separators are
outside the rational model. -/
def parseFloat (s : Str) : Option ℚ :=
  let s := pyStrip s
  let (neg, s) := parseSign s
  let (ip, s) := spanDigits s
  let (fp, rest) :=
    match s with
    | '.' :: r => spanDigits r
    | _ => ([], s)
  if ip = [] ∧ fp = [] then none
  else if ip ≠ [] ∧ s ≠ [] ∧ s.head? ≠ some '.' then
    -- digits followed by something that is not a fraction: exponent or junk
    match parseExp s with
    | none => none
    | some e => some (floatVal neg ip [] e)
  else
    match parseExp rest with
    | none => none
    | some e => some (floatVal neg ip fp e)

/-- The model of Python's `int(str)`: optional whitespace, sign, digits. -/
def parseInt (s : Str) : Option ℤ :=
  let s := pyStrip s
  let (neg, s) := parseSign s
  let (ds, rest) := spanDigits s
  if ds = [] ∨ rest ≠ [] then none
  else some (if neg then -(digitsChVal ds : ℤ) else (digitsChVal ds : ℤ))

/-! ## Python-level dynamic values and exceptions -/

instance instDecEqExcept {ε α : Type} [DecidableEq ε] [DecidableEq α] :
    DecidableEq (Except ε α)
  | .ok a, .ok b =>
    if h : a = b then isTrue (by rw [h]) else isFalse (fun hh => h (Except.ok.inj hh))
  | .ok _, .error _ => isFalse (fun hh => Except.noConfusion hh)
  | .error _, .ok _ => isFalse (fun hh => Except.noConfusion hh)
  | .error e, .error f =>
    if h : e = f then isTrue (by rw [h]) else isFalse (fun hh => h (Except.error.inj hh))


/-- The exception types the embedded code can raise. -/
inductive PyError where
  /-- `TypeError` (including the one CPython raises when `__init__` returns
  a non-`None` value). -/
  | typeError
  /-- `ValueError` (failed `float`/`int` conversion, bad unpacking, bad CSV
  row arity). -/
  | valueError
  /-- `AttributeError` (attribute lookup on an object lacking it). -/
  | attributeError
  /-- `IndexError` (subscript out of range). -/
  | indexError
  /-- `NameError`/`UnboundLocalError` (reading a local before assignment). -/
  | nameError
  /-- `KeyError`. -/
  | keyError
  /-- The library's own `ParseError`, with its line-number argument when one
  was supplied. -/
  | parseError (lineno : Option ℕ)
deriving DecidableEq, Repr

/-- A dynamically-typed Python value as stored by the code: a string, a
float, or `None`. -/
inductive PyVal where
  | str (s : Str)
  | num (q : ℚ)
  | none
deriving DecidableEq, Repr

/-- Lexicographic (code-point) order on Python strings. -/
def lexLt : Str → Str → Bool
  | [], [] => false
  | [], _ :: _ => true
  | _ :: _, [] => false
  | a :: s, b :: t => if a = b then lexLt s t else decide (a < b)

/-- Python `a < b` on our dynamic values: numbers by value, strings
lexicographically, mixed operands raise `TypeError`. -/
def pyLt : PyVal → PyVal → Except PyError Bool
  | .num a, .num b => .ok (decide (a < b))
  | .str a, .str b => .ok (lexLt a b)
  | _, _ => .error .typeError

/-- Python `a > b` (`b < a` for these types). -/
def pyGt (a b : PyVal) : Except PyError Bool := pyLt b a

/-- Python `str(v)` (also what `'{}'.format(v)` interpolates). -/
def strOfVal : PyVal → Str
  | .str s => s
  | .num q => pyFloatRepr q
  | .none => 'N' :: 'o' :: 'n' :: 'e' :: []

/-- Python `min(list)`: first element as seed, replace when an item compares
smaller; empty list raises `ValueError`, incomparable items `TypeError`. -/
def pyMinList : List PyVal → Except PyError PyVal
  | [] => .error .valueError
  | x :: xs =>
    xs.foldlM (fun cur y => do
      let b ← pyLt y cur
      pure (if b then y else cur)) x

/-- Python `max(list)`. -/
def pyMaxList : List PyVal → Except PyError PyVal
  | [] => .error .valueError
  | x :: xs =>
    xs.foldlM (fun cur y => do
      let b ← pyGt y cur
      pure (if b then y else cur)) x

/-! ## Data model: `Interval`, `Point`, `Tier`, `TextGrid`

From `src/textgrids/__init__.py` (v1.0.3). -/

/-- `Interval`: `text` is coerced through `Transcript(text)` (i.e. `str`),
`xmin`/`xmax` are stored exactly as passed (the CSV importer passes strings,
the parsers floats). -/
structure Interval where
  text : Str
  xmin : PyVal
  xmax : PyVal
deriving DecidableEq, Repr

/-- `Point`: a namedtuple; both fields stored exactly as passed. -/
structure Point where
  text : PyVal
  xpos : PyVal
deriving DecidableEq, Repr

/-- `Interval.__init__`: assigns the fields, then on `xmin > xmax` *returns*
the class `ValueError` instead of raising it; CPython turns a non-`None`
return from `__init__` into a `TypeError` at the construction site, so
construction still fails — but with `TypeError`, not `ValueError`.  The
comparison itself can also raise `TypeError` (mixed number/string). -/
def Interval.init (text xmin xmax : PyVal) : Except PyError Interval := do
  let gt ← pyGt xmin xmax
  if gt then
    -- `return ValueError` inside `__init__` ⇒ TypeError from type.__call__
    .error .typeError
  else
    .ok ⟨strOfVal text, xmin, xmax⟩

/-- A tier element is an `Interval` or a `Point` object. -/
inductive Elem where
  | iv (i : Interval)
  | pt (p : Point)
deriving DecidableEq, Repr

/-- `elem.xmin` attribute access (a `Point` has no `xmin`). -/
def Elem.attrXmin : Elem → Except PyError PyVal
  | .iv i => .ok i.xmin
  | .pt _ => .error .attributeError

/-- `elem.xmax` attribute access. -/
def Elem.attrXmax : Elem → Except PyError PyVal
  | .iv i => .ok i.xmax
  | .pt _ => .error .attributeError

/-- `elem.text` attribute access (both classes have it). -/
def Elem.attrText : Elem → PyVal
  | .iv i => .str i.text
  | .pt p => p.text

/-- `Tier`: a list subclass with the `is_point_tier` flag. -/
structure Tier where
  is_point_tier : Bool
  elems : List Elem
deriving DecidableEq, Repr

/-- `lst[i]` for a non-negative index (the code indexes tiers with `0`). -/
def pyNth (l : List Elem) (i : ℕ) : Except PyError Elem :=
  match l.get? i with
  | some e => .ok e
  | none => .error .indexError

/-- `lst[-1]` (last element). -/
def pyLast (l : List Elem) : Except PyError Elem :=
  match l.getLast? with
  | some e => .ok e
  | none => .error .indexError

/-- `TextGrid`: an `OrderedDict` of tier names to tiers.  Its global
`xmin`/`xmax` attributes do not exist until a parse sets them (reading them
earlier raises `AttributeError`), hence `Option`.  Keys are `PyVal` because
the long parser can assign `self[None] = tier` or a float name. -/
structure Grid where
  xmin : Option ℚ
  xmax : Option ℚ
  items : List (PyVal × Tier)
deriving DecidableEq, Repr

/-- `TextGrid()` with no file: an empty ordered dict. -/
def emptyGrid : Grid := ⟨Option.none, Option.none, []⟩

/-- `OrderedDict` assignment `g[k] = t`: replace in place when the key
exists, else append. -/
def odSet (items : List (PyVal × Tier)) (k : PyVal) (t : Tier) :
    List (PyVal × Tier) :=
  match items with
  | [] => [(k, t)]
  | (k', t') :: rest =>
    if k' = k then (k', t) :: rest else (k', t') :: odSet rest k t

/-! ## Tier operations -/

/-- `self.interval_tier`: the `Tier` class defines only `is_point_tier` —
there is no attribute or property named `interval_tier` anywhere in the
module, so this lookup raises `AttributeError` on every tier. -/
def Tier.attrIntervalTier (_t : Tier) : Except PyError Bool :=
  .error .attributeError

def Elem.isInterval : Elem → Bool
  | .iv _ => true
  | .pt _ => false

def Elem.isPoint : Elem → Bool
  | .iv _ => false
  | .pt _ => true

/-- `list.append` as inherited by `Tier` — it is not overridden, so it
accepts any element with no variant check. -/
def Tier.appendElem (t : Tier) (e : Elem) : Tier :=
  { t with elems := t.elems ++ [e] }

/-- `Tier.__add__(self, elem)`.  The first condition reads the nonexistent
attribute `self.interval_tier`, so the method raises `AttributeError`
before anything else can happen.  The remainder of the body is embedded for
completeness: were the attribute to exist, every `Interval` would fall into
the `elif not isinstance(elem, Point)` arm (`TypeError`), and for a `Point`
the final `super().__add__(elem)` is a direct call to `list.__add__`, which
returns `NotImplemented` without appending — the returned value is
discarded, so nothing would be added either way. -/
def Tier.addOp (t : Tier) (e : Elem) : Except PyError Unit := do
  let it ← Tier.attrIntervalTier t
  if it ∧ ¬ e.isInterval then .error .typeError
  else if ¬ e.isPoint then .error .typeError
  else .ok ()

/-- Python `l[a:b]` slice for `Int` bounds. -/
def pySlice (l : List Elem) (a b : ℤ) : List Elem :=
  let n : ℤ := l.length
  let norm : ℤ → ℤ := fun x => if x < 0 then max 0 (x + n) else min x n
  let lo := norm a
  let hi := norm b
  (l.drop lo.toNat).take (hi - lo).toNat

/-- Python `l[i]` for an `Int` index (negative counts from the end). -/
def pyIdx (l : List Elem) (i : ℤ) : Except PyError Elem :=
  let j : ℤ := if i < 0 then i + l.length else i
  if h : 0 ≤ j ∧ j < l.length then
    .ok (l.get ⟨j.toNat, by omega⟩)
  else
    .error .indexError

/-- `''.join([segm.text for segm in area])`: every item must be a string
(`Interval.text` always is; `Point.text` is whatever was stored). -/
def joinTexts (area : List Elem) : Except PyError Str :=
  area.foldlM (fun acc e =>
    match e.attrText with
    | .str s => .ok (acc ++ s)
    | _ => .error .typeError) []

/-- `Tier.concat(self, first=0, last=-1)`.  Its first statement reads the
nonexistent attribute `self.interval_tier`, so every call — interval tier or
point tier, empty range or not — raises `AttributeError`.  The rest of the
body is embedded for completeness; note that even there `area = self[first:last]`
excludes index `last`, and `self = self[first:] + new_segm + self[:last]`
would raise `TypeError` (`list + Interval`) and in any case only rebinds the
local `self` without mutating the tier. -/
def Tier.concatOp (t : Tier) (first last : ℤ) : Except PyError Tier := do
  let it ← Tier.attrIntervalTier t
  if ¬ it then .error .typeError
  else
    let area := pySlice t.elems first last
    if area ≠ [] then do
      let e1 ← pyIdx t.elems first
      let xmin ← e1.attrXmin
      let e2 ← pyIdx t.elems last
      let xmax ← e2.attrXmax
      let text ← joinTexts area
      let _ ← Interval.init (.str text) xmin xmax
      -- `self[first:] + new_segm` : list + Interval raises TypeError
      .error .typeError
    else
      .ok t

/-! ## `TextGrid.tier_from_csv` (row processing)

The importer reads `;`-separated rows and assigns `self[tier_name]` to the
built tier (`None` when the file is empty).  The row-processing loop is
embedded here over the already-split rows. -/

/-- Python truthiness of the `tier` variable in `tier_from_csv` (and of the
`tier` variable of the parsers): `None` and an empty `Tier` are falsy. -/
def tierTruthy : Option Tier → Bool
  | Option.none => false
  | some t => ¬ t.elems.isEmpty

/-- One row: arity 2 makes a `Point` (fields kept as the raw strings!),
arity 3 an `Interval` (likewise raw strings), anything else `ValueError`. -/
def csvRowElem (row : List Str) : Except PyError Elem :=
  match row with
  | [text, xpos] => .ok (.pt ⟨.str text, .str xpos⟩)
  | [text, xmin, xmax] => (Interval.init (.str text) (.str xmin) (.str xmax)).map .iv
  | _ => .error .valueError

/-- The row loop of `tier_from_csv`: builds the tier (variant fixed by the
first row); `tier.append(elem)` is plain `list.append`, so — despite the
comment in the source — a mixed interval/point file does *not* raise. -/
def tierFromCsvRows : List (List Str) → Option Tier → Except PyError (Option Tier)
  | [], acc => .ok acc
  | row :: rest, acc => do
    let elem ← csvRowElem row
    let acc' :=
      if ¬ tierTruthy acc then
        some (if elem.isPoint then Tier.mk true [] else Tier.mk false [])
      else acc
    match acc' with
    | some t => tierFromCsvRows rest (some (t.appendElem elem))
    | Option.none => .error .attributeError

/-- `tier_from_csv` over pre-split rows, returning the value assigned to
`self[tier_name]`. -/
def tierFromCsv (rows : List (List Str)) : Except PyError (Option Tier) :=
  tierFromCsvRows rows Option.none

/-! ## Line recognizers (the module-level regexes of `_parse_long` / `parse`) -/

/-- Full matches of `\d+.?\d*` (one or more digits, optionally one
arbitrary character — the `.` of the pattern is unescaped! — then more
digits): equivalently, nonempty with a leading digit and at most one
non-digit character. -/
def digitRunCheck (u : Str) : Bool :=
  match u with
  | [] => false
  | c :: _ => isDigitCh c ∧ (u.filter (fun d => ¬ isDigitCh d)).length ≤ 1

/-- `re.match('^-?\d+.?\d*$', line)`: an optional minus sign, then a full
match of `\d+.?\d*`. -/
def shortDetect (s : Str) : Bool :=
  digitRunCheck (if s.head? = some '-' then s.tail else s)

/-- `re.match(r'^item \[\d+\]:$', line)`. -/
def newTierMatch : Str → Bool
  | 'i' :: 't' :: 'e' :: 'm' :: ' ' :: '[' :: r =>
    let (ds, rest) := spanDigits r
    ds ≠ [] ∧ rest = [']', ':']
  | _ => false

/-- `re.match(r'^intervals \[\d+\]:$', line)`. -/
def newIntervalMatch : Str → Bool
  | 'i' :: 'n' :: 't' :: 'e' :: 'r' :: 'v' :: 'a' :: 'l' :: 's' :: ' ' :: '[' :: r =>
    let (ds, rest) := spanDigits r
    ds ≠ [] ∧ rest = [']', ':']
  | _ => false

/-- `re.match(r'^points \[\d+\]:$', line)`. -/
def newPointMatch : Str → Bool
  | 'p' :: 'o' :: 'i' :: 'n' :: 't' :: 's' :: ' ' :: '[' :: r =>
    let (ds, rest) := spanDigits r
    ds ≠ [] ∧ rest = [']', ':']
  | _ => false

/-- `re.match(r'(name|xmin|xmax|xpos|text) = "?.*"?$', line)`: since
`"?.*"?$` matches any remainder, this holds exactly when the line starts
with one of the five keywords followed by `' = '`. -/
def newValueMatch : Str → Bool
  | 'n' :: 'a' :: 'm' :: 'e' :: ' ' :: '=' :: ' ' :: _ => true
  | 'x' :: 'm' :: 'i' :: 'n' :: ' ' :: '=' :: ' ' :: _ => true
  | 'x' :: 'm' :: 'a' :: 'x' :: ' ' :: '=' :: ' ' :: _ => true
  | 'x' :: 'p' :: 'o' :: 's' :: ' ' :: '=' :: ' ' :: _ => true
  | 't' :: 'e' :: 'x' :: 't' :: ' ' :: '=' :: ' ' :: _ => true
  | _ => false

/-- Match `\s+=\s+(.+)$` against a suffix, returning the `(.+)` group. -/
def parseWsEq (r : Str) : Option Str :=
  let w1 := r.takeWhile isWsChar
  let r1 := r.dropWhile isWsChar
  if w1 = [] then Option.none
  else
    match r1 with
    | '=' :: r2 =>
      let w2 := r2.takeWhile isWsChar
      let r3 := r2.dropWhile isWsChar
      if w2 = [] ∨ r3 = [] then Option.none else some r3
    | _ => Option.none

/-- Scan split positions from the right (the greedy `(.+)` of the `keyval`
regex takes the rightmost split). -/
def goSplit (w : Str) : ℕ → Option (Str × Str)
  | 0 => Option.none
  | i + 1 =>
    match parseWsEq (w.drop (i + 1)) with
    | some v => some (w.take (i + 1), v)
    | Option.none => goSplit w i

/-- The `keyval` regex `^\s*(.+)\s+=\s+(.+)$` with both groups, as matched
by the backtracking engine.  For lines starting with a non-whitespace
character (the only lines `keyval` ever sees, because `new_value` prematches
them) the leading `\s*` is empty and the greedy `(.+)` selects the rightmost
split point. -/
def kvMatch (s : Str) : Option (Str × Str) :=
  let w := s.dropWhile isWsChar
  goSplit w w.length

/-- `keyval(s)`: regex match (`None.groups()` raises `AttributeError` when
the regex fails), then quoted values are unquoted strings and unquoted
values are `float`ed (`ValueError` when not numeric). -/
def keyvalE (s : Str) : Except PyError (Str × PyVal) :=
  match kvMatch s with
  | Option.none => .error .attributeError
  | some (k, v) =>
    if v.head? = some '"' then .ok (k, .str (stripQuotes v))
    else
      match parseFloat v with
      | some q => .ok (k, .num q)
      | Option.none => .error .valueError

/-! ## Fixed strings -/

def headerFT : Str := "File type = \"ooTextFile\"".toList
def headerOC : Str := "Object class = \"TextGrid\"".toList
def existsTag : Str := "<exists>".toList
def qIntervalTier : Str := "\"IntervalTier\"".toList

/-! ## The state-machine line loops -/

/-- Reading an unbound local raises `UnboundLocalError` (a `NameError`). -/
def getLocal {α : Type} : Option α → Except PyError α
  | Option.none => .error .nameError
  | some v => .ok v

/-- `tier.is_point_tier` when `tier` is `None` or the initial plain list
`[]` raises `AttributeError`; both are modelled by `Option.none` (they are
observationally identical in these loops — falsy, and without the
attribute). -/
def getTier : Option Tier → Except PyError Tier
  | Option.none => .error .attributeError
  | some t => .ok t

/-- Run a per-line step over the lines, threading the line number and
stopping at the first raised exception; the returned state is the state at
the start of the failing line (every raise in the embedded steps precedes
that line's state mutations). -/
def runLines {σ : Type} (step : σ → ℕ → Str → Except PyError σ) :
    σ → ℕ → List Str → σ × Option PyError
  | s, _, [] => (s, Option.none)
  | s, i, l :: ls =>
    match step s i l with
    | .ok s' => runLines step s' (i + 1) ls
    | .error e => (s, some e)

/-- Loop state of `_parse_long`. -/
structure LState where
  g : Grid
  name : Option PyVal
  tier : Option Tier
  x0 : Option ℚ
  x1 : Option ℚ
deriving Repr

/-- One line of the `_parse_long` loop body. -/
def longStep (s : LState) (lineno : ℕ) (line : Str) : Except PyError LState :=
  if newTierMatch line then
    if tierTruthy s.tier then do
      let nm ← getLocal s.name
      let t ← getLocal s.tier
      .ok { s with g := { s.g with items := odSet s.g.items nm t },
                   name := some .none, tier := Option.none }
    else .ok s
  else if newIntervalMatch line ∧ ¬ tierTruthy s.tier then
    .ok { s with tier := some ⟨false, []⟩ }
  else if newPointMatch line ∧ ¬ tierTruthy s.tier then
    .ok { s with tier := some ⟨true, []⟩ }
  else if newValueMatch line then do
    -- try: key, val = keyval(line) except ValueError: raise ParseError(lineno)
    let kv ← match keyvalE line with
      | .error .valueError => .error (.parseError (some lineno))
      | r => r
    let (key, val) := kv
    if key = ['n', 'a', 'm', 'e'] then
      .ok { s with name := some val }
    else if key = ['x', 'm', 'i', 'n'] then
      match val with
      | .num q => .ok { s with x0 := some q }
      | _ => .error (.parseError (some lineno))
    else if key = ['x', 'm', 'a', 'x'] ∨ key = ['x', 'p', 'o', 's'] then
      match val with
      | .num q => .ok { s with x1 := some q }
      | _ => .error (.parseError (some lineno))
    else if key = ['t', 'e', 'x', 't'] then do
      let t ← getTier s.tier
      if t.is_point_tier then do
        let x1 ← getLocal s.x1
        .ok { s with tier := some (t.appendElem (.pt ⟨val, .num x1⟩)) }
      else do
        let x0 ← getLocal s.x0
        let x1 ← getLocal s.x1
        let iv ← Interval.init val (.num x0) (.num x1)
        .ok { s with tier := some (t.appendElem (.iv iv)) }
    else .ok s
  else .ok s

/-- `float(line.split()[-1])`. -/
def lastTokenFloat (l : Str) : Except PyError ℚ :=
  match (splitWs l).getLast? with
  | Option.none => .error .indexError
  | some t =>
    match parseFloat t with
    | some q => .ok q
    | Option.none => .error .valueError

/-- `TextGrid._parse_long(data)` as a state transformer on the grid: the
returned grid carries every mutation performed before a raise. -/
def parseLongTG (g : Grid) (data : List Str) : Grid × Option PyError :=
  match data with
  | l0 :: l1 :: rest =>
    match lastTokenFloat l0 with
    | .error e => (g, some e)
    | .ok x0 =>
      match lastTokenFloat l1 with
      | .error e => (g, some e)
      | .ok x1 =>
        let g := { g with xmin := some x0, xmax := some x1 }
        match rest with
        | [] => (g, some .indexError)
        | l2 :: _ =>
          if ¬ containsSub l2 existsTag then (g, Option.none)
          else
            let st0 : LState := ⟨g, Option.none, Option.none, Option.none, Option.none⟩
            match runLines longStep st0 9 (data.drop 5) with
            | (st, some e) => (st.g, some e)
            | (st, Option.none) =>
              if tierTruthy st.tier then
                match st.name, st.tier with
                | some nm, some t =>
                  ({ st.g with items := odSet st.g.items nm t }, Option.none)
                | _, _ => (st.g, some .nameError)
              else (st.g, Option.none)
  | _ => (g, some .valueError)

/-- The positional modes of `_parse_short`'s loop. -/
inductive SMode where
  | mtype | mname | mtmin | mtmax | mtlen | mxmin | mxmop | mtext
deriving DecidableEq, Repr

/-- Loop state of `_parse_short`. -/
structure SState where
  g : Grid
  name : Option PyVal
  tier : Option Tier
  tmin : Option ℚ
  tmax : Option ℚ
  tlen : Option ℤ
  x0 : Option ℚ
  x1 : Option ℚ
  mode : SMode
deriving Repr

/-- One line of the `_parse_short` loop body.  Note which numeric fields
convert under a `try` (`x0`/`x1` become `ParseError(lineno)`) and which do
not (`tmin`/`tmax`/`tlen` let the bare `ValueError` escape). -/
def shortStep (s : SState) (lineno : ℕ) (line : Str) : Except PyError SState :=
  match s.mode with
  | .mtype =>
    .ok { s with tier := some ⟨decide (line ≠ qIntervalTier), []⟩, mode := .mname }
  | .mname =>
    .ok { s with name := some (.str (stripQuotes line)), mode := .mtmin }
  | .mtmin =>
    match parseFloat line with
    | Option.none => .error .valueError
    | some q => .ok { s with tmin := some q, mode := .mtmax }
  | .mtmax =>
    match parseFloat line with
    | Option.none => .error .valueError
    | some q => .ok { s with tmax := some q, mode := .mtlen }
  | .mtlen =>
    match parseInt line with
    | Option.none => .error .valueError
    | some n => do
      let t ← getTier s.tier
      .ok { s with tlen := some n, mode := if t.is_point_tier then .mxmop else .mxmin }
  | .mxmin =>
    match parseFloat line with
    | Option.none => .error (.parseError (some lineno))
    | some q => .ok { s with x0 := some q, mode := .mxmop }
  | .mxmop =>
    match parseFloat line with
    | Option.none => .error (.parseError (some lineno))
    | some q => .ok { s with x1 := some q, mode := .mtext }
  | .mtext => do
    let t ← getTier s.tier
    let elem ←
      if t.is_point_tier then do
        let x1 ← getLocal s.x1
        pure (Elem.pt ⟨.str (stripQuotes line), .num x1⟩)
      else do
        let x0 ← getLocal s.x0
        let x1 ← getLocal s.x1
        (Interval.init (.str (stripQuotes line)) (.num x0) (.num x1)).map Elem.iv
    let t' := t.appendElem elem
    let tl ← getLocal s.tlen
    if (t'.elems.length : ℤ) = tl then do
      let nm ← getLocal s.name
      .ok { s with g := { s.g with items := odSet s.g.items nm t' },
                   name := some .none, tier := Option.none, mode := .mtype }
    else
      .ok { s with tier := some t', mode := .mxmin }

/-- `TextGrid._parse_short(data)` as a state transformer on the grid. -/
def parseShortTG (g : Grid) (data : List Str) : Grid × Option PyError :=
  match data with
  | l0 :: l1 :: rest =>
    match parseFloat l0 with
    | Option.none => (g, some .valueError)
    | some x0 =>
      match parseFloat l1 with
      | Option.none => (g, some .valueError)
      | some x1 =>
        let g := { g with xmin := some x0, xmax := some x1 }
        match rest with
        | [] => (g, some .indexError)
        | l2 :: _ =>
          if l2 ≠ existsTag then (g, Option.none)
          else
            let st0 : SState :=
              ⟨g, Option.none, Option.none, Option.none, Option.none,
               Option.none, Option.none, Option.none, .mtype⟩
            let (st, err) := runLines shortStep st0 8 (data.drop 4)
            (st.g, err)
  | _ => (g, some .valueError)

/-- `TextGrid.parse(data)`: check the fixed three-line header (mismatch
raises a `ParseError` with no line number), then dispatch on whether
`data[3]` fully matches `-?\d+.?\d*`. -/
def parseTG (g : Grid) (data : List Str) : Grid × Option PyError :=
  match data with
  | ft :: oc :: sp :: rest =>
    if ft ≠ headerFT ∨ oc ≠ headerOC ∨ sp ≠ [] then
      (g, some (.parseError Option.none))
    else
      match rest with
      | [] => (g, some .indexError)
      | l :: _ => if shortDetect l then parseShortTG g rest else parseLongTG g rest
  | _ => (g, some .valueError)

/-! ## `TextGrid.__repr__`: the long-text serializer -/

def toL (s : String) : Str := s.toList

/-- `lst[0]` on a tier's element list. -/
def pyHeadE (l : List Elem) : Except PyError Elem :=
  match l with
  | [] => .error .indexError
  | e :: _ => .ok e

/-- The four lines of one element block (1-based index `idx + 1`);
`interval.xmin`/`interval.xmax` raise `AttributeError` on points. -/
def elemLines (idx : ℕ) (e : Elem) : Except PyError (List Str) := do
  let x0 ← e.attrXmin
  let x1 ← e.attrXmax
  .ok [toL "\t\tintervals [" ++ natStr (idx + 1) ++ toL "]:",
       toL "\t\t\txmin = " ++ strOfVal x0,
       toL "\t\t\txmax = " ++ strOfVal x1,
       toL "\t\t\ttext = \"" ++ strOfVal e.attrText ++ ['"']]

def elemBlocks : ℕ → List Elem → Except PyError (List Str)
  | _, [] => .ok []
  | i, e :: es => do
    let l ← elemLines i e
    let r ← elemBlocks (i + 1) es
    .ok (l ++ r)

/-- One tier's block: declaration lines then the element blocks. -/
def tierLines (count : ℕ) (nm : PyVal) (t : Tier) : Except PyError (List Str) := do
  let e0 ← pyHeadE t.elems
  let x0 ← e0.attrXmin
  let eL ← pyLast t.elems
  let x1 ← eL.attrXmax
  let els ← elemBlocks 0 t.elems
  .ok ([toL "\titem [" ++ natStr count ++ toL "]:",
        toL "\t\tclass = \"IntervalTier\"",
        toL "\t\tname = \"" ++ strOfVal nm ++ ['"'],
        toL "\t\txmin = " ++ strOfVal x0,
        toL "\t\txmax = " ++ strOfVal x1,
        toL "\t\tintervals: size = " ++ natStr t.elems.length] ++ els)

def tierBlocks : ℕ → List (PyVal × Tier) → Except PyError (List Str)
  | _, [] => .ok []
  | c, (nm, t) :: rest => do
    let b ← tierLines c nm t
    let r ← tierBlocks (c + 1) rest
    .ok (b ++ r)

/-- `[intervals[0].xmin for intervals in self.values()]`. -/
def firstXmins (items : List (PyVal × Tier)) : Except PyError (List PyVal) :=
  items.mapM (fun it => do
    let e ← pyHeadE it.2.elems
    e.attrXmin)

/-- `[intervals[-1].xmax for intervals in self.values()]`. -/
def lastXmaxs (items : List (PyVal × Tier)) : Except PyError (List PyVal) :=
  items.mapM (fun it => do
    let e ← pyLast it.2.elems
    e.attrXmax)

/-- `TextGrid.__repr__` up to the final join: the list `buff`.  Every tier
is emitted as `class = "IntervalTier"` with `intervals …` blocks — the
serializer has no point-tier branch, and on a point element the attribute
accesses `interval.xmin`/`interval.xmax` raise `AttributeError`. -/
def reprBuff (g : Grid) : Except PyError (List Str) :=
  let hdr : List Str := [headerFT, headerOC, []]
  if g.items.isEmpty then .ok hdr
  else do
    let h ← firstXmins g.items
    let xmin ← pyMinList h
    let l ← lastXmaxs g.items
    let xmax ← pyMaxList l
    let blocks ← tierBlocks 1 g.items
    .ok (hdr ++
         [toL "xmin = " ++ strOfVal xmin,
          toL "xmax = " ++ strOfVal xmax,
          toL "tiers? <exists>",
          toL "size = " ++ natStr g.items.length,
          toL "item []:"] ++ blocks)

/-- `line.replace('\t', '    ')`. -/
def tabRepl (l : Str) : Str := pyReplace l ['\t'] (toL "    ")

/-- `str(textgrid)`: join the buffer with newlines, tabs widened to four
spaces. -/
def reprStr (g : Grid) : Except PyError Str :=
  (reprBuff g).map (fun b => joinNl (b.map tabRepl))

/-- Reading a written file back: line-split the buffer and strip each line
(as `TextGrid.read` does before calling `parse`). -/
def readLines (s : Str) : List Str := (splitNl s).map pyStrip

/-- `parse(read(write(g)))` in the long text format: serialize, split,
strip, parse into a fresh grid.  The outer `Except` is a failure of the
serializer itself. -/
def roundTripLong (g : Grid) : Except PyError (Grid × Option PyError) :=
  (reprStr g).map (fun s => parseTG emptyGrid (readLines s))

/-! ## Side conditions under which the long-text round-trip is exact

These predicates are not from the source; they delimit the inputs on which
the serializer/parser pair above reproduces the grid. -/

/-- Characters that pass through a serialize/parse cycle verbatim: not a
double quote (which would close the quoting early), not a newline (which
breaks the line structure), not a tab (which `__repr__` widens to four
spaces), and not an equals sign (the `keyval` regex splits at the
*rightmost* ` = `). -/
def cleanChar (c : Char) : Bool :=
  ¬ (c = '"' ∨ c = '\n' ∨ c = '\t' ∨ c = '=')

/-- A string of clean characters. -/
def cleanStr (s : Str) : Bool := s.all cleanChar

/-- An element the long-text serializer can write and `_parse_long` reads
back verbatim: an `Interval` whose bounds are numbers `a ≤ b`, both exactly
decimal (as every float parsed from a written file is), with clean text. -/
def goodElem : Elem → Prop
  | .iv iv =>
    match iv.xmin, iv.xmax with
    | .num a, .num b => a ≤ b ∧ IsDec a ∧ IsDec b ∧ cleanStr iv.text = true
    | _, _ => False
  | .pt _ => False

/-- A nonempty tier of good intervals, with the flag in its interval state. -/
def goodTier (t : Tier) : Prop :=
  t.is_point_tier = false ∧ t.elems ≠ [] ∧ ∀ e ∈ t.elems, goodElem e

/-- A grid the long-text round-trip reproduces: at least one tier, every
tier good and named by a clean string, and no duplicate names. -/
def goodGrid (g : Grid) : Prop :=
  g.items ≠ [] ∧
  (∀ it ∈ g.items,
    (∃ nm : Str, it.1 = .str nm ∧ cleanStr nm = true) ∧ goodTier it.2) ∧
  (g.items.map Prod.fst).Nodup

/-! ## Canonical cooked lines

The shapes that the serializer's lines take after the reader's
tab-widening, newline split and strip; used to relate the serializer to the
line loop of `_parse_long`. -/

def cItemLine (k : ℕ) : Str :=
  ['i', 't', 'e', 'm', ' ', '['] ++ (natStr k ++ [']', ':'])

def cIntervalsLine (k : ℕ) : Str :=
  ['i', 'n', 't', 'e', 'r', 'v', 'a', 'l', 's', ' ', '['] ++ (natStr k ++ [']', ':'])

def cNameLine (nm : Str) : Str :=
  ['n', 'a', 'm', 'e'] ++ ' ' :: '=' :: ' ' :: '"' :: (nm ++ ['"'])

def cXminLine (q : ℚ) : Str :=
  ['x', 'm', 'i', 'n'] ++ ' ' :: '=' :: ' ' :: pyFloatRepr q

def cXmaxLine (q : ℚ) : Str :=
  ['x', 'm', 'a', 'x'] ++ ' ' :: '=' :: ' ' :: pyFloatRepr q

def cTextLine (tx : Str) : Str :=
  ['t', 'e', 'x', 't'] ++ ' ' :: '=' :: ' ' :: '"' :: (tx ++ ['"'])

/-- Modelled from the spec: the dispatch rule as the claim words it — after
the same three-line header check, "the first content line after the header
beginning with a digit or a minus sign selects the short-text parser,
anything else the long-text parser".  Compare with `parseTG`, which instead
requires a full match of `-?\d+.?\d*`. -/
def claimDispatch (g : Grid) (data : List Str) : Grid × Option PyError :=
  match data with
  | ft :: oc :: sp :: rest =>
    if ft ≠ headerFT ∨ oc ≠ headerOC ∨ sp ≠ [] then
      (g, some (.parseError Option.none))
    else
      match rest with
      | [] => (g, some .indexError)
      | l :: _ =>
        let beginsDigitOrMinus :=
          match l with
          | [] => false
          | c :: _ => isDigitCh c ∨ c = '-'
        if beginsDigitOrMinus then parseShortTG g rest else parseLongTG g rest
  | _ => (g, some .valueError)

/-! ## `transcript.py`: the Praat ↔ Unicode transcoder

The symbol tables, in the exact insertion order of the Python dicts
(`symbols` is built from the vowel block then `update`d with the consonant
block; dict `update` keeps the position of an existing key while replacing
its value — relevant for `\er`, which `inline_diacritics` overwrites). -/

/-- The vowel block of `symbols`. -/
def vowelSymbols : List (Str × Str) :=
  [(['\\', 'i', '-'], ['ɨ']),
   (['\\', 'u', '-'], ['ʉ']),
   (['\\', 'm', 't'], ['ɯ']),
   (['\\', 'i', 'c'], ['ɪ']),
   (['\\', 'y', 'c'], ['ʏ']),
   (['\\', 'h', 's'], ['ʊ']),
   (['\\', 'o', '/'], ['ø']),
   (['\\', 'e', '-'], ['ɘ']),
   (['\\', 'o', '-'], ['ɵ']),
   (['\\', 'r', 'h'], ['ɤ']),
   (['\\', 's', 'w'], ['ə']),
   (['\\', 'e', 'f'], ['ɛ']),
   (['\\', 'o', 'e'], ['œ']),
   (['\\', 'e', 'r'], ['ɜ']),
   (['\\', 'k', 'b'], ['ɞ']),
   (['\\', 'v', 't'], ['ʌ']),
   (['\\', 'c', 't'], ['ɔ']),
   (['\\', 'a', 'e'], ['æ']),
   (['\\', 'a', 't'], ['ɐ']),
   (['\\', 'O', 'e'], ['ɶ']),
   (['\\', 'a', 's'], ['ɑ']),
   (['\\', 'a', 'b'], ['ɒ'])]

/-- The consonant / inline block `update`d into `symbols`. -/
def consonantSymbols : List (Str × Str) :=
  [(['\\', 't', '.'], ['ʈ']),
   (['\\', '?', '-'], ['ʡ']),
   (['\\', '?', 'g'], ['ʔ']),
   (['\\', 'd', '.'], ['ɖ']),
   (['\\', 'j', '-'], ['ɟ']),
   (['\\', 'g', 's'], ['ɡ']),
   (['\\', 'g', 'c'], ['ɢ']),
   (['\\', 'm', 'j'], ['ɱ']),
   (['\\', 'n', '.'], ['ɳ']),
   (['\\', 'n', 'g'], ['ŋ']),
   (['\\', 'n', 'c'], ['ɴ']),
   (['\\', 'f', 'f'], ['ɸ']),
   (['\\', 't', 'f'], ['Ɵ']),
   (['\\', 'l', '-'], ['ɬ']),
   (['\\', 's', 'h'], ['ʃ']),
   (['\\', 's', '.'], ['ʂ']),
   (['\\', 'c', 'c'], ['ɕ']),
   (['\\', 'c', ','], ['ç']),
   (['\\', 'w', 't'], ['ʍ']),
   (['\\', 'c', 'f'], ['χ']),
   (['\\', 'h', '-'], ['ħ']),
   (['\\', 'h', 'c'], ['ʜ']),
   (['\\', 'b', 'f'], ['β']),
   (['\\', 'd', 'h'], ['ð']),
   (['\\', 'l', 'z'], ['ɮ']),
   (['\\', 'z', 'h'], ['ʒ']),
   (['\\', 'z', '.'], ['ʐ']),
   (['\\', 'z', 'c'], ['ʑ']),
   (['\\', 'j', 'c'], ['ʝ']),
   (['\\', 'g', 'f'], ['ɣ']),
   (['\\', 'r', 'i'], ['ʁ']),
   (['\\', '9', 'e'], ['ʕ']),
   (['\\', '9', '-'], ['ʢ']),
   (['\\', 'h', '^'], ['ɦ']),
   (['\\', 'v', 's'], ['ʋ']),
   (['\\', 'r', 't'], ['ɹ']),
   (['\\', 'r', '.'], ['ɻ']),
   (['\\', 'h', 't'], ['ɥ']),
   (['\\', 'm', 'l'], ['ɰ']),
   (['\\', 'b', 'c'], ['ʙ']),
   (['\\', 'r', 'c'], ['ʀ']),
   (['\\', 'f', 'h'], ['ɾ']),
   (['\\', 'r', 'l'], ['ɺ']),
   (['\\', 'f', '.'], ['ɽ']),
   (['\\', 'l', '.'], ['ɭ']),
   (['\\', 'y', 't'], ['ʎ']),
   (['\\', 'l', 'c'], ['ʟ']),
   (['\\', 'b', '^'], ['ɓ']),
   (['\\', 'd', '^'], ['ɗ']),
   (['\\', 'j', '^'], ['ʄ']),
   (['\\', 'g', '^'], ['ɠ']),
   (['\\', 'G', '^'], ['ʛ']),
   (['\\', 'O', '.'], ['ʘ']),
   (['\\', '|', '1'], ['ǀ']),
   (['\\', '|', '2'], ['ǁ']),
   (['\\', '|', '-'], ['ǂ']),
   (['\\', 'l', '~'], ['ɫ']),
   (['\\', 'h', 'j'], ['ɧ'])]

/-- `inline_diacritics` (the apostrophe and the stroke written via
`Char.ofNat` to keep the source ASCII-clean). -/
def inlineDiacritics : List (Str × Str) :=
  [(['\\', ':', 'f'], ['ː']),
   (['\\', '.', 'f'], ['ˑ']),
   (['\\', Char.ofNat 39, '1'], ['ˈ']),
   (['\\', Char.ofNat 39, '2'], ['ˌ']),
   (['\\', '|', 'f'], ['|']),
   (['\\', 'c', 'n'], ['̚']),
   (['\\', 'e', 'r'], ['˞'])]

/-- `index_diacritics`. -/
def indexDiacritics : List (Str × Str) :=
  [(['\\', '|', 'v'], ['̩']),
   (['\\', '0', 'v'], ['̥']),
   (['\\', 'T', 'v'], ['̞']),
   (['\\', 'T', '^'], ['̝']),
   (['\\', 'T', '('], ['̘']),
   (['\\', 'T', ')'], ['̙']),
   (['\\', '-', 'v'], ['̠']),
   (['\\', '+', 'v'], ['̟']),
   (['\\', ':', 'v'], ['̤']),
   (['\\', '~', 'v'], ['̰']),
   (['\\', 'N', 'v'], ['̪']),
   (['\\', 'U', 'v'], ['̺']),
   (['\\', 'D', 'v'], ['̻']),
   (['\\', 'n', 'v'], ['̯']),
   (['\\', '3', 'v'], ['̹']),
   (['\\', 'c', 'v'], ['̜']),
   (['\\', '0', '^'], ['̊']),
   (['\\', Char.ofNat 39, '^'], ['́']),
   (['\\', Char.ofNat 96, '^'], ['̀']),
   (['\\', '-', '^'], ['̄']),
   (['\\', '~', '^'], ['̃']),
   (['\\', 'v', '^'], ['̌']),
   (['\\', '^', '^'], ['̂']),
   (['\\', ':', '^'], ['̈']),
   (['\\', 'N', '^'], ['̆']),
   (['\\', 'l', 'i'], ['͡'])]

/-- `dict.update` on an association list: existing keys keep their position
but get the new value; new keys are appended in order. -/
def assocSet (l : List (Str × Str)) (k v : Str) : List (Str × Str) :=
  match l with
  | [] => [(k, v)]
  | (k', v') :: rest =>
    if k' = k then (k', v) :: rest else (k', v') :: assocSet rest k v

def dictUpdate (base upd : List (Str × Str)) : List (Str × Str) :=
  upd.foldl (fun acc kv => assocSet acc kv.1 kv.2) base

/-- The module-level `symbols` dict (vowels then consonants). -/
def symbolsTable : List (Str × Str) := dictUpdate vowelSymbols consonantSymbols

/-- `inline_symbols = symbols.copy(); inline_symbols.update(inline_diacritics)`
as built inside `transcode` — note `\er` is overwritten in place to the
rhotic hook `'˞'`. -/
def inlineSymbols : List (Str × Str) := dictUpdate symbolsTable inlineDiacritics

/-- `Transcript.transcode(self, to_unicode, retain_diacritics=False)` — the
default `retain_diacritics=False` path (the claims only exercise the
default; the `retain_diacritics=True` arms perform index-diacritic
relocation with `while` loops that are not needed here).

Stages with `retain_diacritics=False`:
1. Unicode→Praat only: delete every index-diacritic codepoint;
2. replace the `inline_symbols` pairs one after the other, in dict order,
   each by a global `str.replace`;
4. Praat→Unicode only: delete every index-diacritic escape sequence. -/
def transcode (s : Str) (to_unicode : Bool) : Str :=
  let out := s
  let out :=
    if ¬ to_unicode then
      indexDiacritics.foldl (fun o kv => pyReplace o kv.2 []) out
    else out
  let out :=
    inlineSymbols.foldl
      (fun o kv => if to_unicode then pyReplace o kv.1 kv.2 else pyReplace o kv.2 kv.1)
      out
  let out :=
    if to_unicode then
      indexDiacritics.foldl (fun o kv => pyReplace o kv.1 []) out
    else out
  out

/-! ## Concrete test fixtures -/

/-- A short-format file whose first tier's `xmin` line (`oops`) is not a
number. -/
def c4input : List Str := [headerFT, headerOC, [],
  toL "0", toL "1", toL "<exists>", toL "1",
  toL "\"IntervalTier\"", toL "\"words\"", toL "oops"]

/-- A short-format file with one complete tier (`first`) followed by a tier
whose `xmin` line is malformed: the parse fails, but only after mutating
the grid. -/
def c9partialInput : List Str := [headerFT, headerOC, [],
  toL "0", toL "1", toL "<exists>", toL "2",
  toL "\"IntervalTier\"", toL "\"first\"", toL "0", toL "1", toL "1",
  toL "0", toL "1", toL "\"hi\"",
  toL "\"IntervalTier\"", toL "\"second\"", toL "bad"]

/-- A long-format file whose fourth line `0 = 0.0` *begins with a digit*
yet does not fully match `-?\d+.?\d*`; the code parses it as long text
(successfully), while the claim's detector would feed it to the short-text
parser (which fails at `float('0 = 0.0')`). -/
def c3input : List Str := [headerFT, headerOC, [],
  toL "0 = 0.0", toL "xmax = 1.0", toL "tiers? <exists>", toL "size = 1", toL "item []:",
  toL "item [1]:", toL "class = \"IntervalTier\"", toL "name = \"w\"",
  toL "xmin = 0.0", toL "xmax = 1.0", toL "intervals: size = 1",
  toL "intervals [1]:", toL "xmin = 0.0", toL "xmax = 1.0", toL "text = \"a\""]

/-- A short-format file declaring one interval tier with one element. -/
def c10intervalInput : List Str := [headerFT, headerOC, [],
  toL "0", toL "1", toL "<exists>", toL "1",
  toL "\"IntervalTier\"", toL "\"t\"", toL "0", toL "1", toL "1",
  toL "0", toL "1", toL "\"x\""]

/-- The same file with the legacy point-tier class name `TextTier`. -/
def c10textTierInput : List Str := [headerFT, headerOC, [],
  toL "0", toL "1", toL "<exists>", toL "1",
  toL "\"TextTier\"", toL "\"t\"", toL "0", toL "1", toL "1",
  toL "0.5", toL "\"x\""]

/-- The same file with an arbitrary unrecognized class name. -/
def c10garbageInput : List Str := [headerFT, headerOC, [],
  toL "0", toL "1", toL "<exists>", toL "1",
  toL "\"banana\"", toL "\"t\"", toL "0", toL "1", toL "1",
  toL "0.5", toL "\"x\""]

/-- A grid with one interval tier and one point tier — the shape quantified
over by the round-trip claim. -/
def gridWithPointTier : Grid :=
  ⟨Option.none, Option.none,
   [(PyVal.str (toL "words"), ⟨false, [.iv ⟨toL "a", .num 0, .num 1⟩]⟩),
    (PyVal.str (toL "tones"), ⟨true, [.pt ⟨.str (toL "H"), .num (mkRat 1 2)⟩]⟩)]⟩

/-- A concrete grid of one nonempty interval tier with clean text and
integral bounds, satisfying every side condition of the exact round trip. -/
def gridGood : Grid :=
  ⟨Option.none, Option.none,
   [(PyVal.str (toL "words"), ⟨false, [.iv ⟨toL "a", .num 0, .num 1⟩]⟩)]⟩

/-! ## Side conditions under which the transcoding round-trip is exact

These definitions are not from the source; they delimit the inputs on
which `transcode` inverts itself (see the C5 theorems). -/

/-- The shape of every escape sequence in the tables: a backslash followed
by two non-backslash characters. -/
def keyShape : Str → Bool
  | [c0, c1, c2] => c0 = '\\' ∧ ¬ (c1 = '\\') ∧ ¬ (c2 = '\\')
  | _ => false

/-- The shape of every replacement: a single non-backslash character. -/
def valShape : Str → Bool
  | [c] => ¬ (c = '\\')
  | _ => false

/-- What the sequential key→value replacement pass does to a block that
only ever occurs as a whole: the first pair whose key equals the block
substitutes its value. -/
def fwdApply : List (Str × Str) → Str → Str
  | [], b => b
  | kv :: ps, b => if b = kv.1 then kv.2 else fwdApply ps b

/-- The same for the value→key return pass. -/
def bwdApply : List (Str × Str) → Str → Str
  | [], b => b
  | kv :: ps, b => if b = kv.2 then kv.1 else bwdApply ps b

/-- The three click escapes: their restored escape text contains a pipe,
which the later `\\|f` rule replaces again on the way back. -/
def bannedKeys : List Str :=
  [['\\', '|', '1'], ['\\', '|', '2'], ['\\', '|', '-']]

/-- The click letters (the values of the banned keys). -/
def bannedVals : List Str := [['ǀ'], ['ǁ'], ['ǂ']]

/-- The escape sequences the round trip reproduces: every `inline_symbols`
key except the three click escapes. -/
def okKeys : List Str :=
  (inlineSymbols.map Prod.fst).filter (fun k => !(bannedKeys.contains k))

/-- Their Unicode renderings. -/
def okValues : List Str := okKeys.map (fwdApply inlineSymbols)

/-! ## Theorems

General lemmas first, then one theorem per claim (with its witness or
counterexample where required). -/

@[simp] theorem exbind_ok {ε α β : Type} (a : α) (f : α → Except ε β) :
    (Except.ok a >>= f) = f a := rfl

@[simp] theorem exbind_err {ε α β : Type} (e : ε) (f : α → Except ε β) :
    ((Except.error e : Except ε α) >>= f) = .error e := rfl

@[simp] theorem exmap_ok {ε α β : Type} (a : α) (f : α → β) :
    (Except.ok a : Except ε α).map f = .ok (f a) := rfl

@[simp] theorem exmap_err {ε α β : Type} (e : ε) (f : α → β) :
    (Except.error e : Except ε α).map f = .error e := rfl

theorem pyReplaceF_fuel (pat rep : Str) :
    ∀ (f : ℕ) (s : Str), s.length ≤ f →
      pyReplaceF f s pat rep = pyReplaceF s.length s pat rep := by
  intro f
  induction f using Nat.strong_induction_on with
  | _ f ih =>
    intro s hs
    match f, s with
    | 0, s =>
      have : s = [] := List.eq_nil_of_length_eq_zero (by omega)
      subst this
      rfl
    | f + 1, [] => rfl
    | f + 1, c :: rest =>
      rw [show (c :: rest).length = rest.length + 1 from rfl]
      rw [pyReplaceF, pyReplaceF]
      have hr : rest.length ≤ f := by simpa using hs
      split
      · congr 1
        rw [ih f (by omega) _ (by simp only [List.length_drop]; omega),
          ih rest.length (by omega) _ (by simp only [List.length_drop]; omega)]
      · congr 1
        rw [ih f (by omega) rest hr, ih rest.length (by omega) rest (le_refl _)]

theorem pyReplace_cons (c : Char) (rest pat rep : Str) :
    pyReplace (c :: rest) pat rep =
      if pat ≠ [] ∧ pat.isPrefixOf (c :: rest) then
        rep ++ pyReplace (rest.drop (pat.length - 1)) pat rep
      else c :: pyReplace rest pat rep := by
  unfold pyReplace
  rw [show (c :: rest).length = rest.length + 1 from rfl, pyReplaceF]
  split
  · congr 1
    exact pyReplaceF_fuel pat rep rest.length _ (by simp only [List.length_drop]; omega)
  · rfl

theorem pyReplace_nil (pat rep : Str) : pyReplace [] pat rep = [] := rfl

/-! ### C2 — `Interval` construction -/

/-- **C2** (code_bug evidence).  Constructing an `Interval` with
`xmin ≤ xmax` succeeds and stores the given text and bounds; constructing
with `xmin > xmax` does fail — but with a `TypeError` (the `__init__` body
*returns* the class `ValueError` instead of raising it, and CPython rejects
a non-`None` return from `__init__` with `TypeError`), not with the
invariant-violation (`ValueError`) the claim describes. -/
theorem interval_init_behaviour :
    (∀ (t : Str) (x y : ℚ), x ≤ y →
        Interval.init (.str t) (.num x) (.num y) = .ok ⟨t, .num x, .num y⟩) ∧
    Interval.init (.str ['a']) (.num 1) (.num 0) = .error .typeError ∧
    Interval.init (.str ['a']) (.num 1) (.num 0) ≠ .error .valueError := by
  refine ⟨?_, by decide, by decide⟩
  intro t x y h
  show (pyGt (.num x) (.num y) >>= _) = _
  simp [pyGt, pyLt, strOfVal, not_lt.mpr h]

/-- Witness for `interval_init_behaviour`: instantiate the quantified part
at `text = "a"`, `xmin = 0`, `xmax = 1`. -/
theorem interval_init_behaviour_witness :
    Interval.init (.str ['a']) (.num 0) (.num 1) = .ok ⟨['a'], .num 0, .num 1⟩ :=
  interval_init_behaviour.1 ['a'] 0 1 (by norm_num)

/-! ### C6 — `Tier.concat` -/

/-- **C6** (code_bug evidence).  `Tier.concat` begins with
`if not self.interval_tier`, but no attribute `interval_tier` exists on
`Tier`, so *every* call — interval tier or point tier, empty range or not —
raises `AttributeError`; no range is ever merged and no `TypeError` is
raised for point tiers. -/
theorem tier_concat_always_attribute_error :
    ∀ (t : Tier) (first last : ℤ),
      Tier.concatOp t first last = .error .attributeError := by
  intro t a b
  show (Tier.attrIntervalTier t >>= _) = _
  simp [Tier.attrIntervalTier]

/-! ### C7 — appending a mismatched element -/

/-- **C7** (code_bug evidence).  `Tier.__add__` also reads the nonexistent
`self.interval_tier` and therefore raises `AttributeError` for every
element, mismatched or not; meanwhile `append` — the method the parsers and
the CSV importer actually use — is the unchecked `list.append`, which
happily attaches a `Point` to an interval tier (the tier is changed, and no
type-mismatch error occurs). -/
theorem tier_add_and_append_behaviour :
    (∀ (t : Tier) (e : Elem), Tier.addOp t e = .error .attributeError) ∧
    (∀ (t : Tier) (e : Elem),
        Tier.appendElem t e = { t with elems := t.elems ++ [e] }) ∧
    Tier.appendElem ⟨false, []⟩ (.pt ⟨.str ['a'], .num 0⟩) =
      ⟨false, [.pt ⟨.str ['a'], .num 0⟩]⟩ := by
  refine ⟨?_, fun t e => rfl, rfl⟩
  intro t e
  show (Tier.attrIntervalTier t >>= _) = _
  simp [Tier.attrIntervalTier]

/-! ### C8 — delimited-row (CSV) import -/

theorem tierTruthy_cons (flag : Bool) (es : List Elem) (h : es ≠ []) :
    tierTruthy (some ⟨flag, es⟩) = true := by
  cases es with
  | nil => exact absurd rfl h
  | cons e es => simp [tierTruthy, List.isEmpty]

/-- Appending a run of three-field rows to an already-started tier. -/
theorem csvRows_triples (rows : List (Str × Str × Str))
    (h : ∀ r ∈ rows, lexLt r.2.2 r.2.1 = false) :
    ∀ (flag : Bool) (es : List Elem), es ≠ [] →
      tierFromCsvRows (rows.map fun r => [r.1, r.2.1, r.2.2]) (some ⟨flag, es⟩) =
        .ok (some ⟨flag, es ++ rows.map fun r => .iv ⟨r.1, .str r.2.1, .str r.2.2⟩⟩) := by
  induction rows with
  | nil => intro flag es hes; simp [tierFromCsvRows]
  | cons r rest ih =>
    intro flag es hes
    have hr := h r (by simp)
    have hrest : ∀ x ∈ rest, lexLt x.2.2 x.2.1 = false := fun x hx => h x (by simp [hx])
    simp only [List.map_cons, tierFromCsvRows, csvRowElem]
    have hinit : Interval.init (.str r.1) (.str r.2.1) (.str r.2.2) =
        .ok ⟨r.1, .str r.2.1, .str r.2.2⟩ := by
      show (pyGt (.str r.2.1) (.str r.2.2) >>= _) = _
      simp [pyGt, pyLt, hr, strOfVal]
    rw [hinit]
    simp only [Except.map, exbind_ok, tierTruthy_cons flag es hes, not_true,
      Bool.not_true, if_false, ite_false, Tier.appendElem]
    rw [show es ++ (Elem.iv ⟨r.1, .str r.2.1, .str r.2.2⟩ ::
          rest.map fun r => Elem.iv ⟨r.1, .str r.2.1, .str r.2.2⟩) =
        (es ++ [Elem.iv ⟨r.1, .str r.2.1, .str r.2.2⟩]) ++
          (rest.map fun r => Elem.iv ⟨r.1, .str r.2.1, .str r.2.2⟩) by simp]
    exact ih hrest flag _ (by simp)

/-- **C8** (amended).  The importer: (1) a run of three-field rows builds an
interval tier whose `xmin`/`xmax` are the *raw strings* of the rows (no
float conversion); (2) a row of arity other than 2 or 3 fails with
`ValueError`; (3) a mixed three-field/two-field import does *not* fail —
`append` performs no variant check, so the point lands in the interval
tier. -/
theorem tier_from_csv_behaviour :
    (∀ (t a b : Str) (rows : List (Str × Str × Str)),
        lexLt b a = false →
        (∀ r ∈ rows, lexLt r.2.2 r.2.1 = false) →
        tierFromCsv ([t, a, b] :: rows.map (fun r => [r.1, r.2.1, r.2.2])) =
          .ok (some ⟨false, .iv ⟨t, .str a, .str b⟩ ::
                rows.map fun r => .iv ⟨r.1, .str r.2.1, .str r.2.2⟩⟩)) ∧
    (∀ (row : List Str) (rest : List (List Str)) (acc : Option Tier),
        row.length ≠ 2 → row.length ≠ 3 →
        tierFromCsvRows (row :: rest) acc = .error .valueError) ∧
    (∀ (t1 a b t2 c : Str), lexLt b a = false →
        tierFromCsv [[t1, a, b], [t2, c]] =
          .ok (some ⟨false, [.iv ⟨t1, .str a, .str b⟩, .pt ⟨.str t2, .str c⟩]⟩)) := by
  refine ⟨?_, ?_, ?_⟩
  · intro t a b rows hb hrows
    simp only [tierFromCsv, tierFromCsvRows, csvRowElem]
    have hinit : Interval.init (.str t) (.str a) (.str b) = .ok ⟨t, .str a, .str b⟩ := by
      show (pyGt (.str a) (.str b) >>= _) = _
      simp [pyGt, pyLt, hb, strOfVal]
    rw [hinit]
    show tierFromCsvRows (rows.map fun r => [r.1, r.2.1, r.2.2])
        (some ⟨false, [.iv ⟨t, .str a, .str b⟩]⟩) = _
    rw [csvRows_triples rows hrows false [.iv ⟨t, .str a, .str b⟩] (by simp)]
    simp
  · intro row rest acc h2 h3
    have : csvRowElem row = .error .valueError := by
      match row with
      | [] => rfl
      | [x] => rfl
      | [x, y] => exact absurd rfl h2
      | [x, y, z] => exact absurd rfl h3
      | x :: y :: z :: w :: r => rfl
    simp [tierFromCsvRows, this]
  · intro t1 a b t2 c hb
    simp only [tierFromCsv, tierFromCsvRows, csvRowElem]
    have hinit : Interval.init (.str t1) (.str a) (.str b) = .ok ⟨t1, .str a, .str b⟩ := by
      show (pyGt (.str a) (.str b) >>= _) = _
      simp [pyGt, pyLt, hb, strOfVal]
    rw [hinit]
    simp [Except.map, tierTruthy, Elem.isPoint, Tier.appendElem, List.isEmpty]

/-- Witness for `tier_from_csv_behaviour`: the spec's own example rows
`("k","0.0","0.3"), ("a","0.3","0.6")`, plus a wrong-arity row and a mixed
import. -/
theorem tier_from_csv_behaviour_witness :
    tierFromCsv [[['k'], ['0', '.', '0'], ['0', '.', '3']],
                 [['a'], ['0', '.', '3'], ['0', '.', '6']]] =
      .ok (some ⟨false, [.iv ⟨['k'], .str ['0', '.', '0'], .str ['0', '.', '3']⟩,
                         .iv ⟨['a'], .str ['0', '.', '3'], .str ['0', '.', '6']⟩]⟩) ∧
    tierFromCsvRows [[['k']]] Option.none = .error .valueError ∧
    tierFromCsv [[['k'], ['0'], ['1']], [['p'], ['2']]] =
      .ok (some ⟨false, [.iv ⟨['k'], .str ['0'], .str ['1']⟩,
                         .pt ⟨.str ['p'], .str ['2']⟩]⟩) := by
  refine ⟨?_, tier_from_csv_behaviour.2.1 [['k']] [] Option.none (by decide) (by decide), ?_⟩
  · have := tier_from_csv_behaviour.1 ['k'] ['0', '.', '0'] ['0', '.', '3']
      [(['a'], ['0', '.', '3'], ['0', '.', '6'])] (by decide) (by decide)
    simpa using this
  · exact tier_from_csv_behaviour.2.2 ['k'] ['0'] ['1'] ['p'] ['2'] (by decide)

/-- **C8** (counterexample).  On the spec's example rows the import yields
intervals whose `xmin`/`xmax` are the raw strings `"0.0"` …, *not* the
parsed floats the claim promises; and a mixed-arity import succeeds instead
of failing with a type error. -/
theorem tier_from_csv_counterexample :
    tierFromCsv [[['k'], ['0', '.', '0'], ['0', '.', '3']],
                 [['a'], ['0', '.', '3'], ['0', '.', '6']]] ≠
      .ok (some ⟨false, [.iv ⟨['k'], .num 0, .num (3/10)⟩,
                         .iv ⟨['a'], .num (3/10), .num (3/5)⟩]⟩) ∧
    tierFromCsv [[['k'], ['0'], ['1']], [['p'], ['2']]] =
      .ok (some ⟨false, [.iv ⟨['k'], .str ['0'], .str ['1']⟩,
                         .pt ⟨.str ['p'], .str ['2']⟩]⟩) := by
  constructor
  · decide
  · decide

/-! ### C4 — fail-fast of the short-text parser -/

/-- **C4** (amended).  Whenever the positional short-text loop reaches a
state expecting a number and the line does not parse as one, the entire
remaining parse aborts immediately — no later value is ever assigned to an
earlier field.  The error *type* depends on the field: tier `xmin`/`xmax`
(`float`) and the element count (`int`) let the bare `ValueError` escape,
while the element time values convert it to `ParseError(lineno)`. -/
theorem short_parse_fail_fast :
    (∀ (s : SState) (i : ℕ) (l : Str) (rest : List Str),
        (s.mode = .mtmin ∨ s.mode = .mtmax) → parseFloat l = Option.none →
        runLines shortStep s i (l :: rest) = (s, some .valueError)) ∧
    (∀ (s : SState) (i : ℕ) (l : Str) (rest : List Str),
        s.mode = .mtlen → parseInt l = Option.none →
        runLines shortStep s i (l :: rest) = (s, some .valueError)) ∧
    (∀ (s : SState) (i : ℕ) (l : Str) (rest : List Str),
        (s.mode = .mxmin ∨ s.mode = .mxmop) → parseFloat l = Option.none →
        runLines shortStep s i (l :: rest) = (s, some (.parseError (some i)))) := by
  refine ⟨?_, ?_, ?_⟩
  · intro s i l rest hm hp
    rcases hm with hm | hm <;> simp [runLines, shortStep, hm, hp]
  · intro s i l rest hm hp
    simp [runLines, shortStep, hm, hp]
  · intro s i l rest hm hp
    rcases hm with hm | hm <;> simp [runLines, shortStep, hm, hp]

/-- Witness for `short_parse_fail_fast`: a concrete state in each numeric
mode meeting a non-numeric line. -/
theorem short_parse_fail_fast_witness :
    runLines shortStep
      ⟨emptyGrid, Option.none, some ⟨false, []⟩, Option.none, Option.none,
       Option.none, Option.none, Option.none, .mtmin⟩ 8 [toL "oops"] =
      (⟨emptyGrid, Option.none, some ⟨false, []⟩, Option.none, Option.none,
        Option.none, Option.none, Option.none, .mtmin⟩, some .valueError) ∧
    runLines shortStep
      ⟨emptyGrid, Option.none, some ⟨false, []⟩, Option.none, Option.none,
       Option.none, Option.none, Option.none, .mxmin⟩ 12 [toL "\"t\""] =
      (⟨emptyGrid, Option.none, some ⟨false, []⟩, Option.none, Option.none,
        Option.none, Option.none, Option.none, .mxmin⟩, some (.parseError (some 12))) := by
  exact ⟨short_parse_fail_fast.1 _ 8 (toL "oops") [] (Or.inl rfl) (by decide),
         short_parse_fail_fast.2.2 _ 12 (toL "\"t\"") [] (Or.inl rfl) (by decide)⟩

/-- **C4** (counterexample).  On a short-text file whose tier-`xmin` line is
`oops`, the parse fails with a bare `ValueError` — not with the library's
format error `ParseError` that the claim names. -/
theorem short_parse_error_type_counterexample :
    parseTG emptyGrid c4input = (⟨some 0, some 1, []⟩, some .valueError) ∧
    ∀ n : Option ℕ, (PyError.valueError : PyError) ≠ .parseError n := by
  exact ⟨by decide, fun n h => PyError.noConfusion h⟩

/-! ### C9 — parsing mutates the grid in place -/

theorem odSet_keys (items : List (PyVal × Tier)) (k : PyVal) (t : Tier) (k' : PyVal)
    (h : k' ∈ items.map Prod.fst) : k' ∈ (odSet items k t).map Prod.fst := by
  induction items with
  | nil => simp at h
  | cons p rest ih =>
    rw [List.map_cons, List.mem_cons] at h
    simp only [odSet]
    by_cases hk : p.1 = k
    · rw [if_pos hk, List.map_cons, List.mem_cons]; exact h
    · rw [if_neg hk, List.map_cons, List.mem_cons]
      rcases h with h | h
      · exact Or.inl h
      · exact Or.inr (ih h)

theorem shortStep_preserves (s : SState) (i : ℕ) (l : Str) (s' : SState)
    (h : shortStep s i l = .ok s') :
    s'.g.xmin = s.g.xmin ∧ s'.g.xmax = s.g.xmax ∧
    ∀ k, k ∈ s.g.items.map Prod.fst → k ∈ s'.g.items.map Prod.fst := by
  cases hm : s.mode <;>
    simp only [shortStep, hm, Bind.bind, Except.bind, getTier, getLocal, Except.map,
      pure, Except.pure] at h <;>
    repeat' split at h
  all_goals first
    | exact Except.noConfusion h
    | (cases h; exact ⟨rfl, rfl, fun k hk => hk⟩)
    | (cases h; exact ⟨rfl, rfl, fun k hk => odSet_keys _ _ _ _ hk⟩)

theorem longStep_preserves (s : LState) (i : ℕ) (l : Str) (s' : LState)
    (h : longStep s i l = .ok s') :
    s'.g.xmin = s.g.xmin ∧ s'.g.xmax = s.g.xmax ∧
    ∀ k, k ∈ s.g.items.map Prod.fst → k ∈ s'.g.items.map Prod.fst := by
  unfold longStep at h
  by_cases h1 : newTierMatch l = true
  · rw [if_pos h1] at h
    by_cases h2 : tierTruthy s.tier = true
    · rw [if_pos h2] at h
      rcases hn : s.name with _ | nm <;> rw [hn] at h <;>
        simp only [getLocal, Bind.bind, Except.bind] at h
      · exact Except.noConfusion h
      · rcases ht : s.tier with _ | t <;> rw [ht] at h <;>
          simp only [getLocal, Bind.bind, Except.bind] at h
        · exact Except.noConfusion h
        · cases h; exact ⟨rfl, rfl, fun k hk => odSet_keys _ _ _ _ hk⟩
    · rw [if_neg h2] at h; cases h; exact ⟨rfl, rfl, fun k hk => hk⟩
  · rw [if_neg h1] at h
    by_cases h2 : newIntervalMatch l = true ∧ ¬ tierTruthy s.tier = true
    · rw [if_pos h2] at h; cases h; exact ⟨rfl, rfl, fun k hk => hk⟩
    · rw [if_neg h2] at h
      by_cases h3 : newPointMatch l = true ∧ ¬ tierTruthy s.tier = true
      · rw [if_pos h3] at h; cases h; exact ⟨rfl, rfl, fun k hk => hk⟩
      · rw [if_neg h3] at h
        by_cases h4 : newValueMatch l = true
        · rw [if_pos h4] at h
          rcases hkv : keyvalE l with e | kv
          · rcases e <;> rw [hkv] at h <;> exact Except.noConfusion h
          · rw [hkv] at h
            simp only [Bind.bind, Except.bind] at h
            by_cases k1 : kv.1 = ['n', 'a', 'm', 'e']
            · rw [if_pos k1] at h; cases h; exact ⟨rfl, rfl, fun k hk => hk⟩
            · rw [if_neg k1] at h
              by_cases k2 : kv.1 = ['x', 'm', 'i', 'n']
              · rw [if_pos k2] at h
                rcases hv : kv.2 with v | q | _ <;> rw [hv] at h <;>
                  first
                    | exact Except.noConfusion h
                    | (cases h; exact ⟨rfl, rfl, fun k hk => hk⟩)
              · rw [if_neg k2] at h
                by_cases k3 : kv.1 = ['x', 'm', 'a', 'x'] ∨ kv.1 = ['x', 'p', 'o', 's']
                · rw [if_pos k3] at h
                  rcases hv : kv.2 with v | q | _ <;> rw [hv] at h <;>
                    first
                      | exact Except.noConfusion h
                      | (cases h; exact ⟨rfl, rfl, fun k hk => hk⟩)
                · rw [if_neg k3] at h
                  by_cases k4 : kv.1 = ['t', 'e', 'x', 't']
                  · rw [if_pos k4] at h
                    rcases ht : s.tier with _ | t <;> rw [ht] at h <;>
                      simp only [getTier, Bind.bind, Except.bind] at h
                    · exact Except.noConfusion h
                    · by_cases hpt : t.is_point_tier = true
                      · rw [if_pos hpt] at h
                        rcases hx : s.x1 with _ | x1 <;> rw [hx] at h <;>
                          simp only [getLocal, Bind.bind, Except.bind] at h
                        · exact Except.noConfusion h
                        · cases h; exact ⟨rfl, rfl, fun k hk => hk⟩
                      · rw [if_neg hpt] at h
                        rcases hx0 : s.x0 with _ | x0 <;> rw [hx0] at h <;>
                          simp only [getLocal, Bind.bind, Except.bind] at h
                        · exact Except.noConfusion h
                        · rcases hx1 : s.x1 with _ | x1 <;> rw [hx1] at h <;>
                            simp only [getLocal, Bind.bind, Except.bind] at h
                          · exact Except.noConfusion h
                          · rcases hiv : Interval.init kv.2 (.num x0) (.num x1) with e | iv <;>
                              rw [hiv] at h <;>
                              simp only [Bind.bind, Except.bind] at h
                            · exact Except.noConfusion h
                            · cases h; exact ⟨rfl, rfl, fun k hk => hk⟩
                  · rw [if_neg k4] at h; cases h; exact ⟨rfl, rfl, fun k hk => hk⟩
        · rw [if_neg h4] at h; cases h; exact ⟨rfl, rfl, fun k hk => hk⟩

theorem runLines_short_preserves (ls : List Str) : ∀ (s : SState) (i : ℕ),
    (runLines shortStep s i ls).1.g.xmin = s.g.xmin ∧
    (runLines shortStep s i ls).1.g.xmax = s.g.xmax ∧
    ∀ k, k ∈ s.g.items.map Prod.fst →
      k ∈ (runLines shortStep s i ls).1.g.items.map Prod.fst := by
  induction ls with
  | nil => intro s i; exact ⟨rfl, rfl, fun k hk => hk⟩
  | cons l rest ih =>
    intro s i
    rw [runLines]
    rcases hs : shortStep s i l with e | s'
    · exact ⟨rfl, rfl, fun k hk => hk⟩
    · obtain ⟨h1, h2, h3⟩ := shortStep_preserves s i l s' hs
      obtain ⟨g1, g2, g3⟩ := ih s' (i + 1)
      exact ⟨g1.trans h1, g2.trans h2, fun k hk => g3 k (h3 k hk)⟩

theorem runLines_long_preserves (ls : List Str) : ∀ (s : LState) (i : ℕ),
    (runLines longStep s i ls).1.g.xmin = s.g.xmin ∧
    (runLines longStep s i ls).1.g.xmax = s.g.xmax ∧
    ∀ k, k ∈ s.g.items.map Prod.fst →
      k ∈ (runLines longStep s i ls).1.g.items.map Prod.fst := by
  induction ls with
  | nil => intro s i; exact ⟨rfl, rfl, fun k hk => hk⟩
  | cons l rest ih =>
    intro s i
    rw [runLines]
    rcases hs : longStep s i l with e | s'
    · exact ⟨rfl, rfl, fun k hk => hk⟩
    · obtain ⟨h1, h2, h3⟩ := longStep_preserves s i l s' hs
      obtain ⟨g1, g2, g3⟩ := ih s' (i + 1)
      exact ⟨g1.trans h1, g2.trans h2, fun k hk => g3 k (h3 k hk)⟩

/-- **C9**.  Parsing is not atomic: neither parser clears existing tiers
(every existing tier name is still a key of the resulting grid, whatever
the input and wherever it fails); as soon as the two header lines parse,
the grid's global `xmin`/`xmax` are overwritten with their values — even
when a parse error is raised later; and on a concrete input whose second
tier is malformed, the failing parse leaves the completed first tier (and
the overwritten header extent) in the grid. -/
theorem parse_mutates_in_place :
    (∀ (g : Grid) (data : List Str) (k : PyVal),
        k ∈ g.items.map Prod.fst →
        k ∈ (parseShortTG g data).1.items.map Prod.fst) ∧
    (∀ (g : Grid) (data : List Str) (k : PyVal),
        k ∈ g.items.map Prod.fst →
        k ∈ (parseLongTG g data).1.items.map Prod.fst) ∧
    (∀ (g : Grid) (l0 l1 : Str) (rest : List Str) (x0 x1 : ℚ),
        parseFloat l0 = some x0 → parseFloat l1 = some x1 →
        (parseShortTG g (l0 :: l1 :: rest)).1.xmin = some x0 ∧
        (parseShortTG g (l0 :: l1 :: rest)).1.xmax = some x1) ∧
    (∀ (g : Grid) (l0 l1 : Str) (rest : List Str) (x0 x1 : ℚ),
        lastTokenFloat l0 = .ok x0 → lastTokenFloat l1 = .ok x1 →
        (parseLongTG g (l0 :: l1 :: rest)).1.xmin = some x0 ∧
        (parseLongTG g (l0 :: l1 :: rest)).1.xmax = some x1) ∧
    parseTG emptyGrid c9partialInput =
      (⟨some 0, some 1,
        [(.str (toL "first"), ⟨false, [.iv ⟨toL "hi", .num 0, .num 1⟩]⟩)]⟩,
       some .valueError) := by
  have hshort : ∀ (g : Grid) (l0 l1 : Str) (rest : List Str) (x0 x1 : ℚ),
      parseFloat l0 = some x0 → parseFloat l1 = some x1 →
      (parseShortTG g (l0 :: l1 :: rest)).1.xmin = some x0 ∧
      (parseShortTG g (l0 :: l1 :: rest)).1.xmax = some x1 ∧
      ∀ k, k ∈ g.items.map Prod.fst →
        k ∈ (parseShortTG g (l0 :: l1 :: rest)).1.items.map Prod.fst := by
    intro g l0 l1 rest x0 x1 h0 h1
    match rest with
    | [] =>
      refine ⟨by simp [parseShortTG, h0, h1], by simp [parseShortTG, h0, h1], fun k hk => ?_⟩
      simpa [parseShortTG, h0, h1] using hk
    | l2 :: rest2 =>
      simp only [parseShortTG, h0, h1]
      by_cases he : l2 ≠ existsTag
      · rw [if_pos he]; exact ⟨rfl, rfl, fun k hk => hk⟩
      · rw [if_neg he]
        have hp := runLines_short_preserves ((l0 :: l1 :: l2 :: rest2).drop 4)
          ⟨{ g with xmin := some x0, xmax := some x1 }, Option.none, Option.none,
           Option.none, Option.none, Option.none, Option.none, Option.none, .mtype⟩ 8
        rcases hr : runLines shortStep
          ⟨{ g with xmin := some x0, xmax := some x1 }, Option.none, Option.none,
           Option.none, Option.none, Option.none, Option.none, Option.none, .mtype⟩ 8
          ((l0 :: l1 :: l2 :: rest2).drop 4) with ⟨st, err⟩
        rw [hr] at hp
        exact ⟨hp.1, hp.2.1, fun k hk => hp.2.2 k hk⟩
  have hlong : ∀ (g : Grid) (l0 l1 : Str) (rest : List Str) (x0 x1 : ℚ),
      lastTokenFloat l0 = .ok x0 → lastTokenFloat l1 = .ok x1 →
      (parseLongTG g (l0 :: l1 :: rest)).1.xmin = some x0 ∧
      (parseLongTG g (l0 :: l1 :: rest)).1.xmax = some x1 ∧
      ∀ k, k ∈ g.items.map Prod.fst →
        k ∈ (parseLongTG g (l0 :: l1 :: rest)).1.items.map Prod.fst := by
    intro g l0 l1 rest x0 x1 h0 h1
    match rest with
    | [] =>
      refine ⟨by simp [parseLongTG, h0, h1], by simp [parseLongTG, h0, h1], fun k hk => ?_⟩
      simpa [parseLongTG, h0, h1] using hk
    | l2 :: rest2 =>
      simp only [parseLongTG, h0, h1]
      by_cases he : containsSub l2 existsTag = true
      · rw [if_neg (by simpa using he)]
        have hp := runLines_long_preserves ((l0 :: l1 :: l2 :: rest2).drop 5)
          ⟨{ g with xmin := some x0, xmax := some x1 }, Option.none, Option.none,
           Option.none, Option.none⟩ 9
        rcases hr : runLines longStep
          ⟨{ g with xmin := some x0, xmax := some x1 }, Option.none, Option.none,
           Option.none, Option.none⟩ 9 ((l0 :: l1 :: l2 :: rest2).drop 5) with ⟨st, err⟩
        rw [hr] at hp
        rcases err with _ | e
        · by_cases htt : tierTruthy st.tier = true
          · simp only [htt, eq_self_iff_true, if_true]
            rcases hn : st.name with _ | nm
            · exact ⟨hp.1, hp.2.1, fun k hk => hp.2.2 k hk⟩
            · rcases ht : st.tier with _ | t
              · exact ⟨hp.1, hp.2.1, fun k hk => hp.2.2 k hk⟩
              · exact ⟨hp.1, hp.2.1, fun k hk => odSet_keys _ _ _ _ (hp.2.2 k hk)⟩
          · simp only [Bool.not_eq_true] at htt
            simp only [htt, Bool.false_eq_true, if_false]
            exact ⟨hp.1, hp.2.1, fun k hk => hp.2.2 k hk⟩
        · exact ⟨hp.1, hp.2.1, fun k hk => hp.2.2 k hk⟩
      · rw [if_pos (by simpa using he)]
        exact ⟨rfl, rfl, fun k hk => hk⟩
  refine ⟨?_, ?_, ?_, ?_, by decide⟩
  · intro g data k hk
    match data with
    | [] => exact hk
    | [l0] => exact hk
    | l0 :: l1 :: rest =>
      simp only [parseShortTG]
      rcases h0 : parseFloat l0 with _ | x0
      · exact hk
      rcases h1 : parseFloat l1 with _ | x1
      · exact hk
      have := (hshort g l0 l1 rest x0 x1 h0 h1).2.2 k hk
      simpa [parseShortTG, h0, h1] using this
  · intro g data k hk
    match data with
    | [] => exact hk
    | [l0] => exact hk
    | l0 :: l1 :: rest =>
      simp only [parseLongTG]
      rcases h0 : lastTokenFloat l0 with e | x0
      · exact hk
      rcases h1 : lastTokenFloat l1 with e | x1
      · exact hk
      have := (hlong g l0 l1 rest x0 x1 h0 h1).2.2 k hk
      simpa [parseLongTG, h0, h1] using this
  · intro g l0 l1 rest x0 x1 h0 h1
    exact ⟨(hshort g l0 l1 rest x0 x1 h0 h1).1, (hshort g l0 l1 rest x0 x1 h0 h1).2.1⟩
  · intro g l0 l1 rest x0 x1 h0 h1
    exact ⟨(hlong g l0 l1 rest x0 x1 h0 h1).1, (hlong g l0 l1 rest x0 x1 h0 h1).2.1⟩

/-- Witness for `parse_mutates_in_place`: a grid already holding a tier
named `old` parsed against a short header — the key survives and the extent
is overwritten. -/
theorem parse_mutates_in_place_witness :
    (PyVal.str (toL "old")) ∈
      ((parseShortTG ⟨Option.none, Option.none, [(.str (toL "old"), ⟨false, []⟩)]⟩
          [toL "0", toL "1"]).1.items.map Prod.fst) ∧
    (parseShortTG ⟨Option.none, Option.none, []⟩ [toL "0", toL "1"]).1.xmin = some 0 := by
  constructor
  · exact parse_mutates_in_place.1 _ [toL "0", toL "1"] _ (by decide)
  · exact (parse_mutates_in_place.2.2.1 emptyGrid (toL "0") (toL "1") [] 0 1
      (by decide) (by decide)).1

/-! ### C10 — short-text tier-type classification -/

/-- **C10**.  In the short-text parser a type line produces an interval
tier exactly when it is the quoted string `"IntervalTier"`; every other
line — the legacy point-tier names and arbitrary garbage alike — silently
yields a point tier, and the type-line step never raises.  Demonstrated
both at the step level and on three complete files differing only in the
tier-type line. -/
theorem short_tier_type_classification :
    (∀ (s : SState) (i : ℕ) (l : Str), s.mode = .mtype →
        ∃ t : Tier, shortStep s i l = .ok { s with tier := some t, mode := .mname } ∧
          t.elems = [] ∧ (t.is_point_tier = false ↔ l = qIntervalTier)) ∧
    parseTG emptyGrid c10intervalInput =
      (⟨some 0, some 1,
        [(.str (toL "t"), ⟨false, [.iv ⟨toL "x", .num 0, .num 1⟩]⟩)]⟩, Option.none) ∧
    parseTG emptyGrid c10textTierInput =
      (⟨some 0, some 1,
        [(.str (toL "t"), ⟨true, [.pt ⟨.str (toL "x"), .num (mkRat 1 2)⟩]⟩)]⟩, Option.none) ∧
    parseTG emptyGrid c10garbageInput =
      (⟨some 0, some 1,
        [(.str (toL "t"), ⟨true, [.pt ⟨.str (toL "x"), .num (mkRat 1 2)⟩]⟩)]⟩, Option.none) := by
  refine ⟨?_, by decide, by decide, by decide⟩
  intro s i l hm
  refine ⟨⟨decide (l ≠ qIntervalTier), []⟩, by simp [shortStep, hm], rfl, ?_⟩
  constructor
  · intro h
    by_contra hne
    simp [hne] at h
  · intro h
    simp [h]

/-- Witness for `short_tier_type_classification`: the step applied to a
concrete state and the legacy `"TextTier"` line. -/
theorem short_tier_type_classification_witness :
    ∃ t : Tier,
      shortStep ⟨emptyGrid, Option.none, Option.none, Option.none, Option.none,
        Option.none, Option.none, Option.none, .mtype⟩ 8 (toL "\"TextTier\"") =
        .ok { (⟨emptyGrid, Option.none, Option.none, Option.none, Option.none,
          Option.none, Option.none, Option.none, .mtype⟩ : SState) with
            tier := some t, mode := .mname } ∧
      t.elems = [] ∧ (t.is_point_tier = false ↔ toL "\"TextTier\"" = qIntervalTier) :=
  short_tier_type_classification.1 _ 8 (toL "\"TextTier\"") rfl

/-! ### C3 — format detection and dispatch -/

theorem filter_nil_of_digits (d : Str) (hd : ∀ c ∈ d, isDigitCh c) :
    d.filter (fun c => ¬ isDigitCh c) = [] := by
  rw [List.filter_eq_nil_iff]
  intro c hc
  simp [hd c hc]

theorem dropWhile_head_not (p : Char → Bool) (l : Str) (c : Char) (t : Str)
    (h : l.dropWhile p = c :: t) : p c = false := by
  induction l with
  | nil => simp at h
  | cons a as ih =>
    rw [List.dropWhile_cons] at h
    by_cases hp : p a = true
    · rw [if_pos hp] at h; exact ih h
    · rw [if_neg hp] at h
      cases h
      simpa using hp

theorem digitRunCheck_iff (u : Str) :
    digitRunCheck u = true ↔
      ∃ (d r : Str), u = d ++ r ∧ d ≠ [] ∧ (∀ c ∈ d, isDigitCh c) ∧
        (r = [] ∨ ∃ (c : Char) (t : Str), r = c :: t ∧ ∀ x ∈ t, isDigitCh x) := by
  constructor
  · intro h
    obtain ⟨c, us, hcu⟩ : ∃ c us, u = c :: us := by
      rcases u with _ | ⟨c, us⟩
      · simp [digitRunCheck] at h
      · exact ⟨c, us, rfl⟩
    rw [hcu] at h
    simp only [digitRunCheck, Bool.and_eq_true, decide_eq_true_eq] at h
    obtain ⟨hc, hcount⟩ := h
    rw [← hcu] at hcount
    have hsplit : u = u.takeWhile isDigitCh ++ u.dropWhile isDigitCh :=
      (List.takeWhile_append_dropWhile isDigitCh u).symm
    have hdnil : u.takeWhile isDigitCh ≠ [] := by
      rw [hcu, List.takeWhile_cons, if_pos hc]
      simp
    have hddig : ∀ x ∈ u.takeWhile isDigitCh, isDigitCh x := by
      intro x hx
      exact List.mem_takeWhile_imp hx
    refine ⟨u.takeWhile isDigitCh, u.dropWhile isDigitCh, hsplit, hdnil, hddig, ?_⟩
    rcases hdw : u.dropWhile isDigitCh with _ | ⟨c0, t⟩
    · exact Or.inl rfl
    · refine Or.inr ⟨c0, t, rfl, ?_⟩
      have hc0 : isDigitCh c0 = false := dropWhile_head_not _ _ _ _ hdw
      have hfil : u.filter (fun d => ¬ isDigitCh d) =
          c0 :: t.filter (fun d => ¬ isDigitCh d) := by
        conv_lhs => rw [hsplit]
        rw [List.filter_append, filter_nil_of_digits _ hddig, hdw, List.filter_cons]
        simp [hc0]
      rw [hfil] at hcount
      simp only [List.length_cons] at hcount
      have ht0 : t.filter (fun d => ¬ isDigitCh d) = [] := by
        rcases hft : t.filter (fun d => ¬ isDigitCh d) with _ | ⟨y, ys⟩
        · rfl
        · rw [hft] at hcount; simp at hcount
      intro x hx
      by_contra hnd
      have hmem : x ∈ t.filter (fun d => ¬ isDigitCh d) :=
        List.mem_filter.mpr ⟨hx, by simpa using hnd⟩
      rw [ht0] at hmem
      simp at hmem
  · rintro ⟨d, r, hl, hd, hddig, hr⟩
    rcases hdc : d with _ | ⟨c, cs⟩
    · exact absurd hdc hd
    · have hcdig : isDigitCh c = true := hddig c (by rw [hdc]; simp)
      have hcount : ((d ++ r).filter (fun x => ¬ isDigitCh x)).length ≤ 1 := by
        rw [List.filter_append, List.length_append, filter_nil_of_digits d hddig]
        simp only [List.length_nil, Nat.zero_add]
        rcases hr with hr | ⟨c0, t, hrt, htdig⟩
        · simp [hr]
        · rw [hrt, List.filter_cons, filter_nil_of_digits t htdig]
          by_cases h0 : isDigitCh c0 = true <;> simp [h0]
      subst hl
      rw [hdc]
      simp only [digitRunCheck, List.cons_append, Bool.and_eq_true, decide_eq_true_eq]
      refine ⟨hcdig, ?_⟩
      have := hcount
      rw [hdc] at this
      simpa using this

theorem shortDetect_iff (l : Str) :
    shortDetect l = true ↔
      ∃ (m d r : Str), l = m ++ d ++ r ∧ (m = [] ∨ m = ['-']) ∧ d ≠ [] ∧
        (∀ c ∈ d, isDigitCh c) ∧
        (r = [] ∨ ∃ (c : Char) (t : Str), r = c :: t ∧ ∀ x ∈ t, isDigitCh x) := by
  unfold shortDetect
  by_cases hm : l.head? = some '-'
  · rw [if_pos hm]
    rcases l with _ | ⟨a, ls⟩
    · simp at hm
    · simp only [List.head?_cons, Option.some.injEq] at hm
      subst hm
      simp only [List.tail_cons]
      rw [digitRunCheck_iff]
      constructor
      · rintro ⟨d, r, hl, hd, hddig, hr⟩
        exact ⟨['-'], d, r, by rw [hl]; rfl, Or.inr rfl, hd, hddig, hr⟩
      · rintro ⟨m, d, r, hl, hmm, hd, hddig, hr⟩
        rcases hmm with hmm | hmm
        · -- m empty: then '-' :: ls = d ++ r with d all digits: head '-' digit, contradiction
          subst hmm
          simp only [List.nil_append] at hl
          rcases hdc : d with _ | ⟨c, cs⟩
          · exact absurd hdc hd
          · rw [hdc] at hl
            simp only [List.cons_append, List.cons.injEq] at hl
            have : isDigitCh c = true := hddig c (by rw [hdc]; simp)
            rw [← hl.1] at this
            exact absurd this (by decide)
        · subst hmm
          simp only [List.cons_append, List.cons.injEq, true_and] at hl
          exact ⟨d, r, hl, hd, hddig, hr⟩
  · rw [if_neg hm]
    rw [digitRunCheck_iff]
    constructor
    · rintro ⟨d, r, hl, hd, hddig, hr⟩
      exact ⟨[], d, r, by rw [hl]; rfl, Or.inl rfl, hd, hddig, hr⟩
    · rintro ⟨m, d, r, hl, hmm, hd, hddig, hr⟩
      rcases hmm with hmm | hmm
      · subst hmm
        simp only [List.nil_append] at hl
        exact ⟨d, r, hl, hd, hddig, hr⟩
      · subst hmm
        rw [hl] at hm
        simp at hm

/-- **C3** (amended).  `TextGrid.parse`: (1) when the first three lines are
not exactly the fixed header, a `ParseError` (no line number) is raised with
the grid untouched; (2) with the header in place, the parser dispatches on a
*full* `re.match` of `-?\d+.?\d*` against the fourth line — short text on a
match, long text otherwise; (3) that detector accepts exactly the strings of
the form optional-minus, a nonempty digit run, then optionally one arbitrary
character followed by digits — *not* "begins with a digit or a minus sign"
as the claim words it.  (The BOM/UTF-16 clause concerns `read`'s file I/O,
outside this embedding; and this version has no binary codec at all, so the
claim's binary-signature step has no counterpart in the code.) -/
theorem read_classification :
    (∀ (g : Grid) (ft oc sp : Str) (rest : List Str),
        ft ≠ headerFT ∨ oc ≠ headerOC ∨ sp ≠ [] →
        parseTG g (ft :: oc :: sp :: rest) = (g, some (.parseError Option.none))) ∧
    (∀ (g : Grid) (l : Str) (rest : List Str),
        parseTG g (headerFT :: headerOC :: [] :: l :: rest) =
          if shortDetect l = true then parseShortTG g (l :: rest)
          else parseLongTG g (l :: rest)) ∧
    (∀ l : Str, shortDetect l = true ↔
      ∃ (m d r : Str), l = m ++ d ++ r ∧ (m = [] ∨ m = ['-']) ∧ d ≠ [] ∧
        (∀ c ∈ d, isDigitCh c) ∧
        (r = [] ∨ ∃ (c : Char) (t : Str), r = c :: t ∧ ∀ x ∈ t, isDigitCh x)) := by
  refine ⟨?_, ?_, shortDetect_iff⟩
  · intro g ft oc sp rest h
    simp only [parseTG, if_pos h]
  · intro g l rest
    simp only [parseTG]
    rw [if_neg (by simp)]

/-- Witness for `read_classification`: a wrong first header line, and the
dispatch equation at a concrete content line. -/
theorem read_classification_witness :
    parseTG emptyGrid (toL "bogus" :: headerOC :: [] :: []) =
      (emptyGrid, some (.parseError Option.none)) ∧
    (shortDetect (toL "0.5") = true ↔
      ∃ (m d r : Str), toL "0.5" = m ++ d ++ r ∧ (m = [] ∨ m = ['-']) ∧ d ≠ [] ∧
        (∀ c ∈ d, isDigitCh c) ∧
        (r = [] ∨ ∃ (c : Char) (t : Str), r = c :: t ∧ ∀ x ∈ t, isDigitCh x)) :=
  ⟨read_classification.1 emptyGrid (toL "bogus") headerOC [] [] (Or.inl (by decide)),
   read_classification.2.2 (toL "0.5")⟩

/-- **C3** (counterexample).  The long-format file `c3input` has fourth line
`0 = 0.0`, which *begins with a digit*: under the claim's detector it would
go to the short-text parser and fail at `float('0 = 0.0')` with
`ValueError`; the code's full-match detector rejects it, the long-text
parser runs, and the parse succeeds with one tier. -/
theorem read_classification_counterexample :
    (parseTG emptyGrid c3input).2 = Option.none ∧
    (parseTG emptyGrid c3input).1.items.length = 1 ∧
    claimDispatch emptyGrid c3input = (emptyGrid, some .valueError) := by
  refine ⟨by decide, by decide, by decide⟩


/-! ### Support lemmas for the C1 round-trip: numbers -/

theorem natDigits_lt (n : ℕ) : ∀ d ∈ natDigits n, d < 10 := by
  induction n using Nat.strong_induction_on with
  | _ n ih =>
    intro d hd
    rw [natDigits] at hd
    by_cases h : n < 10
    · rw [dif_pos h] at hd; simp at hd; omega
    · rw [dif_neg h] at hd
      rcases List.mem_append.mp hd with h1 | h1
      · exact ih (n / 10) (Nat.div_lt_self (by omega) (by omega)) d h1
      · simp at h1; omega

theorem natDigits_ne_nil (n : ℕ) : natDigits n ≠ [] := by
  rw [natDigits]
  by_cases h : n < 10
  · rw [dif_pos h]; simp
  · rw [dif_neg h]; simp

theorem digitsVal_append (xs : List ℕ) (d : ℕ) :
    digitsVal (xs ++ [d]) = digitsVal xs * 10 + d := by
  simp [digitsVal, List.foldl_append]

theorem digitsVal_natDigits (n : ℕ) : digitsVal (natDigits n) = n := by
  induction n using Nat.strong_induction_on with
  | _ n ih =>
    rw [natDigits]
    by_cases h : n < 10
    · rw [dif_pos h]; simp [digitsVal]
    · rw [dif_neg h, digitsVal_append, ih (n / 10) (Nat.div_lt_self (by omega) (by omega))]
      omega

theorem chToDigit_digitToCh (d : ℕ) (h : d < 10) : chToDigit (digitToCh d) = d := by
  interval_cases d <;> decide

theorem isDigitCh_digitToCh (d : ℕ) (h : d < 10) : isDigitCh (digitToCh d) = true := by
  interval_cases d <;> decide

theorem digitsChVal_natStr (n : ℕ) : digitsChVal (natStr n) = n := by
  unfold natStr digitsChVal
  rw [List.foldl_map]
  have he : List.foldl (fun a d => a * 10 + chToDigit (digitToCh d)) 0 (natDigits n)
      = List.foldl (fun a d => a * 10 + d) 0 (natDigits n) := by
    apply List.foldl_ext
    intro a d hd
    rw [chToDigit_digitToCh d (natDigits_lt n d hd)]
  rw [he]
  exact digitsVal_natDigits n

theorem natStr_digits (n : ℕ) : ∀ c ∈ natStr n, isDigitCh c = true := by
  intro c hc
  unfold natStr at hc
  obtain ⟨d, hd, rfl⟩ := List.mem_map.mp hc
  exact isDigitCh_digitToCh d (natDigits_lt n d hd)

theorem natStr_ne_nil (n : ℕ) : natStr n ≠ [] := by
  unfold natStr
  simp [natDigits_ne_nil n]

theorem natDigits_length_le (k : ℕ) (hk : 1 ≤ k) : ∀ n, n < 10 ^ k → (natDigits n).length ≤ k := by
  induction k, hk using Nat.le_induction with
  | base =>
    intro n hn
    rw [natDigits]
    rw [dif_pos (by omega : n < 10)]
    simp
  | succ k hk ih =>
    intro n hn
    rw [natDigits]
    by_cases h : n < 10
    · rw [dif_pos h]; simp only [List.length_cons, List.length_nil]; omega
    · rw [dif_neg h]
      have hdiv : n / 10 < 10 ^ k := by
        have hlt : n < 10 ^ k * 10 := by rw [← pow_succ]; exact hn
        omega
      have := ih (n / 10) hdiv
      simp only [List.length_append, List.length_cons, List.length_nil]
      omega

theorem digitsChVal_append (xs ys : Str) :
    digitsChVal (xs ++ ys) = ys.foldl (fun a c => a * 10 + chToDigit c) (digitsChVal xs) := by
  simp [digitsChVal, List.foldl_append]

theorem digitsChVal_zeros (m : ℕ) (s : Str) :
    digitsChVal (List.replicate m '0' ++ s) = digitsChVal s := by
  rw [digitsChVal_append]
  have hz : digitsChVal (List.replicate m '0') = 0 := by
    induction m with
    | zero => rfl
    | succ m ih =>
      rw [List.replicate_succ]
      unfold digitsChVal at ih ⊢
      simp only [List.foldl_cons]
      have : (0 : ℕ) * 10 + chToDigit '0' = 0 := by decide
      rw [this]
      exact ih
  rw [hz]
  rfl

theorem takeWhile_append_of_all {p : Char → Bool} (a b : Str) (h : ∀ c ∈ a, p c = true) :
    (a ++ b).takeWhile p = a ++ b.takeWhile p := by
  induction a with
  | nil => rfl
  | cons x xs ih =>
    rw [List.cons_append, List.takeWhile_cons, if_pos (h x (by simp)), ih (fun c hc => h c (by simp [hc]))]
    rfl

theorem dropWhile_append_of_all {p : Char → Bool} (a b : Str) (h : ∀ c ∈ a, p c = true) :
    (a ++ b).dropWhile p = b.dropWhile p := by
  induction a with
  | nil => rfl
  | cons x xs ih =>
    rw [List.cons_append, List.dropWhile_cons, if_pos (h x (by simp)), ih (fun c hc => h c (by simp [hc]))]

theorem takeWhile_of_all {p : Char → Bool} (a : Str) (h : ∀ c ∈ a, p c = true) :
    a.takeWhile p = a := by
  have := takeWhile_append_of_all a [] h
  simpa using this

theorem dropWhile_of_all {p : Char → Bool} (a : Str) (h : ∀ c ∈ a, p c = true) :
    a.dropWhile p = [] := by
  have := dropWhile_append_of_all a [] h
  simpa using this

theorem digit_not_ws (c : Char) (h : isDigitCh c = true) : isWsChar c = false := by
  by_contra hw
  simp only [Bool.not_eq_false] at hw
  unfold isWsChar at hw
  simp only [decide_eq_true_eq] at hw
  rcases hw with rfl | rfl | rfl | rfl | rfl | rfl <;> exact absurd h (by decide)

theorem parseSign_other (c : Char) (r : Str) (h1 : c ≠ '-') (h2 : c ≠ '+') :
    parseSign (c :: r) = (false, c :: r) := by
  unfold parseSign
  split
  · next heq => rw [List.cons.injEq] at heq; exact absurd heq.1 h1
  · next heq => rw [List.cons.injEq] at heq; exact absurd heq.1 h2
  · rfl

theorem dropWhile_eq_self_of_all {p : Char → Bool} (s : Str) (h : ∀ c ∈ s, p c = false) :
    s.dropWhile p = s := by
  cases s with
  | nil => rfl
  | cons c cs => rw [List.dropWhile_cons, if_neg (by simp [h c (by simp)])]

theorem pyStrip_eq_self (s : Str) (h : ∀ c ∈ s, isWsChar c = false) : pyStrip s = s := by
  unfold pyStrip
  rw [dropWhile_eq_self_of_all s h, dropWhile_eq_self_of_all s.reverse
    (fun c hc => h c (List.mem_reverse.mp hc)), List.reverse_reverse]

theorem digit_ne_sign (c : Char) (h : isDigitCh c = true) : c ≠ '-' ∧ c ≠ '+' := by
  constructor <;> rintro rfl <;> exact absurd h (by decide)

theorem fracStr_digits (k fr : ℕ) : ∀ c ∈ fracStr k fr, isDigitCh c = true := by
  intro c hc
  unfold fracStr at hc
  rcases List.mem_append.mp hc with h1 | h1
  · rw [List.eq_of_mem_replicate h1]; decide
  · exact natStr_digits fr c h1

theorem digitsChVal_fracStr (k fr : ℕ) : digitsChVal (fracStr k fr) = fr := by
  unfold fracStr
  rw [digitsChVal_zeros, digitsChVal_natStr]

theorem fracStr_length (k fr : ℕ) (hk : 1 ≤ k) (hfr : fr < 10 ^ k) :
    (fracStr k fr).length = k := by
  unfold fracStr
  have hle := natDigits_length_le k hk fr hfr
  simp only [List.length_append, List.length_replicate, natStr, List.length_map]
  omega

theorem denExp_spec (q : ℚ) (k : ℕ) (h : denExp q = some k) :
    q.den ∣ 10 ^ k ∧ (k = 0 → q.den = 1) := by
  simp only [denExp] at h
  split at h
  · next hcond =>
    rw [Option.some.injEq] at h
    constructor
    · rw [hcond, ← h]
      have h2 : (2 : ℕ) ^ multOf 2 q.den ∣ 2 ^ max (multOf 2 q.den) (multOf 5 q.den) :=
        pow_dvd_pow 2 (le_max_left _ _)
      have h5 : (5 : ℕ) ^ multOf 5 q.den ∣ 5 ^ max (multOf 2 q.den) (multOf 5 q.den) :=
        pow_dvd_pow 5 (le_max_right _ _)
      have : (10 : ℕ) ^ max (multOf 2 q.den) (multOf 5 q.den) =
          2 ^ max (multOf 2 q.den) (multOf 5 q.den) * 5 ^ max (multOf 2 q.den) (multOf 5 q.den) := by
        rw [← mul_pow]
        norm_num
      rw [this]
      exact mul_dvd_mul h2 h5
    · intro hk0
      rw [← h] at hk0
      have ha : multOf 2 q.den = 0 := by omega
      have hb : multOf 5 q.den = 0 := by omega
      rw [hcond, ha, hb]
      simp
  · exact absurd h (by simp)

theorem rat_of_num_den_cast (q : ℚ) : ((q.num : ℚ)) / ((q.den : ℚ)) = q := Rat.num_div_den q

theorem num_lt_zero_of_lt (q : ℚ) (h : q < 0) : q.num < 0 := by
  by_contra hn
  exact absurd (Rat.num_nonneg.mp (by omega)) (not_le.mpr h)

theorem num_nonneg_of_not_lt (q : ℚ) (h : ¬ q < 0) : 0 ≤ q.num :=
  Rat.num_nonneg.mpr (not_lt.mp h)


theorem parseFloat_body (neg : Bool) (A : ℕ) (F : Str) (hF : ∀ c ∈ F, isDigitCh c = true) :
    parseFloat ((if neg then ['-'] else []) ++ natStr A ++ '.' :: F) =
      some (floatVal neg (natStr A) F 0) := by
  have hd1 : (natStr A ++ '.' :: F).takeWhile isDigitCh = natStr A := by
    rw [takeWhile_append_of_all _ _ (natStr_digits A), List.takeWhile_cons,
      if_neg (by decide)]
    simp
  have hd2 : (natStr A ++ '.' :: F).dropWhile isDigitCh = '.' :: F := by
    rw [dropWhile_append_of_all _ _ (natStr_digits A), List.dropWhile_cons,
      if_neg (by decide)]
  have hFtake : F.takeWhile isDigitCh = F := takeWhile_of_all F hF
  have hFdrop : F.dropWhile isDigitCh = [] := dropWhile_of_all F hF
  have hwsA : ∀ c ∈ natStr A ++ '.' :: F, isWsChar c = false := by
    intro c hc
    rcases List.mem_append.mp hc with h2 | h2
    · exact digit_not_ws c (natStr_digits A c h2)
    · rcases List.mem_cons.mp h2 with rfl | h3
      · decide
      · exact digit_not_ws c (hF c h3)
  cases neg
  · simp only [Bool.false_eq_true, if_false, List.nil_append]
    obtain ⟨c, cs, hcs⟩ : ∃ c cs, natStr A = c :: cs := by
      rcases hA : natStr A with _ | ⟨c, cs⟩
      · exact absurd hA (natStr_ne_nil A)
      · exact ⟨c, cs, rfl⟩
    have hcd := natStr_digits A c (by rw [hcs]; simp)
    obtain ⟨hm, hp⟩ := digit_ne_sign c hcd
    simp only [parseFloat]
    rw [pyStrip_eq_self _ hwsA]
    rw [hcs, List.cons_append]
    rw [parseSign_other c _ hm hp]
    rw [← List.cons_append, ← hcs]
    simp only [spanDigits, hd1, hd2, hFtake, hFdrop]
    rw [if_neg (by simp [natStr_ne_nil A])]
    rw [if_neg (by simp)]
    rfl
  · simp only [if_true]
    have heq : ['-'] ++ natStr A ++ '.' :: F = '-' :: (natStr A ++ '.' :: F) := by simp
    rw [heq]
    have hws' : ∀ c ∈ '-' :: (natStr A ++ '.' :: F), isWsChar c = false := by
      intro c hc
      rcases List.mem_cons.mp hc with rfl | h1
      · decide
      · exact hwsA c h1
    simp only [parseFloat]
    rw [pyStrip_eq_self _ hws']
    rw [show parseSign ('-' :: (natStr A ++ '.' :: F)) = (true, natStr A ++ '.' :: F) from rfl]
    simp only [spanDigits, hd1, hd2, hFtake, hFdrop]
    rw [if_neg (by simp [natStr_ne_nil A])]
    rw [if_neg (by simp)]
    rfl

theorem floatVal_eval (neg : Bool) (A : ℕ) (F : Str) :
    floatVal neg (natStr A) F 0 =
      mkRat (if neg then -((A * 10 ^ F.length + digitsChVal F : ℕ) : ℤ)
             else ((A * 10 ^ F.length + digitsChVal F : ℕ) : ℤ)) (10 ^ F.length) := by
  unfold floatVal
  rw [digitsChVal_natStr]
  have h0 : ((0 : ℤ).toNat) = 0 := rfl
  rw [if_pos (le_refl (0 : ℤ))]
  rw [h0]
  norm_num

theorem mkRat_signed_eq (q : ℚ) (N D : ℕ) (hD : 0 < D)
    (h : N * q.den = q.num.natAbs * D) :
    mkRat (if q < 0 then -(N : ℤ) else (N : ℤ)) D = q := by
  have hdpos : 0 < q.den := q.pos
  have hDQ : ((D : ℚ)) ≠ 0 := by exact_mod_cast hD.ne'
  have hdQ : ((q.den : ℚ)) ≠ 0 := by exact_mod_cast hdpos.ne'
  by_cases hneg : q < 0
  · rw [if_pos hneg, Rat.mkRat_eq_div]
    have h1 : (q.num.natAbs : ℤ) = -q.num := by
      have := num_lt_zero_of_lt q hneg; omega
    have h2 : (N : ℤ) * q.den = (q.num.natAbs : ℤ) * D := by exact_mod_cast h
    rw [h1] at h2
    rw [div_eq_iff hDQ, ← Rat.num_div_den q, div_mul_eq_mul_div, eq_div_iff hdQ]
    have h3 : (-(N : ℤ)) * (q.den : ℤ) = q.num * D := by linarith
    exact_mod_cast h3
  · rw [if_neg hneg, Rat.mkRat_eq_div]
    have h1 : (q.num.natAbs : ℤ) = q.num := by
      have := num_nonneg_of_not_lt q hneg; omega
    have h2 : (N : ℤ) * q.den = (q.num.natAbs : ℤ) * D := by exact_mod_cast h
    rw [h1] at h2
    rw [div_eq_iff hDQ, ← Rat.num_div_den q, div_mul_eq_mul_div, eq_div_iff hdQ]
    have h3 : ((N : ℤ)) * (q.den : ℤ) = q.num * D := by linarith
    exact_mod_cast h3

theorem parseFloat_pyFloatRepr (q : ℚ) (hq : IsDec q) :
    parseFloat (pyFloatRepr q) = some q := by
  rcases hke : denExp q with _ | k
  · exact absurd hke hq
  obtain ⟨hdvd, hk0⟩ := denExp_spec q k hke
  have hdpos : 0 < q.den := q.pos
  have hmul : (q.num.natAbs * 10 ^ k / q.den) * q.den = q.num.natAbs * 10 ^ k :=
    Nat.div_mul_cancel (hdvd.mul_left _)
  simp only [pyFloatRepr, hke]
  by_cases hk' : k = 0
  · subst hk'
    have hd1 : q.den = 1 := hk0 rfl
    rw [if_pos rfl]
    have hn0 : q.num.natAbs * 10 ^ 0 / q.den = q.num.natAbs := by rw [hd1]; simp
    rw [hn0]
    have hF0 : ∀ c ∈ (['0'] : Str), isDigitCh c = true := by
      intro c hc; simp at hc; subst hc; decide
    by_cases hneg : q < 0
    · rw [if_pos hneg]
      have hb := parseFloat_body true q.num.natAbs ['0'] hF0
      simp only [if_true] at hb
      rw [hb, floatVal_eval]
      rw [if_pos rfl]
      congr 1
      have : (q.num.natAbs * 10 ^ (['0'] : Str).length + digitsChVal ['0'] : ℕ) =
          q.num.natAbs * 10 := by
        rw [show digitsChVal ['0'] = 0 from rfl]
        simp
      rw [this]
      have := mkRat_signed_eq q (q.num.natAbs * 10) (10 ^ (['0'] : Str).length)
        (by norm_num) (by rw [hd1]; simp [mul_comm])
      rw [if_pos hneg] at this
      simpa using this
    · rw [if_neg hneg]
      simp only [List.nil_append]
      have hb := parseFloat_body false q.num.natAbs ['0'] hF0
      simp only [Bool.false_eq_true, if_false, List.nil_append] at hb
      rw [hb, floatVal_eval]
      rw [if_neg (by simp : ¬ (false : Bool) = true)]
      congr 1
      have heq : (q.num.natAbs * 10 ^ (['0'] : Str).length + digitsChVal ['0'] : ℕ) =
          q.num.natAbs * 10 := by
        rw [show digitsChVal ['0'] = 0 from rfl]
        simp
      rw [heq]
      have := mkRat_signed_eq q (q.num.natAbs * 10) (10 ^ (['0'] : Str).length)
        (by norm_num) (by rw [hd1]; simp [mul_comm])
      rw [if_neg hneg] at this
      simpa using this
  · rw [if_neg hk']
    have hk1 : 1 ≤ k := by omega
    set n := q.num.natAbs * 10 ^ k / q.den with hn
    have hfr : n % 10 ^ k < 10 ^ k := Nat.mod_lt _ (by positivity)
    have hFd := fracStr_digits k (n % 10 ^ k)
    have hFlen : (fracStr k (n % 10 ^ k)).length = k := fracStr_length k _ hk1 hfr
    by_cases hneg : q < 0
    · rw [if_pos hneg]
      have hb := parseFloat_body true (n / 10 ^ k) (fracStr k (n % 10 ^ k)) hFd
      simp only [if_true] at hb
      rw [hb, floatVal_eval, if_pos rfl, hFlen, digitsChVal_fracStr, Nat.div_add_mod']
      have hq' := mkRat_signed_eq q n (10 ^ k) (by positivity) hmul
      rw [if_pos hneg] at hq'
      rw [hq']
    · rw [if_neg hneg]
      simp only [List.nil_append]
      have hb := parseFloat_body false (n / 10 ^ k) (fracStr k (n % 10 ^ k)) hFd
      simp only [Bool.false_eq_true, if_false, List.nil_append] at hb
      rw [hb, floatVal_eval, if_neg (by simp : ¬ (false : Bool) = true), hFlen,
        digitsChVal_fracStr, Nat.div_add_mod']
      have hq' := mkRat_signed_eq q n (10 ^ k) (by positivity) hmul
      rw [if_neg hneg] at hq'
      rw [hq']


-- Chunk S: line cooking and keyval lemmas

theorem splitNl_no_nl (l : Str) (h : '\n' ∉ l) : splitNl l = [l] := by
  induction l with
  | nil => rfl
  | cons c rest ih =>
    have hc : c ≠ '\n' := fun hh => h (by simp [hh])
    have hr : '\n' ∉ rest := fun hh => h (by simp [hh])
    rw [splitNl, ih hr, if_neg hc]

theorem splitNl_append_nl (l rest : Str) (h : '\n' ∉ l) :
    splitNl (l ++ '\n' :: rest) = l :: splitNl rest := by
  induction l with
  | nil => rw [List.nil_append, splitNl, if_pos rfl]
  | cons c cl ih =>
    have hc : c ≠ '\n' := fun hh => h (by simp [hh])
    have hcl : '\n' ∉ cl := fun hh => h (by simp [hh])
    rw [List.cons_append, splitNl, ih hcl, if_neg hc]

theorem splitNl_joinNl (ls : List Str) (h : ∀ l ∈ ls, '\n' ∉ l) (h0 : ls ≠ []) :
    splitNl (joinNl ls) = ls := by
  induction ls with
  | nil => exact absurd rfl h0
  | cons l rest ih =>
    match rest with
    | [] => exact splitNl_no_nl l (h l (by simp))
    | l' :: ls' =>
      have hih : splitNl (joinNl (l' :: ls')) = l' :: ls' :=
        ih (fun x hx => h x (List.mem_cons_of_mem _ hx)) (List.cons_ne_nil l' ls')
      have hjoin : joinNl (l :: l' :: ls') = l ++ '\n' :: joinNl (l' :: ls') := rfl
      rw [hjoin, splitNl_append_nl l _ (h l (List.mem_cons_self _ _)), hih]

theorem pyReplace_single (l : Str) (p : Char) (rep : Str) :
    pyReplace l [p] rep = l.flatMap (fun c => if c = p then rep else [c]) := by
  induction l with
  | nil => simp [pyReplace_nil]
  | cons c rest ih =>
    rw [pyReplace_cons]
    by_cases hc : c = p
    · subst hc
      rw [if_pos ⟨by simp, by simp [List.isPrefixOf]⟩]
      simp only [List.length_cons, List.length_nil, Nat.zero_add, Nat.sub_self,
        List.drop_zero]
      rw [ih]
      simp
    · rw [if_neg (fun hp => hc (by
        have := hp.2
        simp only [List.isPrefixOf, List.isPrefixOf_nil_left, Bool.and_true] at this
        exact (beq_iff_eq.mp (by simpa using this)).symm))]
      simp only [List.flatMap_cons, if_neg hc]
      rw [ih]
      rfl

theorem tabRepl_no_tab (l : Str) (h : '\t' ∉ l) : tabRepl l = l := by
  unfold tabRepl
  rw [pyReplace_single]
  induction l with
  | nil => rfl
  | cons c rest ih =>
    have hc : c ≠ '\t' := fun hh => h (by simp [hh])
    have hr : '\t' ∉ rest := fun hh => h (by simp [hh])
    simp only [List.flatMap_cons, if_neg hc]
    rw [ih hr]
    rfl

theorem tabRepl_append (a b : Str) : tabRepl (a ++ b) = tabRepl a ++ tabRepl b := by
  unfold tabRepl
  rw [pyReplace_single, pyReplace_single, pyReplace_single, List.flatMap_append]

theorem tabRepl_tab : tabRepl ['\t'] = toL "    " := by decide

theorem dropWhile_eq_self_of_head {p : Char → Bool} (core : Str)
    (hh : ∀ c, core.head? = some c → p c = false) : core.dropWhile p = core := by
  cases core with
  | nil => rfl
  | cons c cs => rw [List.dropWhile_cons, if_neg (by simp [hh c rfl])]

theorem pyStrip_pad (pad core : Str) (hpad : ∀ c ∈ pad, isWsChar c = true)
    (hhead : ∀ c, core.head? = some c → isWsChar c = false)
    (hlast : ∀ c, core.getLast? = some c → isWsChar c = false) :
    pyStrip (pad ++ core) = core := by
  unfold pyStrip
  rw [dropWhile_append_of_all _ _ hpad, dropWhile_eq_self_of_head core hhead]
  rw [dropWhile_eq_self_of_head core.reverse (fun c hc => hlast c (by
    rw [← List.head?_reverse]; exact hc))]
  exact List.reverse_reverse core

theorem stripQuotes_quoted (tx : Str) (h : '"' ∉ tx) :
    stripQuotes ('"' :: (tx ++ ['"'])) = tx := by
  cases tx with
  | nil => decide
  | cons c cs =>
    have hc : c ≠ '"' := fun hh => h (by simp [hh])
    unfold stripQuotes
    rw [List.dropWhile_cons]
    rw [if_pos (by decide)]
    rw [List.cons_append, List.dropWhile_cons, if_neg (by simp [hc])]
    have harr : (c :: (cs ++ ['"'])).reverse = '"' :: (cs.reverse ++ [c]) := by simp
    rw [harr, List.dropWhile_cons, if_pos (by decide)]
    have hself : (cs.reverse ++ [c]).dropWhile (fun x => x = '"') = cs.reverse ++ [c] := by
      apply dropWhile_eq_self_of_head
      intro d hd
      have hdm : d ∈ cs.reverse ++ [c] := by
        rcases hcs : cs.reverse ++ [c] with _ | ⟨x, xs⟩
        · simp [hcs] at hd
        · rw [hcs] at hd
          simp only [List.head?_cons, Option.some.injEq] at hd
          subst hd
          exact List.mem_cons_self x xs
      have hmem : d ∈ c :: cs := by
        rcases List.mem_append.mp hdm with h1 | h1
        · exact List.mem_cons_of_mem c (List.mem_reverse.mp h1)
        · simp at h1; subst h1; simp
      have hne : d ≠ '"' := fun hh => h (hh ▸ hmem)
      simp [hne]
    rw [hself]
    simp



-- Chunk M1: keyval regex lemmas

theorem head_mem_of_head? {l : Str} {c : Char} (h : l.head? = some c) : c ∈ l := by
  cases l with
  | nil => simp at h
  | cons a as =>
    simp only [List.head?_cons, Option.some.injEq] at h
    subst h
    exact List.mem_cons_self a as

theorem last_mem_of_getLast? {l : Str} {c : Char} (h : l.getLast? = some c) : c ∈ l := by
  rw [← List.head?_reverse] at h
  exact List.mem_reverse.mp (head_mem_of_head? h)

theorem takeWhile_nil_of_head {p : Char → Bool} (core : Str)
    (hh : ∀ c, core.head? = some c → p c = false) : core.takeWhile p = [] := by
  cases core with
  | nil => rfl
  | cons c cs => rw [List.takeWhile_cons, if_neg (by simp [hh c rfl])]

theorem pyFloatRepr_chars (q : ℚ) (hq : IsDec q) :
    ∀ c ∈ pyFloatRepr q, c = '-' ∨ c = '.' ∨ isDigitCh c = true := by
  intro c hc
  unfold IsDec at hq
  rcases hk : denExp q with _ | k
  · exact absurd hk hq
  · simp only [pyFloatRepr, hk] at hc
    have hsign : ∀ d, d ∈ (if q < 0 then ['-'] else ([] : Str)) → d = '-' := by
      intro d hd
      by_cases h : q < 0
      · rw [if_pos h] at hd; simpa using hd
      · rw [if_neg h] at hd; simp at hd
    by_cases h0 : k = 0
    · rw [if_pos h0] at hc
      rcases List.mem_append.mp hc with h1 | h1
      · rcases List.mem_append.mp h1 with h2 | h2
        · exact Or.inl (hsign c h2)
        · exact Or.inr (Or.inr (natStr_digits _ c h2))
      · rcases List.mem_cons.mp h1 with h2 | h2
        · exact Or.inr (Or.inl h2)
        · simp only [List.mem_singleton] at h2
          subst h2
          exact Or.inr (Or.inr (by decide))
    · rw [if_neg h0] at hc
      rcases List.mem_append.mp hc with h1 | h1
      · rcases List.mem_append.mp h1 with h2 | h2
        · exact Or.inl (hsign c h2)
        · exact Or.inr (Or.inr (natStr_digits _ c h2))
      · rcases List.mem_cons.mp h1 with h2 | h2
        · exact Or.inr (Or.inl h2)
        · exact Or.inr (Or.inr (fracStr_digits _ _ c h2))

theorem pyFloatRepr_ne_nil (q : ℚ) (hq : IsDec q) : pyFloatRepr q ≠ [] := by
  unfold IsDec at hq
  rcases hk : denExp q with _ | k
  · exact absurd hk hq
  · simp only [pyFloatRepr, hk]
    by_cases h0 : k = 0
    · rw [if_pos h0]
      simp
    · rw [if_neg h0]
      simp

theorem pyFloatRepr_not_ws (q : ℚ) (hq : IsDec q) :
    ∀ c ∈ pyFloatRepr q, isWsChar c = false := by
  intro c hc
  rcases pyFloatRepr_chars q hq c hc with h | h | h
  · subst h; decide
  · subst h; decide
  · exact digit_not_ws c h

theorem pyFloatRepr_no_eq (q : ℚ) (hq : IsDec q) : '=' ∉ pyFloatRepr q := by
  intro hc
  rcases pyFloatRepr_chars q hq '=' hc with h | h | h
  · exact absurd h (by decide)
  · exact absurd h (by decide)
  · exact absurd h (by decide)

theorem parseWsEq_no_eq (u : Str) (h : '=' ∉ u) : parseWsEq u = Option.none := by
  by_cases hw : u.takeWhile isWsChar = []
  · simp only [parseWsEq, hw]
    simp
  · rcases hd : u.dropWhile isWsChar with _ | ⟨c, r⟩
    · simp only [parseWsEq, hd]
      rw [if_neg hw]
    · have hcm : c ∈ u :=
        (List.dropWhile_sublist isWsChar).mem (hd ▸ List.mem_cons_self c r)
      have hcne : c ≠ '=' := fun he => h (he ▸ hcm)
      simp only [parseWsEq, hd]
      rw [if_neg hw]
      split
      · next r2 heq =>
        injection heq with h1 _
        exact absurd h1 hcne
      · rfl

theorem parseWsEq_eq_head (r : Str) : parseWsEq ('=' :: r) = Option.none := by
  have htw : List.takeWhile isWsChar ('=' :: r) = [] :=
    List.takeWhile_cons_of_neg (by decide)
  simp only [parseWsEq, htw]
  simp

theorem parseWsEq_split (V : Str) (hV0 : V ≠ [])
    (hVh : ∀ c, V.head? = some c → isWsChar c = false) :
    parseWsEq (' ' :: '=' :: ' ' :: V) = some V := by
  have htw : List.takeWhile isWsChar (' ' :: '=' :: ' ' :: V) = [' '] := by
    rw [List.takeWhile_cons_of_pos (by decide), List.takeWhile_cons_of_neg (by decide)]
  have hdw : List.dropWhile isWsChar (' ' :: '=' :: ' ' :: V) = '=' :: ' ' :: V := by
    rw [List.dropWhile_cons_of_pos (by decide), List.dropWhile_cons_of_neg (by decide)]
  have htw2 : List.takeWhile isWsChar (' ' :: V) = [' '] := by
    rw [List.takeWhile_cons_of_pos (by decide), takeWhile_nil_of_head V hVh]
  have hdw2 : List.dropWhile isWsChar (' ' :: V) = V := by
    rw [List.dropWhile_cons_of_pos (by decide), dropWhile_eq_self_of_head V hVh]
  simp only [parseWsEq, htw, hdw]
  rw [if_neg (by simp)]
  show (if List.takeWhile isWsChar (' ' :: V) = [] ∨
      List.dropWhile isWsChar (' ' :: V) = [] then Option.none
    else some (List.dropWhile isWsChar (' ' :: V))) = some V
  rw [htw2, hdw2]
  rw [if_neg (by simp [hV0])]

theorem goSplit_skip (w : Str) (m : ℕ) :
    ∀ n, m ≤ n → (∀ j, m < j → j ≤ n → parseWsEq (w.drop j) = Option.none) →
    goSplit w n = goSplit w m := by
  intro n
  induction n with
  | zero =>
    intro hmn _
    have h0 : m = 0 := by omega
    rw [h0]
  | succ i ih =>
    intro hmn hnone
    by_cases hm : m = i + 1
    · rw [hm]
    · have hmi : m ≤ i := by omega
      show goSplit w (i + 1) = goSplit w m
      rw [goSplit, hnone (i + 1) (by omega) (le_refl _)]
      exact ih hmi (fun j h1 h2 => hnone j h1 (by omega))

theorem kvMatch_eq (key V : Str) (hk0 : key ≠ [])
    (hkh : ∀ c, key.head? = some c → isWsChar c = false)
    (hV0 : V ≠ []) (hVh : ∀ c, V.head? = some c → isWsChar c = false)
    (hVe : '=' ∉ V) :
    kvMatch (key ++ ' ' :: '=' :: ' ' :: V) = some (key, V) := by
  rcases key with _ | ⟨k0, ks⟩
  · exact absurd rfl hk0
  unfold kvMatch
  have hw : ((k0 :: ks) ++ ' ' :: '=' :: ' ' :: V).dropWhile isWsChar =
      (k0 :: ks) ++ ' ' :: '=' :: ' ' :: V := by
    apply dropWhile_eq_self_of_head
    intro c hc
    simp only [List.cons_append, List.head?_cons, Option.some.injEq] at hc
    subst hc
    exact hkh k0 rfl
  rw [hw]
  have hklen : (k0 :: ks).length = ks.length + 1 := by simp
  have hdropk : ((k0 :: ks) ++ ' ' :: '=' :: ' ' :: V).drop (ks.length + 1) =
      ' ' :: '=' :: ' ' :: V := by
    rw [← hklen, List.drop_left]
  have hdropk2 : ((k0 :: ks) ++ ' ' :: '=' :: ' ' :: V).drop (ks.length + 3) =
      ' ' :: V := by
    have h1 : ks.length + 3 = (ks.length + 1) + 2 := by omega
    rw [h1, ← List.drop_drop, hdropk]
    rfl
  have hlen : ks.length + 1 ≤ ((k0 :: ks) ++ ' ' :: '=' :: ' ' :: V).length := by
    simp only [List.cons_append, List.length_cons, List.length_append]
    omega
  have hnone : ∀ j, ks.length + 1 < j →
      j ≤ ((k0 :: ks) ++ ' ' :: '=' :: ' ' :: V).length →
      parseWsEq (((k0 :: ks) ++ ' ' :: '=' :: ' ' :: V).drop j) = Option.none := by
    intro j h1 _
    by_cases hj2 : j = ks.length + 2
    · have hdj : ((k0 :: ks) ++ ' ' :: '=' :: ' ' :: V).drop j = '=' :: ' ' :: V := by
        have h2 : j = (ks.length + 1) + 1 := by omega
        rw [h2, ← List.drop_drop, hdropk]
        rfl
      rw [hdj]
      exact parseWsEq_eq_head _
    · have hj3 : ks.length + 3 ≤ j := by omega
      apply parseWsEq_no_eq
      intro hmem
      have h2 : ((k0 :: ks) ++ ' ' :: '=' :: ' ' :: V).drop j =
          ((' ' :: V).drop (j - (ks.length + 3))) := by
        conv_lhs => rw [show j = (ks.length + 3) + (j - (ks.length + 3)) by omega]
        rw [← List.drop_drop, hdropk2]
      rw [h2] at hmem
      have h3 : '=' ∈ ' ' :: V := (List.drop_sublist _ _).mem hmem
      rcases List.mem_cons.mp h3 with h4 | h4
      · exact absurd h4 (by decide)
      · exact hVe h4
  rw [goSplit_skip _ (ks.length + 1) _ hlen hnone]
  show goSplit _ (ks.length + 1) = _
  rw [goSplit, hdropk, parseWsEq_split V hV0 hVh]
  have htake : ((k0 :: ks) ++ ' ' :: '=' :: ' ' :: V).take (ks.length + 1) =
      k0 :: ks := by
    rw [← hklen, List.take_left]
  rw [htake]

theorem keyvalE_quoted (key tx : Str) (hk0 : key ≠ [])
    (hkh : ∀ c, key.head? = some c → isWsChar c = false)
    (htx : '"' ∉ tx) (htxe : '=' ∉ tx) :
    keyvalE (key ++ ' ' :: '=' :: ' ' :: '"' :: (tx ++ ['"'])) =
      .ok (key, .str tx) := by
  unfold keyvalE
  rw [kvMatch_eq key ('"' :: (tx ++ ['"'])) hk0 hkh (by simp)
    (fun c hc => by
      simp only [List.head?_cons, Option.some.injEq] at hc
      subst hc
      decide)
    (by
      intro hmem
      rcases List.mem_cons.mp hmem with h1 | h1
      · exact absurd h1 (by decide)
      · rcases List.mem_append.mp h1 with h2 | h2
        · exact htxe h2
        · simp at h2)]
  show (if ('"' :: (tx ++ ['"'])).head? = some '"' then
      Except.ok (key, PyVal.str (stripQuotes ('"' :: (tx ++ ['"']))))
    else
      match parseFloat ('"' :: (tx ++ ['"'])) with
      | some q => Except.ok (key, PyVal.num q)
      | Option.none => Except.error PyError.valueError) =
    Except.ok (key, PyVal.str tx)
  rw [if_pos (show ('"' :: (tx ++ ['"'])).head? = some '"' from rfl),
    stripQuotes_quoted tx htx]

theorem keyvalE_float (key : Str) (q : ℚ) (hk0 : key ≠ [])
    (hkh : ∀ c, key.head? = some c → isWsChar c = false)
    (hq : IsDec q) :
    keyvalE (key ++ ' ' :: '=' :: ' ' :: pyFloatRepr q) = .ok (key, .num q) := by
  unfold keyvalE
  rw [kvMatch_eq key (pyFloatRepr q) hk0 hkh (pyFloatRepr_ne_nil q hq)
    (fun c hc => pyFloatRepr_not_ws q hq c (head_mem_of_head? hc))
    (pyFloatRepr_no_eq q hq)]
  show (if (pyFloatRepr q).head? = some '"' then
      Except.ok (key, PyVal.str (stripQuotes (pyFloatRepr q)))
    else
      match parseFloat (pyFloatRepr q) with
      | some q => Except.ok (key, PyVal.num q)
      | Option.none => Except.error PyError.valueError) =
    Except.ok (key, PyVal.num q)
  rw [if_neg (by
    intro hh
    have h1 : '"' ∈ pyFloatRepr q := head_mem_of_head? hh
    rcases pyFloatRepr_chars q hq '"' h1 with h | h | h
    · exact absurd h (by decide)
    · exact absurd h (by decide)
    · exact absurd h (by decide))]
  rw [parseFloat_pyFloatRepr q hq]



-- Chunk M2: line matchers and longStep per-line actions

theorem spanDigits_digits_append (ds rest : Str)
    (hds : ∀ c ∈ ds, isDigitCh c = true)
    (hrest : ∀ c, rest.head? = some c → isDigitCh c = false) :
    spanDigits (ds ++ rest) = (ds, rest) := by
  unfold spanDigits
  rw [takeWhile_append_of_all ds rest hds, takeWhile_nil_of_head rest hrest,
      dropWhile_append_of_all ds rest hds, dropWhile_eq_self_of_head rest hrest]
  simp

theorem newTierMatch_item (k : ℕ) :
    newTierMatch (['i', 't', 'e', 'm', ' ', '['] ++ (natStr k ++ [']', ':'])) =
      true := by
  have hspan : spanDigits (natStr k ++ [']', ':']) = (natStr k, [']', ':']) :=
    spanDigits_digits_append _ _ (natStr_digits k) (fun c hc => by
      simp only [List.head?_cons, Option.some.injEq] at hc
      subst hc
      decide)
  show (match spanDigits (natStr k ++ [']', ':']) with
    | (ds, rest) => decide (ds ≠ [] ∧ rest = [']', ':'])) = true
  rw [hspan]
  simp [natStr_ne_nil k]

theorem newIntervalMatch_num (k : ℕ) :
    newIntervalMatch (['i', 'n', 't', 'e', 'r', 'v', 'a', 'l', 's', ' ', '['] ++
      (natStr k ++ [']', ':'])) = true := by
  have hspan : spanDigits (natStr k ++ [']', ':']) = (natStr k, [']', ':']) :=
    spanDigits_digits_append _ _ (natStr_digits k) (fun c hc => by
      simp only [List.head?_cons, Option.some.injEq] at hc
      subst hc
      decide)
  show (match spanDigits (natStr k ++ [']', ':']) with
    | (ds, rest) => decide (ds ≠ [] ∧ rest = [']', ':'])) = true
  rw [hspan]
  simp [natStr_ne_nil k]

theorem longStep_itemLine_skip (s : LState) (i k : ℕ)
    (htt : tierTruthy s.tier = false) :
    longStep s i (['i', 't', 'e', 'm', ' ', '['] ++ (natStr k ++ [']', ':'])) =
      .ok s := by
  unfold longStep
  rw [newTierMatch_item k, if_pos rfl, htt]
  simp only [Bool.false_eq_true, if_false]

theorem longStep_itemLine_commit (s : LState) (i k : ℕ) (nm : PyVal) (t : Tier)
    (hnm : s.name = some nm) (ht : s.tier = some t) (h0 : t.elems ≠ []) :
    longStep s i (['i', 't', 'e', 'm', ' ', '['] ++ (natStr k ++ [']', ':'])) =
      .ok { s with g := { s.g with items := odSet s.g.items nm t },
                   name := some .none, tier := Option.none } := by
  unfold longStep
  rw [newTierMatch_item k, if_pos rfl]
  have htt : tierTruthy s.tier = true := by
    rw [ht]
    simp [tierTruthy, h0]
  rw [htt, if_pos rfl, hnm, ht]
  rfl

theorem longStep_classLine (s : LState) (i : ℕ) :
    longStep s i (toL "class = \"IntervalTier\"") = .ok s := rfl

theorem longStep_sizeLine (s : LState) (i n : ℕ) :
    longStep s i (toL "intervals: size = " ++ natStr n) = .ok s := rfl

theorem longStep_nameLine (s : LState) (i : ℕ) (nm : Str)
    (h1 : '"' ∉ nm) (h2 : '=' ∉ nm) :
    longStep s i (['n', 'a', 'm', 'e'] ++ ' ' :: '=' :: ' ' :: '"' :: (nm ++ ['"'])) =
      .ok { s with name := some (.str nm) } := by
  have hm1 : newTierMatch
      (['n', 'a', 'm', 'e'] ++ ' ' :: '=' :: ' ' :: '"' :: (nm ++ ['"'])) = false := rfl
  have hm2 : newIntervalMatch
      (['n', 'a', 'm', 'e'] ++ ' ' :: '=' :: ' ' :: '"' :: (nm ++ ['"'])) = false := rfl
  have hm3 : newPointMatch
      (['n', 'a', 'm', 'e'] ++ ' ' :: '=' :: ' ' :: '"' :: (nm ++ ['"'])) = false := rfl
  have hm4 : newValueMatch
      (['n', 'a', 'm', 'e'] ++ ' ' :: '=' :: ' ' :: '"' :: (nm ++ ['"'])) = true := rfl
  unfold longStep
  rw [hm1, hm2, hm3, hm4]
  simp only [Bool.false_eq_true, if_false, false_and]
  rw [if_pos trivial]
  rw [keyvalE_quoted ['n', 'a', 'm', 'e'] nm (by simp)
    (fun c hc => by
      simp only [List.head?_cons, Option.some.injEq] at hc
      subst hc
      decide) h1 h2]
  rfl

theorem longStep_xminLine (s : LState) (i : ℕ) (q : ℚ) (hq : IsDec q) :
    longStep s i (['x', 'm', 'i', 'n'] ++ ' ' :: '=' :: ' ' :: pyFloatRepr q) =
      .ok { s with x0 := some q } := by
  have hm1 : newTierMatch
      (['x', 'm', 'i', 'n'] ++ ' ' :: '=' :: ' ' :: pyFloatRepr q) = false := rfl
  have hm2 : newIntervalMatch
      (['x', 'm', 'i', 'n'] ++ ' ' :: '=' :: ' ' :: pyFloatRepr q) = false := rfl
  have hm3 : newPointMatch
      (['x', 'm', 'i', 'n'] ++ ' ' :: '=' :: ' ' :: pyFloatRepr q) = false := rfl
  have hm4 : newValueMatch
      (['x', 'm', 'i', 'n'] ++ ' ' :: '=' :: ' ' :: pyFloatRepr q) = true := rfl
  unfold longStep
  rw [hm1, hm2, hm3, hm4]
  simp only [Bool.false_eq_true, if_false, false_and]
  rw [if_pos trivial]
  rw [keyvalE_float ['x', 'm', 'i', 'n'] q (by simp)
    (fun c hc => by
      simp only [List.head?_cons, Option.some.injEq] at hc
      subst hc
      decide) hq]
  rfl

theorem longStep_xmaxLine (s : LState) (i : ℕ) (q : ℚ) (hq : IsDec q) :
    longStep s i (['x', 'm', 'a', 'x'] ++ ' ' :: '=' :: ' ' :: pyFloatRepr q) =
      .ok { s with x1 := some q } := by
  have hm1 : newTierMatch
      (['x', 'm', 'a', 'x'] ++ ' ' :: '=' :: ' ' :: pyFloatRepr q) = false := rfl
  have hm2 : newIntervalMatch
      (['x', 'm', 'a', 'x'] ++ ' ' :: '=' :: ' ' :: pyFloatRepr q) = false := rfl
  have hm3 : newPointMatch
      (['x', 'm', 'a', 'x'] ++ ' ' :: '=' :: ' ' :: pyFloatRepr q) = false := rfl
  have hm4 : newValueMatch
      (['x', 'm', 'a', 'x'] ++ ' ' :: '=' :: ' ' :: pyFloatRepr q) = true := rfl
  unfold longStep
  rw [hm1, hm2, hm3, hm4]
  simp only [Bool.false_eq_true, if_false, false_and]
  rw [if_pos trivial]
  rw [keyvalE_float ['x', 'm', 'a', 'x'] q (by simp)
    (fun c hc => by
      simp only [List.head?_cons, Option.some.injEq] at hc
      subst hc
      decide) hq]
  rfl

theorem longStep_intervalsLine_new (s : LState) (i k : ℕ)
    (htt : tierTruthy s.tier = false) :
    longStep s i (['i', 'n', 't', 'e', 'r', 'v', 'a', 'l', 's', ' ', '['] ++
      (natStr k ++ [']', ':'])) = .ok { s with tier := some ⟨false, []⟩ } := by
  have hm1 : newTierMatch (['i', 'n', 't', 'e', 'r', 'v', 'a', 'l', 's', ' ', '['] ++
      (natStr k ++ [']', ':'])) = false := rfl
  unfold longStep
  rw [hm1]
  simp only [Bool.false_eq_true, if_false]
  rw [newIntervalMatch_num k, htt]
  rw [if_pos (show (true = true) ∧ ¬(false = true) by simp)]

theorem longStep_intervalsLine_skip (s : LState) (i k : ℕ)
    (htt : tierTruthy s.tier = true) :
    longStep s i (['i', 'n', 't', 'e', 'r', 'v', 'a', 'l', 's', ' ', '['] ++
      (natStr k ++ [']', ':'])) = .ok s := by
  have hm1 : newTierMatch (['i', 'n', 't', 'e', 'r', 'v', 'a', 'l', 's', ' ', '['] ++
      (natStr k ++ [']', ':'])) = false := rfl
  have hm3 : newPointMatch (['i', 'n', 't', 'e', 'r', 'v', 'a', 'l', 's', ' ', '['] ++
      (natStr k ++ [']', ':'])) = false := rfl
  have hm4 : newValueMatch (['i', 'n', 't', 'e', 'r', 'v', 'a', 'l', 's', ' ', '['] ++
      (natStr k ++ [']', ':'])) = false := rfl
  unfold longStep
  rw [hm1]
  simp only [Bool.false_eq_true, if_false]
  rw [newIntervalMatch_num k, htt]
  rw [if_neg (show ¬((true = true) ∧ ¬(true = true)) by simp), hm3]
  simp only [Bool.false_eq_true, false_and, if_false]
  rw [hm4]
  simp only [Bool.false_eq_true, if_false]

theorem interval_init_num (tx : Str) (a b : ℚ) (hab : a ≤ b) :
    Interval.init (.str tx) (.num a) (.num b) = .ok ⟨tx, .num a, .num b⟩ := by
  have hba : decide (b < a) = false := decide_eq_false (not_lt.mpr hab)
  show (if decide (b < a) = true then (Except.error PyError.typeError : Except PyError Interval)
        else Except.ok ⟨tx, .num a, .num b⟩) = Except.ok ⟨tx, .num a, .num b⟩
  rw [hba]
  simp

theorem longStep_textLine (g : Grid) (nmv : Option PyVal) (t : Tier)
    (a b : ℚ) (i : ℕ) (tx : Str)
    (h1 : '"' ∉ tx) (h2 : '=' ∉ tx) (hpt : t.is_point_tier = false) (hab : a ≤ b) :
    longStep ⟨g, nmv, some t, some a, some b⟩ i
      (['t', 'e', 'x', 't'] ++ ' ' :: '=' :: ' ' :: '"' :: (tx ++ ['"'])) =
      .ok ⟨g, nmv, some (t.appendElem (.iv ⟨tx, .num a, .num b⟩)), some a, some b⟩ := by
  have hm1 : newTierMatch
      (['t', 'e', 'x', 't'] ++ ' ' :: '=' :: ' ' :: '"' :: (tx ++ ['"'])) = false := rfl
  have hm2 : newIntervalMatch
      (['t', 'e', 'x', 't'] ++ ' ' :: '=' :: ' ' :: '"' :: (tx ++ ['"'])) = false := rfl
  have hm3 : newPointMatch
      (['t', 'e', 'x', 't'] ++ ' ' :: '=' :: ' ' :: '"' :: (tx ++ ['"'])) = false := rfl
  have hm4 : newValueMatch
      (['t', 'e', 'x', 't'] ++ ' ' :: '=' :: ' ' :: '"' :: (tx ++ ['"'])) = true := rfl
  have hba : decide (b < a) = false := decide_eq_false (not_lt.mpr hab)
  unfold longStep
  rw [hm1, hm2, hm3, hm4]
  simp only [Bool.false_eq_true, if_false, false_and]
  rw [if_pos trivial]
  rw [keyvalE_quoted ['t', 'e', 'x', 't'] tx (by simp)
    (fun c hc => by
      simp only [List.head?_cons, Option.some.injEq] at hc
      subst hc
      decide) h1 h2]
  show (if t.is_point_tier = true then
      (Except.ok (LState.mk g nmv
        (some (t.appendElem (.pt ⟨PyVal.str tx, PyVal.num b⟩))) (some a) (some b)) :
        Except PyError LState)
    else
      ((if decide (b < a) = true then
          (Except.error PyError.typeError : Except PyError Interval)
        else Except.ok ⟨tx, PyVal.num a, PyVal.num b⟩) >>= fun iv =>
        Except.ok (LState.mk g nmv
          (some (t.appendElem (.iv iv))) (some a) (some b)))) =
    Except.ok (LState.mk g nmv
      (some (t.appendElem (.iv ⟨tx, PyVal.num a, PyVal.num b⟩))) (some a) (some b))
  rw [hpt, hba]
  simp

theorem runLines_append {σ : Type} (step : σ → ℕ → Str → Except PyError σ)
    (a : List Str) : ∀ (b : List Str) (s : σ) (i : ℕ),
    runLines step s i (a ++ b) =
      (match runLines step s i a with
       | (sa, Option.none) => runLines step sa (i + a.length) b
       | (sa, some e) => (sa, some e)) := by
  induction a with
  | nil =>
    intro b s i
    simp [runLines]
  | cons l ls ih =>
    intro b s i
    have hL : runLines step s i ((l :: ls) ++ b) =
        match step s i l with
        | .ok s2 => runLines step s2 (i + 1) (ls ++ b)
        | .error e => (s, some e) := rfl
    have hR : runLines step s i (l :: ls) =
        match step s i l with
        | .ok s2 => runLines step s2 (i + 1) ls
        | .error e => (s, some e) := rfl
    rw [hL, hR]
    rcases hstep : step s i l with e | s2
    · rfl
    · show runLines step s2 (i + 1) (ls ++ b) = _
      rw [ih b s2 (i + 1)]
      have hlen : i + 1 + ls.length = i + (l :: ls).length := by
        simp only [List.length_cons]
        omega
      rw [hlen]



-- Chunk M3: whitespace tokenization, lastTokenFloat, shortDetect, cooking

theorem splitWs_ws_cons (c : Char) (r : Str) (h : isWsChar c = true) :
    splitWs (c :: r) = splitWs r := by
  rw [splitWs, if_pos h]

theorem splitWs_single (V : Str) (hV : ∀ c ∈ V, isWsChar c = false) (h0 : V ≠ []) :
    splitWs V = [V] := by
  induction V with
  | nil => exact absurd rfl h0
  | cons c rest ih =>
    have hc : isWsChar c = false := hV c (List.mem_cons_self c rest)
    rw [splitWs, if_neg (by simp [hc])]
    cases rest with
    | nil => rfl
    | cons d r2 =>
      have hd : isWsChar d = false := hV d (by simp)
      rw [ih (fun x hx => hV x (List.mem_cons_of_mem c hx)) (List.cons_ne_nil d r2)]
      simp only [hd, Bool.false_eq_true, if_false]

theorem splitWs_nonws_ws_cons (c : Char) (d : Char) (r : Str)
    (hc : isWsChar c = false) (hd : isWsChar d = true) :
    splitWs (c :: d :: r) = [c] :: splitWs (d :: r) := by
  rw [splitWs, if_neg (by simp [hc])]
  rcases hs : splitWs (d :: r) with _ | ⟨w, ws⟩
  · rfl
  · simp only [hd, if_true]

theorem splitWs_kv (k : Str) (V : Str)
    (hk : ∀ c ∈ k, isWsChar c = false) (hk0 : k ≠ [])
    (hV : ∀ c ∈ V, isWsChar c = false) (hV0 : V ≠ []) :
    splitWs (k ++ ' ' :: '=' :: ' ' :: V) = [k, ['='], V] := by
  have htail : splitWs (' ' :: '=' :: ' ' :: V) = [['='], V] := by
    rw [splitWs_ws_cons ' ' _ (by decide),
        splitWs_nonws_ws_cons '=' ' ' V (by decide) (by decide),
        splitWs_ws_cons ' ' _ (by decide), splitWs_single V hV hV0]
  induction k with
  | nil => exact absurd rfl hk0
  | cons c ks ih =>
    have hc : isWsChar c = false := hk c (List.mem_cons_self c ks)
    cases ks with
    | nil =>
      show splitWs (c :: ' ' :: '=' :: ' ' :: V) = [[c], ['='], V]
      rw [splitWs_nonws_ws_cons c ' ' _ hc (by decide), htail]
    | cons c2 ks2 =>
      have hc2 : isWsChar c2 = false := hk c2 (by simp)
      have ih2 := ih (fun x hx => hk x (List.mem_cons_of_mem c hx))
        (List.cons_ne_nil c2 ks2)
      rw [List.cons_append, splitWs, if_neg (by simp [hc])]
      rw [List.cons_append]
      rw [show (c2 :: ks2) ++ ' ' :: '=' :: ' ' :: V =
        c2 :: (ks2 ++ ' ' :: '=' :: ' ' :: V) from rfl] at ih2
      rw [ih2]
      simp only [hc2, Bool.false_eq_true, if_false]

theorem lastTokenFloat_kv (k : Str) (q : ℚ)
    (hk : ∀ c ∈ k, isWsChar c = false) (hk0 : k ≠ []) (hq : IsDec q) :
    lastTokenFloat (k ++ ' ' :: '=' :: ' ' :: pyFloatRepr q) = .ok q := by
  unfold lastTokenFloat
  rw [splitWs_kv k (pyFloatRepr q) hk hk0 (pyFloatRepr_not_ws q hq)
    (pyFloatRepr_ne_nil q hq)]
  have hlast : ([k, ['='], pyFloatRepr q] : List Str).getLast? = some (pyFloatRepr q) := rfl
  rw [hlast]
  show (match parseFloat (pyFloatRepr q) with
    | some x => Except.ok x
    | Option.none => Except.error PyError.valueError) = Except.ok q
  rw [parseFloat_pyFloatRepr q hq]

theorem shortDetect_xmin (q : ℚ) :
    shortDetect (['x', 'm', 'i', 'n'] ++ ' ' :: '=' :: ' ' :: pyFloatRepr q) = false := by
  rfl

theorem mem_tabRepl (c : Char) (l : Str) (hc : c ∈ tabRepl l) : c = ' ' ∨ c ∈ l := by
  unfold tabRepl at hc
  rw [pyReplace_single] at hc
  rcases List.mem_flatMap.mp hc with ⟨d, hd, hcd⟩
  by_cases hdt : d = '\t'
  · rw [if_pos hdt] at hcd
    have h4 : c ∈ ([' ', ' ', ' ', ' '] : Str) := hcd
    simp at h4
    exact Or.inl h4
  · rw [if_neg hdt] at hcd
    right
    simp only [List.mem_singleton] at hcd
    exact hcd ▸ hd

theorem tabRepl_all_ws (l : Str) (h : ∀ c ∈ l, isWsChar c = true) :
    ∀ c ∈ tabRepl l, isWsChar c = true := by
  intro c hc
  rcases mem_tabRepl c l hc with h1 | h1
  · subst h1; decide
  · exact h c h1

theorem tabRepl_no_nl (l : Str) (h : '\n' ∉ l) : '\n' ∉ tabRepl l := by
  intro hc
  rcases mem_tabRepl '\n' l hc with h1 | h1
  · exact absurd h1 (by decide)
  · exact h h1

theorem cook_line (pad core : Str) (hpad : ∀ c ∈ pad, isWsChar c = true)
    (hcore : '\t' ∉ core)
    (hh : ∀ c, core.head? = some c → isWsChar c = false)
    (hl : ∀ c, core.getLast? = some c → isWsChar c = false) :
    pyStrip (tabRepl (pad ++ core)) = core := by
  rw [tabRepl_append, tabRepl_no_tab core hcore]
  exact pyStrip_pad (tabRepl pad) core (tabRepl_all_ws pad hpad) hh hl

theorem readLines_joinNl (ls : List Str) (h : ∀ l ∈ ls, '\n' ∉ l) (h0 : ls ≠ []) :
    readLines (joinNl ls) = ls.map pyStrip := by
  unfold readLines
  rw [splitNl_joinNl ls h h0]



-- Chunk R1: cooked-line lemmas and explicit-state step wrappers

theorem getLast?_append_right (a b : Str) (hb : b ≠ []) :
    (a ++ b).getLast? = b.getLast? := by
  rw [List.getLast?_append]
  rcases b with _ | ⟨c, cs⟩
  · exact absurd rfl hb
  · rcases ho : (c :: cs).getLast? with _ | d
    · rw [← ho]
      rw [List.getLast?_eq_getLast _ (List.cons_ne_nil c cs)] at ho
      simp at ho
    · rfl

theorem cleanStr_mem (s : Str) (h : cleanStr s = true) :
    ∀ c ∈ s, c ≠ '"' ∧ c ≠ '\n' ∧ c ≠ '\t' ∧ c ≠ '=' := by
  intro c hc
  have h2 := List.all_eq_true.mp h c hc
  unfold cleanChar at h2
  simp only [decide_eq_true_eq] at h2
  push_neg at h2
  exact h2

theorem cleanStr_no_quote (s : Str) (h : cleanStr s = true) : '"' ∉ s :=
  fun hm => absurd rfl (cleanStr_mem s h '"' hm).1

theorem cleanStr_no_nl (s : Str) (h : cleanStr s = true) : '\n' ∉ s :=
  fun hm => absurd rfl (cleanStr_mem s h '\n' hm).2.1

theorem cleanStr_no_tab (s : Str) (h : cleanStr s = true) : '\t' ∉ s :=
  fun hm => absurd rfl (cleanStr_mem s h '\t' hm).2.2.1

theorem cleanStr_no_eq (s : Str) (h : cleanStr s = true) : '=' ∉ s :=
  fun hm => absurd rfl (cleanStr_mem s h '=' hm).2.2.2

theorem tab_notin_cItemLine (k : ℕ) : '\t' ∉ cItemLine k := by
  intro h
  rcases List.mem_append.mp h with h1 | h1
  · exact absurd h1 (by decide)
  · rcases List.mem_append.mp h1 with h2 | h2
    · exact absurd (natStr_digits k '\t' h2) (by decide)
    · exact absurd h2 (by decide)

theorem tab_notin_cIntervalsLine (k : ℕ) : '\t' ∉ cIntervalsLine k := by
  intro h
  rcases List.mem_append.mp h with h1 | h1
  · exact absurd h1 (by decide)
  · rcases List.mem_append.mp h1 with h2 | h2
    · exact absurd (natStr_digits k '\t' h2) (by decide)
    · exact absurd h2 (by decide)

theorem tab_notin_cNameLine (nm : Str) (h : cleanStr nm = true) :
    '\t' ∉ cNameLine nm := by
  intro hm
  rcases List.mem_append.mp hm with h1 | h1
  · exact absurd h1 (by decide)
  · simp only [List.mem_cons] at h1
    rcases h1 with h2 | h2 | h2 | h2 | h2
    · exact absurd h2 (by decide)
    · exact absurd h2 (by decide)
    · exact absurd h2 (by decide)
    · exact absurd h2 (by decide)
    · rcases List.mem_append.mp h2 with h3 | h3
      · exact cleanStr_no_tab nm h h3
      · exact absurd h3 (by decide)

theorem tab_notin_cTextLine (tx : Str) (h : cleanStr tx = true) :
    '\t' ∉ cTextLine tx := by
  intro hm
  rcases List.mem_append.mp hm with h1 | h1
  · exact absurd h1 (by decide)
  · simp only [List.mem_cons] at h1
    rcases h1 with h2 | h2 | h2 | h2 | h2
    · exact absurd h2 (by decide)
    · exact absurd h2 (by decide)
    · exact absurd h2 (by decide)
    · exact absurd h2 (by decide)
    · rcases List.mem_append.mp h2 with h3 | h3
      · exact cleanStr_no_tab tx h h3
      · exact absurd h3 (by decide)

theorem tab_notin_cXminLine (q : ℚ) (hq : IsDec q) : '\t' ∉ cXminLine q := by
  intro hm
  rcases List.mem_append.mp hm with h1 | h1
  · exact absurd h1 (by decide)
  · simp only [List.mem_cons] at h1
    rcases h1 with h2 | h2 | h2 | h2
    · exact absurd h2 (by decide)
    · exact absurd h2 (by decide)
    · exact absurd h2 (by decide)
    · rcases pyFloatRepr_chars q hq '\t' h2 with h | h | h
      · exact absurd h (by decide)
      · exact absurd h (by decide)
      · exact absurd h (by decide)

theorem tab_notin_cXmaxLine (q : ℚ) (hq : IsDec q) : '\t' ∉ cXmaxLine q := by
  intro hm
  rcases List.mem_append.mp hm with h1 | h1
  · exact absurd h1 (by decide)
  · simp only [List.mem_cons] at h1
    rcases h1 with h2 | h2 | h2 | h2
    · exact absurd h2 (by decide)
    · exact absurd h2 (by decide)
    · exact absurd h2 (by decide)
    · rcases pyFloatRepr_chars q hq '\t' h2 with h | h | h
      · exact absurd h (by decide)
      · exact absurd h (by decide)
      · exact absurd h (by decide)

theorem tab_notin_sizeLine (n : ℕ) :
    '\t' ∉ toL "intervals: size = " ++ natStr n := by
  intro h
  rcases List.mem_append.mp h with h1 | h1
  · exact absurd h1 (by decide)
  · exact absurd (natStr_digits n '\t' h1) (by decide)

theorem head_pred_of_eq {l : Str} {c0 : Char}
    (h : l.head? = some c0) (hc : isWsChar c0 = false) :
    ∀ c, l.head? = some c → isWsChar c = false := by
  intro c hcc
  rw [h] at hcc
  injection hcc with h2
  exact h2 ▸ hc

theorem last_pred_of_eq {l : Str} {c0 : Char}
    (h : l.getLast? = some c0) (hc : isWsChar c0 = false) :
    ∀ c, l.getLast? = some c → isWsChar c = false := by
  intro c hcc
  rw [h] at hcc
  injection hcc with h2
  exact h2 ▸ hc

theorem cItemLine_getLast (k : ℕ) : (cItemLine k).getLast? = some ':' := by
  unfold cItemLine
  rw [getLast?_append_right _ _ (by
    intro hh
    simp only [List.append_eq_nil] at hh
    exact natStr_ne_nil k hh.1)]
  rw [getLast?_append_right _ _ (by simp)]
  rfl

theorem cIntervalsLine_getLast (k : ℕ) : (cIntervalsLine k).getLast? = some ':' := by
  unfold cIntervalsLine
  rw [getLast?_append_right _ _ (by
    intro hh
    simp only [List.append_eq_nil] at hh
    exact natStr_ne_nil k hh.1)]
  rw [getLast?_append_right _ _ (by simp)]
  rfl

theorem cNameLine_getLast (nm : Str) : (cNameLine nm).getLast? = some '"' := by
  unfold cNameLine
  rw [getLast?_append_right _ _ (by simp)]
  show (('"' :: nm) ++ ['"']).getLast? = some '"'
  rw [List.getLast?_concat]

theorem cTextLine_getLast (tx : Str) : (cTextLine tx).getLast? = some '"' := by
  unfold cTextLine
  rw [getLast?_append_right _ _ (by simp)]
  show (('"' :: tx) ++ ['"']).getLast? = some '"'
  rw [List.getLast?_concat]

theorem cXminLine_last_ws (q : ℚ) (hq : IsDec q) :
    ∀ c, (cXminLine q).getLast? = some c → isWsChar c = false := by
  intro c hc
  unfold cXminLine at hc
  rw [getLast?_append_right _ _ (by simp [pyFloatRepr_ne_nil q hq])] at hc
  rw [show (' ' :: '=' :: ' ' :: pyFloatRepr q : Str) =
    [' ', '=', ' '] ++ pyFloatRepr q from rfl] at hc
  rw [getLast?_append_right _ _ (pyFloatRepr_ne_nil q hq)] at hc
  exact pyFloatRepr_not_ws q hq c (last_mem_of_getLast? hc)

theorem cXmaxLine_last_ws (q : ℚ) (hq : IsDec q) :
    ∀ c, (cXmaxLine q).getLast? = some c → isWsChar c = false := by
  intro c hc
  unfold cXmaxLine at hc
  rw [getLast?_append_right _ _ (by simp [pyFloatRepr_ne_nil q hq])] at hc
  rw [show (' ' :: '=' :: ' ' :: pyFloatRepr q : Str) =
    [' ', '=', ' '] ++ pyFloatRepr q from rfl] at hc
  rw [getLast?_append_right _ _ (pyFloatRepr_ne_nil q hq)] at hc
  exact pyFloatRepr_not_ws q hq c (last_mem_of_getLast? hc)

theorem sizeLine_last_ws (n : ℕ) :
    ∀ c, (toL "intervals: size = " ++ natStr n).getLast? = some c →
      isWsChar c = false := by
  intro c hc
  rw [getLast?_append_right _ _ (natStr_ne_nil n)] at hc
  exact digit_not_ws c (natStr_digits n c (last_mem_of_getLast? hc))

theorem cook_cItemLine (pad : Str) (k : ℕ) (hpad : ∀ c ∈ pad, isWsChar c = true) :
    pyStrip (tabRepl (pad ++ cItemLine k)) = cItemLine k :=
  cook_line pad _ hpad (tab_notin_cItemLine k)
    (head_pred_of_eq rfl (by decide))
    (last_pred_of_eq (cItemLine_getLast k) (by decide))

theorem cook_cIntervalsLine (pad : Str) (k : ℕ)
    (hpad : ∀ c ∈ pad, isWsChar c = true) :
    pyStrip (tabRepl (pad ++ cIntervalsLine k)) = cIntervalsLine k :=
  cook_line pad _ hpad (tab_notin_cIntervalsLine k)
    (head_pred_of_eq rfl (by decide))
    (last_pred_of_eq (cIntervalsLine_getLast k) (by decide))

theorem cook_cNameLine (pad : Str) (nm : Str)
    (hpad : ∀ c ∈ pad, isWsChar c = true) (h : cleanStr nm = true) :
    pyStrip (tabRepl (pad ++ cNameLine nm)) = cNameLine nm :=
  cook_line pad _ hpad (tab_notin_cNameLine nm h)
    (head_pred_of_eq rfl (by decide))
    (last_pred_of_eq (cNameLine_getLast nm) (by decide))

theorem cook_cTextLine (pad : Str) (tx : Str)
    (hpad : ∀ c ∈ pad, isWsChar c = true) (h : cleanStr tx = true) :
    pyStrip (tabRepl (pad ++ cTextLine tx)) = cTextLine tx :=
  cook_line pad _ hpad (tab_notin_cTextLine tx h)
    (head_pred_of_eq rfl (by decide))
    (last_pred_of_eq (cTextLine_getLast tx) (by decide))

theorem cook_cXminLine (pad : Str) (q : ℚ)
    (hpad : ∀ c ∈ pad, isWsChar c = true) (hq : IsDec q) :
    pyStrip (tabRepl (pad ++ cXminLine q)) = cXminLine q :=
  cook_line pad _ hpad (tab_notin_cXminLine q hq)
    (head_pred_of_eq rfl (by decide))
    (cXminLine_last_ws q hq)

theorem cook_cXmaxLine (pad : Str) (q : ℚ)
    (hpad : ∀ c ∈ pad, isWsChar c = true) (hq : IsDec q) :
    pyStrip (tabRepl (pad ++ cXmaxLine q)) = cXmaxLine q :=
  cook_line pad _ hpad (tab_notin_cXmaxLine q hq)
    (head_pred_of_eq rfl (by decide))
    (cXmaxLine_last_ws q hq)

theorem cook_sizeLine (pad : Str) (n : ℕ) (hpad : ∀ c ∈ pad, isWsChar c = true) :
    pyStrip (tabRepl (pad ++ (toL "intervals: size = " ++ natStr n))) =
      toL "intervals: size = " ++ natStr n :=
  cook_line pad _ hpad (tab_notin_sizeLine n)
    (head_pred_of_eq rfl (by decide))
    (sizeLine_last_ws n)

theorem cook_headerFT : pyStrip (tabRepl headerFT) = headerFT := by decide

theorem cook_headerOC : pyStrip (tabRepl headerOC) = headerOC := by decide

theorem cook_blank : pyStrip (tabRepl []) = [] := by decide

theorem cook_tiersLine :
    pyStrip (tabRepl (toL "tiers? <exists>")) = toL "tiers? <exists>" := by decide

theorem cook_classLine :
    pyStrip (tabRepl (toL "\t\tclass = \"IntervalTier\"")) =
      toL "class = \"IntervalTier\"" := by decide

theorem longStep_xminLine_mk (g : Grid) (nmv : Option PyVal) (T : Option Tier)
    (x0 x1 : Option ℚ) (i : ℕ) (q : ℚ) (hq : IsDec q) :
    longStep ⟨g, nmv, T, x0, x1⟩ i (cXminLine q) = .ok ⟨g, nmv, T, some q, x1⟩ :=
  longStep_xminLine ⟨g, nmv, T, x0, x1⟩ i q hq

theorem longStep_xmaxLine_mk (g : Grid) (nmv : Option PyVal) (T : Option Tier)
    (x0 x1 : Option ℚ) (i : ℕ) (q : ℚ) (hq : IsDec q) :
    longStep ⟨g, nmv, T, x0, x1⟩ i (cXmaxLine q) = .ok ⟨g, nmv, T, x0, some q⟩ :=
  longStep_xmaxLine ⟨g, nmv, T, x0, x1⟩ i q hq

theorem longStep_nameLine_mk (g : Grid) (nmv : Option PyVal) (T : Option Tier)
    (x0 x1 : Option ℚ) (i : ℕ) (nm : Str) (h : cleanStr nm = true) :
    longStep ⟨g, nmv, T, x0, x1⟩ i (cNameLine nm) =
      .ok ⟨g, some (.str nm), T, x0, x1⟩ :=
  longStep_nameLine ⟨g, nmv, T, x0, x1⟩ i nm
    (cleanStr_no_quote nm h) (cleanStr_no_eq nm h)

theorem longStep_textLine_mk (g : Grid) (nmv : Option PyVal) (acc : List Elem)
    (a b : ℚ) (i : ℕ) (tx : Str) (h : cleanStr tx = true) (hab : a ≤ b) :
    longStep ⟨g, nmv, some ⟨false, acc⟩, some a, some b⟩ i (cTextLine tx) =
      .ok ⟨g, nmv, some ⟨false, acc ++ [.iv ⟨tx, .num a, .num b⟩]⟩,
           some a, some b⟩ :=
  longStep_textLine g nmv ⟨false, acc⟩ a b i tx
    (cleanStr_no_quote tx h) (cleanStr_no_eq tx h) rfl hab

theorem longStep_intervalsLine_acc (g : Grid) (nmv : Option PyVal)
    (acc : List Elem) (x0 x1 : Option ℚ) (i k : ℕ) :
    longStep ⟨g, nmv, some ⟨false, acc⟩, x0, x1⟩ i (cIntervalsLine k) =
      .ok ⟨g, nmv, some ⟨false, acc⟩, x0, x1⟩ := by
  rcases hacc : acc with _ | ⟨e, es⟩
  · exact longStep_intervalsLine_new ⟨g, nmv, some ⟨false, []⟩, x0, x1⟩ i k rfl
  · exact longStep_intervalsLine_skip _ i k (by simp [tierTruthy])

theorem longStep_intervalsLine_none (g : Grid) (nmv : Option PyVal)
    (x0 x1 : Option ℚ) (i k : ℕ) :
    longStep ⟨g, nmv, Option.none, x0, x1⟩ i (cIntervalsLine k) =
      .ok ⟨g, nmv, some ⟨false, []⟩, x0, x1⟩ :=
  longStep_intervalsLine_new ⟨g, nmv, Option.none, x0, x1⟩ i k rfl

theorem longStep_itemLine_skip_none (g : Grid) (nmv : Option PyVal)
    (x0 x1 : Option ℚ) (i k : ℕ) :
    longStep ⟨g, nmv, Option.none, x0, x1⟩ i (cItemLine k) =
      .ok ⟨g, nmv, Option.none, x0, x1⟩ :=
  longStep_itemLine_skip ⟨g, nmv, Option.none, x0, x1⟩ i k rfl

theorem longStep_itemLine_commit_mk (g : Grid) (nmv : PyVal) (t : Tier)
    (x0 x1 : Option ℚ) (i k : ℕ) (h0 : t.elems ≠ []) :
    longStep ⟨g, some nmv, some t, x0, x1⟩ i (cItemLine k) =
      .ok ⟨{ g with items := odSet g.items nmv t },
           some .none, Option.none, x0, x1⟩ :=
  longStep_itemLine_commit ⟨g, some nmv, some t, x0, x1⟩ i k nmv t rfl rfl h0

theorem longStep_classLine_mk (g : Grid) (nmv : Option PyVal) (T : Option Tier)
    (x0 x1 : Option ℚ) (i : ℕ) :
    longStep ⟨g, nmv, T, x0, x1⟩ i (toL "class = \"IntervalTier\"") =
      .ok ⟨g, nmv, T, x0, x1⟩ :=
  longStep_classLine ⟨g, nmv, T, x0, x1⟩ i

theorem longStep_sizeLine_mk (g : Grid) (nmv : Option PyVal) (T : Option Tier)
    (x0 x1 : Option ℚ) (i n : ℕ) :
    longStep ⟨g, nmv, T, x0, x1⟩ i (toL "intervals: size = " ++ natStr n) =
      .ok ⟨g, nmv, T, x0, x1⟩ :=
  longStep_sizeLine ⟨g, nmv, T, x0, x1⟩ i n



-- Chunk R2: newline-freeness, odSet appends, element-block runs

theorem getLast?_mem_list {α : Type} {l : List α} {x : α}
    (h : l.getLast? = some x) : x ∈ l := by
  rcases l with _ | ⟨a, as⟩
  · simp at h
  · rw [List.getLast?_eq_getLast _ (List.cons_ne_nil a as)] at h
    injection h with h2
    exact h2 ▸ List.getLast_mem _

theorem nl_notin_cItemLine (k : ℕ) : '\n' ∉ cItemLine k := by
  intro h
  rcases List.mem_append.mp h with h1 | h1
  · exact absurd h1 (by decide)
  · rcases List.mem_append.mp h1 with h2 | h2
    · exact absurd (natStr_digits k '\n' h2) (by decide)
    · exact absurd h2 (by decide)

theorem nl_notin_cIntervalsLine (k : ℕ) : '\n' ∉ cIntervalsLine k := by
  intro h
  rcases List.mem_append.mp h with h1 | h1
  · exact absurd h1 (by decide)
  · rcases List.mem_append.mp h1 with h2 | h2
    · exact absurd (natStr_digits k '\n' h2) (by decide)
    · exact absurd h2 (by decide)

theorem nl_notin_cNameLine (nm : Str) (h : cleanStr nm = true) :
    '\n' ∉ cNameLine nm := by
  intro hm
  rcases List.mem_append.mp hm with h1 | h1
  · exact absurd h1 (by decide)
  · simp only [List.mem_cons] at h1
    rcases h1 with h2 | h2 | h2 | h2 | h2
    · exact absurd h2 (by decide)
    · exact absurd h2 (by decide)
    · exact absurd h2 (by decide)
    · exact absurd h2 (by decide)
    · rcases List.mem_append.mp h2 with h3 | h3
      · exact cleanStr_no_nl nm h h3
      · exact absurd h3 (by decide)

theorem nl_notin_cTextLine (tx : Str) (h : cleanStr tx = true) :
    '\n' ∉ cTextLine tx := by
  intro hm
  rcases List.mem_append.mp hm with h1 | h1
  · exact absurd h1 (by decide)
  · simp only [List.mem_cons] at h1
    rcases h1 with h2 | h2 | h2 | h2 | h2
    · exact absurd h2 (by decide)
    · exact absurd h2 (by decide)
    · exact absurd h2 (by decide)
    · exact absurd h2 (by decide)
    · rcases List.mem_append.mp h2 with h3 | h3
      · exact cleanStr_no_nl tx h h3
      · exact absurd h3 (by decide)

theorem nl_notin_cXminLine (q : ℚ) (hq : IsDec q) : '\n' ∉ cXminLine q := by
  intro hm
  rcases List.mem_append.mp hm with h1 | h1
  · exact absurd h1 (by decide)
  · simp only [List.mem_cons] at h1
    rcases h1 with h2 | h2 | h2 | h2
    · exact absurd h2 (by decide)
    · exact absurd h2 (by decide)
    · exact absurd h2 (by decide)
    · rcases pyFloatRepr_chars q hq '\n' h2 with h | h | h
      · exact absurd h (by decide)
      · exact absurd h (by decide)
      · exact absurd h (by decide)

theorem nl_notin_cXmaxLine (q : ℚ) (hq : IsDec q) : '\n' ∉ cXmaxLine q := by
  intro hm
  rcases List.mem_append.mp hm with h1 | h1
  · exact absurd h1 (by decide)
  · simp only [List.mem_cons] at h1
    rcases h1 with h2 | h2 | h2 | h2
    · exact absurd h2 (by decide)
    · exact absurd h2 (by decide)
    · exact absurd h2 (by decide)
    · rcases pyFloatRepr_chars q hq '\n' h2 with h | h | h
      · exact absurd h (by decide)
      · exact absurd h (by decide)
      · exact absurd h (by decide)

theorem nl_notin_sizeLine (n : ℕ) :
    '\n' ∉ toL "intervals: size = " ++ natStr n := by
  intro h
  rcases List.mem_append.mp h with h1 | h1
  · exact absurd h1 (by decide)
  · exact absurd (natStr_digits n '\n' h1) (by decide)

theorem nl_notin_pad_append (pad core : Str) (hpad : '\n' ∉ pad)
    (hcore : '\n' ∉ core) : '\n' ∉ pad ++ core := by
  intro h
  rcases List.mem_append.mp h with h1 | h1
  · exact hpad h1
  · exact hcore h1

theorem odSet_fresh (items : List (PyVal × Tier)) (k : PyVal) (t : Tier)
    (h : k ∉ items.map Prod.fst) : odSet items k t = items ++ [(k, t)] := by
  induction items with
  | nil => rfl
  | cons p rest ih =>
    rcases p with ⟨k2, t2⟩
    rw [List.map_cons, List.mem_cons] at h
    push_neg at h
    show (if k2 = k then (k2, t) :: rest else (k2, t2) :: odSet rest k t) =
      ((k2, t2) :: rest) ++ [(k, t)]
    rw [if_neg (fun he => h.1 he.symm), ih h.2]
    rfl

theorem odSet_foldl_fresh (ps : List (PyVal × Tier)) :
    ∀ (items : List (PyVal × Tier)),
    (∀ p ∈ ps, p.1 ∉ items.map Prod.fst) →
    (ps.map Prod.fst).Nodup →
    ps.foldl (fun it p => odSet it p.1 p.2) items = items ++ ps := by
  induction ps with
  | nil =>
    intro items _ _
    simp
  | cons p ps ih =>
    intro items hfresh hnd
    rw [List.map_cons, List.nodup_cons] at hnd
    have hfresh2 : ∀ q ∈ ps, q.1 ∉ (items ++ [(p.1, p.2)]).map Prod.fst := by
      intro q hq
      rw [List.map_append, List.mem_append]
      push_neg
      constructor
      · exact hfresh q (List.mem_cons_of_mem _ hq)
      · intro hmem
        simp only [List.map_cons, List.map_nil, List.mem_singleton] at hmem
        exact hnd.1 (hmem ▸ List.mem_map_of_mem Prod.fst hq)
    rw [List.foldl_cons, odSet_fresh items p.1 p.2 (hfresh p (List.mem_cons_self _ _))]
    rw [ih (items ++ [(p.1, p.2)]) hfresh2 hnd.2]
    simp

theorem elemBlocks_ok (es : List Elem) : ∀ j, (∀ e ∈ es, goodElem e) →
    ∃ els, elemBlocks j es = .ok els ∧ ∀ l ∈ els, '\n' ∉ l := by
  induction es with
  | nil =>
    intro j _
    exact ⟨[], rfl, by simp⟩
  | cons e es ih =>
    intro j hgood
    rcases e with iv | p
    case pt => exact False.elim (hgood _ (List.mem_cons_self _ _))
    case iv =>
      rcases iv with ⟨tx, xm, xM⟩
      have hge := hgood _ (List.mem_cons_self _ _)
      rcases xm with s1 | a | n1 <;> rcases xM with s2 | b | n2 <;>
        try exact False.elim hge
      obtain ⟨hab, hda, hdb, htx⟩ := hge
      obtain ⟨els, hels, hnl⟩ := ih (j + 1)
        (fun e he => hgood e (List.mem_cons_of_mem _ he))
      refine ⟨[toL "\t\t" ++ cIntervalsLine (j + 1),
               toL "\t\t\t" ++ cXminLine a,
               toL "\t\t\t" ++ cXmaxLine b,
               toL "\t\t\t" ++ cTextLine tx] ++ els, ?_, ?_⟩
      · show (do
          let l ← elemLines j (Elem.iv ⟨tx, PyVal.num a, PyVal.num b⟩)
          let r ← elemBlocks (j + 1) es
          Except.ok (l ++ r)) = _
        rw [show elemLines j (Elem.iv ⟨tx, PyVal.num a, PyVal.num b⟩) =
          .ok [toL "\t\t" ++ cIntervalsLine (j + 1),
               toL "\t\t\t" ++ cXminLine a,
               toL "\t\t\t" ++ cXmaxLine b,
               toL "\t\t\t" ++ cTextLine tx] from rfl, hels]
        rfl
      · intro l hl
        rcases List.mem_append.mp hl with h1 | h1
        · simp only [List.mem_cons] at h1
          rcases h1 with h2 | h2 | h2 | h2 | h2

          · subst h2
            exact nl_notin_pad_append _ _ (by decide) (nl_notin_cIntervalsLine (j + 1))
          · subst h2
            exact nl_notin_pad_append _ _ (by decide) (nl_notin_cXminLine a hda)
          · subst h2
            exact nl_notin_pad_append _ _ (by decide) (nl_notin_cXmaxLine b hdb)
          · subst h2
            exact nl_notin_pad_append _ _ (by decide) (nl_notin_cTextLine tx htx)
          · simp at h2
        · exact hnl l h1

theorem elemsRun (es : List Elem) : ∀ (j i : ℕ) (g : Grid) (nmv : Option PyVal)
    (T : Option Tier) (acc : List Elem) (x0 x1 : Option ℚ) (bl : List Str),
    (T = Option.none ∧ acc = [] ∧ es ≠ [] ∨ T = some ⟨false, acc⟩) →
    (∀ e ∈ es, goodElem e) →
    elemBlocks j es = .ok bl →
    ∃ x0f x1f : Option ℚ,
      runLines longStep ⟨g, nmv, T, x0, x1⟩ i
        (bl.map (fun l => pyStrip (tabRepl l))) =
      (⟨g, nmv, some ⟨false, acc ++ es⟩, x0f, x1f⟩, Option.none) := by
  induction es with
  | nil =>
    intro j i g nmv T acc x0 x1 bl hT hgood hbl
    rcases hT with ⟨_, _, hne⟩ | hT
    · exact absurd rfl hne
    · have hbl2 : bl = [] := by
        have h2 : (Except.ok [] : Except PyError (List Str)) = .ok bl := hbl
        injection h2 with h3
        exact h3.symm
      subst hbl2
      subst hT
      refine ⟨x0, x1, ?_⟩
      rw [List.append_nil]
      rfl
  | cons e es ih =>
    intro j i g nmv T acc x0 x1 bl hT hgood hbl
    rcases e with iv | p
    case pt => exact False.elim (hgood _ (List.mem_cons_self _ _))
    case iv =>
      rcases iv with ⟨tx, xm, xM⟩
      have hge := hgood _ (List.mem_cons_self _ _)
      rcases xm with s1 | a | n1 <;> rcases xM with s2 | b | n2 <;>
        try exact False.elim hge
      obtain ⟨hab, hda, hdb, htx⟩ := hge
      rcases hrest : elemBlocks (j + 1) es with err | r
      · exfalso
        have h2 : elemBlocks j (Elem.iv ⟨tx, PyVal.num a, PyVal.num b⟩ :: es) =
            .error err := by
          show (do
            let l ← elemLines j (Elem.iv ⟨tx, PyVal.num a, PyVal.num b⟩)
            let r2 ← elemBlocks (j + 1) es
            Except.ok (l ++ r2)) = _
          rw [show elemLines j (Elem.iv ⟨tx, PyVal.num a, PyVal.num b⟩) =
            .ok [toL "\t\t" ++ cIntervalsLine (j + 1),
                 toL "\t\t\t" ++ cXminLine a,
                 toL "\t\t\t" ++ cXmaxLine b,
                 toL "\t\t\t" ++ cTextLine tx] from rfl, hrest]
          rfl
        rw [h2] at hbl
        exact absurd hbl (by simp)
      · have h2 : elemBlocks j (Elem.iv ⟨tx, PyVal.num a, PyVal.num b⟩ :: es) =
            .ok ([toL "\t\t" ++ cIntervalsLine (j + 1),
                  toL "\t\t\t" ++ cXminLine a,
                  toL "\t\t\t" ++ cXmaxLine b,
                  toL "\t\t\t" ++ cTextLine tx] ++ r) := by
          show (do
            let l ← elemLines j (Elem.iv ⟨tx, PyVal.num a, PyVal.num b⟩)
            let r2 ← elemBlocks (j + 1) es
            Except.ok (l ++ r2)) = _
          rw [show elemLines j (Elem.iv ⟨tx, PyVal.num a, PyVal.num b⟩) =
            .ok [toL "\t\t" ++ cIntervalsLine (j + 1),
                 toL "\t\t\t" ++ cXminLine a,
                 toL "\t\t\t" ++ cXmaxLine b,
                 toL "\t\t\t" ++ cTextLine tx] from rfl, hrest]
          rfl
        rw [h2] at hbl
        injection hbl with hblv
        subst hblv
        have hcook : (([toL "\t\t" ++ cIntervalsLine (j + 1),
              toL "\t\t\t" ++ cXminLine a,
              toL "\t\t\t" ++ cXmaxLine b,
              toL "\t\t\t" ++ cTextLine tx] ++ r).map
            (fun l => pyStrip (tabRepl l))) =
            [cIntervalsLine (j + 1), cXminLine a, cXmaxLine b, cTextLine tx] ++
              r.map (fun l => pyStrip (tabRepl l)) := by
          rw [List.map_append]
          congr 1
          simp only [List.map_cons, List.map_nil]
          rw [cook_cIntervalsLine _ _ (by decide), cook_cXminLine _ _ (by decide) hda,
              cook_cXmaxLine _ _ (by decide) hdb, cook_cTextLine _ _ (by decide) htx]
        have h1 : longStep ⟨g, nmv, T, x0, x1⟩ i (cIntervalsLine (j + 1)) =
            .ok ⟨g, nmv, some ⟨false, acc⟩, x0, x1⟩ := by
          rcases hT with ⟨hTn, hacc, _⟩ | hTs
          · subst hTn
            subst hacc
            exact longStep_intervalsLine_none g nmv x0 x1 i (j + 1)
          · subst hTs
            exact longStep_intervalsLine_acc g nmv acc x0 x1 i (j + 1)
        have hs2 := longStep_xminLine_mk g nmv (some ⟨false, acc⟩) x0 x1 (i + 1) a hda
        have hs3 := longStep_xmaxLine_mk g nmv (some ⟨false, acc⟩) (some a) x1
          (i + 1 + 1) b hdb
        have hs4 := longStep_textLine_mk g nmv acc a b (i + 1 + 1 + 1) tx htx hab
        have hrun4 : runLines longStep ⟨g, nmv, T, x0, x1⟩ i
            [cIntervalsLine (j + 1), cXminLine a, cXmaxLine b, cTextLine tx] =
            (⟨g, nmv, some ⟨false,
                acc ++ [.iv ⟨tx, PyVal.num a, PyVal.num b⟩]⟩, some a, some b⟩,
             Option.none) := by
          simp only [runLines, h1, hs2, hs3, hs4]
        obtain ⟨x0f, x1f, hrest2⟩ := ih (j + 1) (i + 4) g nmv
          (some ⟨false, acc ++ [.iv ⟨tx, PyVal.num a, PyVal.num b⟩]⟩)
          (acc ++ [.iv ⟨tx, PyVal.num a, PyVal.num b⟩]) (some a) (some b) r
          (Or.inr rfl) (fun e he => hgood e (List.mem_cons_of_mem _ he)) hrest
        refine ⟨x0f, x1f, ?_⟩
        rw [hcook, runLines_append longStep _ _ _ i, hrun4]
        show runLines longStep
          ⟨g, nmv, some ⟨false, acc ++ [.iv ⟨tx, PyVal.num a, PyVal.num b⟩]⟩,
           some a, some b⟩ (i + 4) (r.map (fun l => pyStrip (tabRepl l))) = _
        rw [hrest2, List.append_assoc]
        rfl



-- Chunk R3: tier-level serialization shape and runs

theorem tierLines_eval (c : ℕ) (s : Str) (es : List Elem) (hne : es ≠ [])
    (hall : ∀ e ∈ es, goodElem e) :
    ∃ a0 bN els, IsDec a0 ∧ IsDec bN ∧
      elemBlocks 0 es = .ok els ∧ (∀ l ∈ els, '\n' ∉ l) ∧
      tierLines c (.str s) ⟨false, es⟩ = .ok
        ([toL "\t" ++ cItemLine c,
          toL "\t\tclass = \"IntervalTier\"",
          toL "\t\t" ++ cNameLine s,
          toL "\t\t" ++ cXminLine a0,
          toL "\t\t" ++ cXmaxLine bN,
          toL "\t\t" ++ (toL "intervals: size = " ++ natStr es.length)] ++ els) := by
  rcases es with _ | ⟨e0, rest⟩
  · exact absurd rfl hne
  have hge0 : goodElem e0 := hall e0 (List.mem_cons_self _ _)
  rcases hL : (e0 :: rest).getLast? with _ | eL
  · rw [List.getLast?_eq_getLast _ (List.cons_ne_nil e0 rest)] at hL
    exact Option.noConfusion hL
  have hgeL : goodElem eL := hall eL (getLast?_mem_list hL)
  obtain ⟨els, helsOk, hnl⟩ := elemBlocks_ok (e0 :: rest) 0 hall
  rcases e0 with iv0 | p0
  case pt => exact False.elim hge0
  case iv =>
  rcases iv0 with ⟨tx0, xm0, xM0⟩
  rcases xm0 with u | a0 | u <;> rcases xM0 with v | b0 | v <;>
    try exact False.elim hge0
  obtain ⟨hab0, hda0, hdb0, htx0⟩ := hge0
  rcases eL with ivL | pL
  case pt => exact False.elim hgeL
  case iv =>
  rcases ivL with ⟨txL, xmL, xML⟩
  rcases xmL with u | aL | u <;> rcases xML with v | bL | v <;>
    try exact False.elim hgeL
  obtain ⟨habL, hdaL, hdbL, htxL⟩ := hgeL
  refine ⟨a0, bL, els, hda0, hdbL, helsOk, hnl, ?_⟩
  show (do
    let e0v ← pyHeadE ((Elem.iv ⟨tx0, PyVal.num a0, PyVal.num b0⟩) :: rest)
    let x0v ← e0v.attrXmin
    let eLv ← pyLast ((Elem.iv ⟨tx0, PyVal.num a0, PyVal.num b0⟩) :: rest)
    let x1v ← eLv.attrXmax
    let els2 ← elemBlocks 0 ((Elem.iv ⟨tx0, PyVal.num a0, PyVal.num b0⟩) :: rest)
    Except.ok ([toL "\titem [" ++ natStr c ++ toL "]:",
        toL "\t\tclass = \"IntervalTier\"",
        toL "\t\tname = \"" ++ strOfVal (PyVal.str s) ++ ['"'],
        toL "\t\txmin = " ++ strOfVal x0v,
        toL "\t\txmax = " ++ strOfVal x1v,
        toL "\t\tintervals: size = " ++
          natStr ((Elem.iv ⟨tx0, PyVal.num a0, PyVal.num b0⟩) :: rest).length] ++
      els2)) = _
  rw [show pyLast ((Elem.iv ⟨tx0, PyVal.num a0, PyVal.num b0⟩) :: rest) =
    .ok (Elem.iv ⟨txL, PyVal.num aL, PyVal.num bL⟩) from by
      unfold pyLast
      rw [hL]]
  rw [helsOk]
  rfl

theorem tierBlockRun_pending (c i : ℕ) (g : Grid) (nmP : PyVal) (tP : Tier)
    (x0 x1 : Option ℚ) (s : Str) (es : List Elem) (bl : List Str)
    (hs : cleanStr s = true) (hne : es ≠ []) (hall : ∀ e ∈ es, goodElem e)
    (hneP : tP.elems ≠ [])
    (hbl : tierLines c (.str s) ⟨false, es⟩ = .ok bl) :
    ∃ x0f x1f,
      runLines longStep ⟨g, some nmP, some tP, x0, x1⟩ i
        (bl.map (fun l => pyStrip (tabRepl l))) =
      (⟨{ g with items := odSet g.items nmP tP },
        some (.str s), some ⟨false, es⟩, x0f, x1f⟩, Option.none) := by
  obtain ⟨a0, bN, els, hda, hdb, helsOk, hnl, heval⟩ := tierLines_eval c s es hne hall
  rw [heval] at hbl
  injection hbl with hblv
  subst hblv
  have hcook : (([toL "\t" ++ cItemLine c,
        toL "\t\tclass = \"IntervalTier\"",
        toL "\t\t" ++ cNameLine s,
        toL "\t\t" ++ cXminLine a0,
        toL "\t\t" ++ cXmaxLine bN,
        toL "\t\t" ++ (toL "intervals: size = " ++ natStr es.length)] ++ els).map
      (fun l => pyStrip (tabRepl l))) =
      [cItemLine c, toL "class = \"IntervalTier\"", cNameLine s,
       cXminLine a0, cXmaxLine bN,
       toL "intervals: size = " ++ natStr es.length] ++
        els.map (fun l => pyStrip (tabRepl l)) := by
    rw [List.map_append]
    congr 1
    simp only [List.map_cons, List.map_nil]
    rw [cook_cItemLine _ _ (by decide), cook_classLine,
        cook_cNameLine _ _ (by decide) hs, cook_cXminLine _ _ (by decide) hda,
        cook_cXmaxLine _ _ (by decide) hdb, cook_sizeLine _ _ (by decide)]
  have h1 := longStep_itemLine_commit_mk g nmP tP x0 x1 i c hneP
  have h2 := longStep_classLine_mk { g with items := odSet g.items nmP tP }
    (some .none) Option.none x0 x1 (i + 1)
  have h3 := longStep_nameLine_mk { g with items := odSet g.items nmP tP }
    (some .none) Option.none x0 x1 (i + 1 + 1) s hs
  have h4 := longStep_xminLine_mk { g with items := odSet g.items nmP tP }
    (some (.str s)) Option.none x0 x1 (i + 1 + 1 + 1) a0 hda
  have h5 := longStep_xmaxLine_mk { g with items := odSet g.items nmP tP }
    (some (.str s)) Option.none (some a0) x1 (i + 1 + 1 + 1 + 1) bN hdb
  have h6 := longStep_sizeLine_mk { g with items := odSet g.items nmP tP }
    (some (.str s)) Option.none (some a0) (some bN) (i + 1 + 1 + 1 + 1 + 1)
    es.length
  have hrun6 : runLines longStep ⟨g, some nmP, some tP, x0, x1⟩ i
      [cItemLine c, toL "class = \"IntervalTier\"", cNameLine s,
       cXminLine a0, cXmaxLine bN,
       toL "intervals: size = " ++ natStr es.length] =
      (⟨{ g with items := odSet g.items nmP tP },
        some (.str s), Option.none, some a0, some bN⟩, Option.none) := by
    simp only [runLines, h1, h2, h3, h4, h5, h6]
  obtain ⟨x0f, x1f, helems⟩ := elemsRun es 0 (i + 6)
    { g with items := odSet g.items nmP tP } (some (.str s)) Option.none []
    (some a0) (some bN) els (Or.inl ⟨rfl, rfl, hne⟩) hall helsOk
  refine ⟨x0f, x1f, ?_⟩
  rw [hcook, runLines_append longStep _ _ _ i, hrun6]
  show runLines longStep
    ⟨{ g with items := odSet g.items nmP tP },
     some (.str s), Option.none, some a0, some bN⟩ (i + 6)
    (els.map (fun l => pyStrip (tabRepl l))) = _
  rw [helems]
  rfl

theorem tierBlockRun_first (c i : ℕ) (g : Grid) (nmv : Option PyVal)
    (x0 x1 : Option ℚ) (s : Str) (es : List Elem) (bl : List Str)
    (hs : cleanStr s = true) (hne : es ≠ []) (hall : ∀ e ∈ es, goodElem e)
    (hbl : tierLines c (.str s) ⟨false, es⟩ = .ok bl) :
    ∃ x0f x1f,
      runLines longStep ⟨g, nmv, Option.none, x0, x1⟩ i
        (bl.map (fun l => pyStrip (tabRepl l))) =
      (⟨g, some (.str s), some ⟨false, es⟩, x0f, x1f⟩, Option.none) := by
  obtain ⟨a0, bN, els, hda, hdb, helsOk, hnl, heval⟩ := tierLines_eval c s es hne hall
  rw [heval] at hbl
  injection hbl with hblv
  subst hblv
  have hcook : (([toL "\t" ++ cItemLine c,
        toL "\t\tclass = \"IntervalTier\"",
        toL "\t\t" ++ cNameLine s,
        toL "\t\t" ++ cXminLine a0,
        toL "\t\t" ++ cXmaxLine bN,
        toL "\t\t" ++ (toL "intervals: size = " ++ natStr es.length)] ++ els).map
      (fun l => pyStrip (tabRepl l))) =
      [cItemLine c, toL "class = \"IntervalTier\"", cNameLine s,
       cXminLine a0, cXmaxLine bN,
       toL "intervals: size = " ++ natStr es.length] ++
        els.map (fun l => pyStrip (tabRepl l)) := by
    rw [List.map_append]
    congr 1
    simp only [List.map_cons, List.map_nil]
    rw [cook_cItemLine _ _ (by decide), cook_classLine,
        cook_cNameLine _ _ (by decide) hs, cook_cXminLine _ _ (by decide) hda,
        cook_cXmaxLine _ _ (by decide) hdb, cook_sizeLine _ _ (by decide)]
  have h1 := longStep_itemLine_skip_none g nmv x0 x1 i c
  have h2 := longStep_classLine_mk g nmv Option.none x0 x1 (i + 1)
  have h3 := longStep_nameLine_mk g nmv Option.none x0 x1 (i + 1 + 1) s hs
  have h4 := longStep_xminLine_mk g (some (.str s)) Option.none x0 x1
    (i + 1 + 1 + 1) a0 hda
  have h5 := longStep_xmaxLine_mk g (some (.str s)) Option.none (some a0) x1
    (i + 1 + 1 + 1 + 1) bN hdb
  have h6 := longStep_sizeLine_mk g (some (.str s)) Option.none (some a0)
    (some bN) (i + 1 + 1 + 1 + 1 + 1) es.length
  have hrun6 : runLines longStep ⟨g, nmv, Option.none, x0, x1⟩ i
      [cItemLine c, toL "class = \"IntervalTier\"", cNameLine s,
       cXminLine a0, cXmaxLine bN,
       toL "intervals: size = " ++ natStr es.length] =
      (⟨g, some (.str s), Option.none, some a0, some bN⟩, Option.none) := by
    simp only [runLines, h1, h2, h3, h4, h5, h6]
  obtain ⟨x0f, x1f, helems⟩ := elemsRun es 0 (i + 6) g (some (.str s))
    Option.none [] (some a0) (some bN) els (Or.inl ⟨rfl, rfl, hne⟩) hall helsOk
  refine ⟨x0f, x1f, ?_⟩
  rw [hcook, runLines_append longStep _ _ _ i, hrun6]
  show runLines longStep ⟨g, some (.str s), Option.none, some a0, some bN⟩ (i + 6)
    (els.map (fun l => pyStrip (tabRepl l))) = _
  rw [helems]
  rfl

theorem tiersRun (its : List (PyVal × Tier)) : ∀ (c i : ℕ) (g : Grid)
    (nmP : PyVal) (tP : Tier) (x0 x1 : Option ℚ) (bl : List Str),
    (∀ it ∈ its, (∃ s, it.1 = .str s ∧ cleanStr s = true) ∧ goodTier it.2) →
    tP.elems ≠ [] →
    tierBlocks c its = .ok bl →
    ∃ x0f x1f nmL tL,
      tL.elems ≠ [] ∧
      (nmL, tL) = ((nmP, tP) :: its).getLast (List.cons_ne_nil _ _) ∧
      runLines longStep ⟨g, some nmP, some tP, x0, x1⟩ i
        (bl.map (fun l => pyStrip (tabRepl l))) =
      (⟨{ g with items := (((nmP, tP) :: its).dropLast).foldl (fun items p => odSet items p.1 p.2) g.items }, some nmL, some tL, x0f, x1f⟩, Option.none) := by
  induction its with
  | nil =>
    intro c i g nmP tP x0 x1 bl hits hneP hbl
    have hbl2 : bl = [] := by
      have h2 : (Except.ok [] : Except PyError (List Str)) = .ok bl := hbl
      injection h2 with h3
      exact h3.symm
    subst hbl2
    exact ⟨x0, x1, nmP, tP, hneP, rfl, rfl⟩
  | cons p its2 ih =>
    intro c i g nmP tP x0 x1 bl hits hneP hbl
    rcases p with ⟨nm2, t2⟩
    obtain ⟨⟨s2, hs2eq, hs2c⟩, hgt2⟩ := hits _ (List.mem_cons_self _ _)
    obtain ⟨hpt2, hne2, hall2⟩ := hgt2
    dsimp only at hs2eq hpt2 hne2 hall2
    have ht2eta : t2 = ⟨false, t2.elems⟩ := by
      rcases t2 with ⟨pt, els⟩
      simp only at hpt2
      rw [hpt2]
    rcases hb : tierLines c nm2 t2 with e1 | b
    · exfalso
      have h2 : tierBlocks c ((nm2, t2) :: its2) = .error e1 := by
        show (do
          let bb ← tierLines c nm2 t2
          let r ← tierBlocks (c + 1) its2
          Except.ok (bb ++ r)) = _
        rw [hb]
        rfl
      rw [h2] at hbl
      exact absurd hbl (by simp)
    · rcases hr : tierBlocks (c + 1) its2 with e2 | r
      · exfalso
        have h2 : tierBlocks c ((nm2, t2) :: its2) = .error e2 := by
          show (do
            let bb ← tierLines c nm2 t2
            let r2 ← tierBlocks (c + 1) its2
            Except.ok (bb ++ r2)) = _
          rw [hb, hr]
          rfl
        rw [h2] at hbl
        exact absurd hbl (by simp)
      · have h2 : tierBlocks c ((nm2, t2) :: its2) = .ok (b ++ r) := by
          show (do
            let bb ← tierLines c nm2 t2
            let r2 ← tierBlocks (c + 1) its2
            Except.ok (bb ++ r2)) = _
          rw [hb, hr]
          rfl
        rw [h2] at hbl
        injection hbl with hblv
        subst hblv
        rw [hs2eq, ht2eta] at hb
        obtain ⟨x0f1, x1f1, hrun1⟩ := tierBlockRun_pending c i g nmP tP x0 x1
          s2 t2.elems b hs2c hne2 hall2 hneP hb
        obtain ⟨x0f, x1f, nmL, tL, hneL, hlast, hrun2⟩ := ih (c + 1)
          (i + (b.map (fun l => pyStrip (tabRepl l))).length)
          { g with items := odSet g.items nmP tP }
          (.str s2) ⟨false, t2.elems⟩ x0f1 x1f1 r
          (fun it hit => hits it (List.mem_cons_of_mem _ hit)) hne2 hr
        refine ⟨x0f, x1f, nmL, tL, hneL, ?_, ?_⟩
        · rw [hlast]
          rw [show ((nmP, tP) :: (nm2, t2) :: its2).getLast
              (List.cons_ne_nil _ _) =
            ((nm2, t2) :: its2).getLast (List.cons_ne_nil _ _) from
              List.getLast_cons (List.cons_ne_nil _ _)]
          rw [hs2eq, ht2eta]
        · rw [List.map_append, runLines_append longStep _ _ _ i, hrun1]
          show runLines longStep
            ⟨{ g with items := odSet g.items nmP tP },
             some (.str s2), some ⟨false, t2.elems⟩, x0f1, x1f1⟩
            (i + (b.map (fun l => pyStrip (tabRepl l))).length)
            (r.map (fun l => pyStrip (tabRepl l))) = _
          rw [hrun2]
          have hitems : (((.str s2, (⟨false, t2.elems⟩ : Tier)) :: its2).dropLast).foldl (fun items p => odSet items p.1 p.2) ({ g with items := odSet g.items nmP tP }).items = (((nmP, tP) :: (nm2, t2) :: its2).dropLast).foldl (fun items p => odSet items p.1 p.2) g.items := by
            rw [← hs2eq, ← ht2eta]
            rw [show ((nmP, tP) :: (nm2, t2) :: its2).dropLast =
              (nmP, tP) :: ((nm2, t2) :: its2).dropLast from rfl]
            rw [List.foldl_cons]
          rw [hitems]



-- Chunk F1: serializer success under goodness, and the whole-tier run

theorem foldlM_min_nums (xs : List PyVal) : ∀ (cur : ℚ),
    (∀ v ∈ xs, ∃ q : ℚ, v = .num q) →
    ∃ m : ℚ, (xs.foldlM (fun cur y => do
        let b ← pyLt y cur
        pure (if b then y else cur)) (PyVal.num cur) :
      Except PyError PyVal) = .ok (.num m) ∧
      (m = cur ∨ PyVal.num m ∈ xs) := by
  induction xs with
  | nil =>
    intro cur _
    exact ⟨cur, rfl, Or.inl rfl⟩
  | cons y ys ih =>
    intro cur hnums
    obtain ⟨qy, hqy⟩ := hnums y (List.mem_cons_self _ _)
    subst hqy
    by_cases hlt : qy < cur
    · obtain ⟨m, hm, hmem⟩ := ih qy (fun v hv => hnums v (List.mem_cons_of_mem _ hv))
      refine ⟨m, ?_, ?_⟩
      · rw [List.foldlM_cons]
        show ((Except.ok (decide (qy < cur)) : Except PyError Bool) >>= fun b =>
          ys.foldlM _ (if b then PyVal.num qy else PyVal.num cur)) = _
        rw [decide_eq_true hlt]
        show ys.foldlM _ (PyVal.num qy) = _
        exact hm
      · rcases hmem with h | h
        · exact Or.inr (h ▸ List.mem_cons_self _ _)
        · exact Or.inr (List.mem_cons_of_mem _ h)
    · obtain ⟨m, hm, hmem⟩ := ih cur (fun v hv => hnums v (List.mem_cons_of_mem _ hv))
      refine ⟨m, ?_, ?_⟩
      · rw [List.foldlM_cons]
        show ((Except.ok (decide (qy < cur)) : Except PyError Bool) >>= fun b =>
          ys.foldlM _ (if b then PyVal.num qy else PyVal.num cur)) = _
        rw [decide_eq_false hlt]
        show ys.foldlM _ (PyVal.num cur) = _
        exact hm
      · rcases hmem with h | h
        · exact Or.inl h
        · exact Or.inr (List.mem_cons_of_mem _ h)

theorem foldlM_max_nums (xs : List PyVal) : ∀ (cur : ℚ),
    (∀ v ∈ xs, ∃ q : ℚ, v = .num q) →
    ∃ m : ℚ, (xs.foldlM (fun cur y => do
        let b ← pyGt y cur
        pure (if b then y else cur)) (PyVal.num cur) :
      Except PyError PyVal) = .ok (.num m) ∧
      (m = cur ∨ PyVal.num m ∈ xs) := by
  induction xs with
  | nil =>
    intro cur _
    exact ⟨cur, rfl, Or.inl rfl⟩
  | cons y ys ih =>
    intro cur hnums
    obtain ⟨qy, hqy⟩ := hnums y (List.mem_cons_self _ _)
    subst hqy
    by_cases hlt : cur < qy
    · obtain ⟨m, hm, hmem⟩ := ih qy (fun v hv => hnums v (List.mem_cons_of_mem _ hv))
      refine ⟨m, ?_, ?_⟩
      · rw [List.foldlM_cons]
        show ((Except.ok (decide (cur < qy)) : Except PyError Bool) >>= fun b =>
          ys.foldlM _ (if b then PyVal.num qy else PyVal.num cur)) = _
        rw [decide_eq_true hlt]
        show ys.foldlM _ (PyVal.num qy) = _
        exact hm
      · rcases hmem with h | h
        · exact Or.inr (h ▸ List.mem_cons_self _ _)
        · exact Or.inr (List.mem_cons_of_mem _ h)
    · obtain ⟨m, hm, hmem⟩ := ih cur (fun v hv => hnums v (List.mem_cons_of_mem _ hv))
      refine ⟨m, ?_, ?_⟩
      · rw [List.foldlM_cons]
        show ((Except.ok (decide (cur < qy)) : Except PyError Bool) >>= fun b =>
          ys.foldlM _ (if b then PyVal.num qy else PyVal.num cur)) = _
        rw [decide_eq_false hlt]
        show ys.foldlM _ (PyVal.num cur) = _
        exact hm
      · rcases hmem with h | h
        · exact Or.inl h
        · exact Or.inr (List.mem_cons_of_mem _ h)

theorem pyMinList_nums (l : List PyVal) (h0 : l ≠ [])
    (h : ∀ v ∈ l, ∃ q : ℚ, v = .num q) :
    ∃ m : ℚ, pyMinList l = .ok (.num m) ∧ PyVal.num m ∈ l := by
  rcases l with _ | ⟨x, xs⟩
  · exact absurd rfl h0
  obtain ⟨qx, hqx⟩ := h x (List.mem_cons_self _ _)
  subst hqx
  obtain ⟨m, hm, hmem⟩ := foldlM_min_nums xs qx
    (fun v hv => h v (List.mem_cons_of_mem _ hv))
  refine ⟨m, hm, ?_⟩
  rcases hmem with h2 | h2
  · exact h2 ▸ List.mem_cons_self _ _
  · exact List.mem_cons_of_mem _ h2

theorem pyMaxList_nums (l : List PyVal) (h0 : l ≠ [])
    (h : ∀ v ∈ l, ∃ q : ℚ, v = .num q) :
    ∃ m : ℚ, pyMaxList l = .ok (.num m) ∧ PyVal.num m ∈ l := by
  rcases l with _ | ⟨x, xs⟩
  · exact absurd rfl h0
  obtain ⟨qx, hqx⟩ := h x (List.mem_cons_self _ _)
  subst hqx
  obtain ⟨m, hm, hmem⟩ := foldlM_max_nums xs qx
    (fun v hv => h v (List.mem_cons_of_mem _ hv))
  refine ⟨m, hm, ?_⟩
  rcases hmem with h2 | h2
  · exact h2 ▸ List.mem_cons_self _ _
  · exact List.mem_cons_of_mem _ h2

theorem firstXmins_ok (items : List (PyVal × Tier)) :
    (∀ it ∈ items, goodTier it.2) →
    ∃ l, firstXmins items = .ok l ∧
      (items ≠ [] → l ≠ []) ∧ ∀ v ∈ l, ∃ q, v = PyVal.num q ∧ IsDec q := by
  induction items with
  | nil =>
    intro _
    exact ⟨[], rfl, fun h => absurd rfl h, by simp⟩
  | cons it its ih =>
    intro hgood
    obtain ⟨hpt, hne, hall⟩ := hgood it (List.mem_cons_self _ _)
    rcases hels : it.2.elems with _ | ⟨e0, rest⟩
    · exact absurd hels hne
    have hge0 : goodElem e0 := hall e0 (by rw [hels]; exact List.mem_cons_self _ _)
    rcases e0 with iv0 | p0
    case pt => exact False.elim hge0
    case iv =>
    rcases iv0 with ⟨tx0, xm0, xM0⟩
    rcases xm0 with u | a0 | u <;> rcases xM0 with v | b0 | v <;>
      try exact False.elim hge0
    obtain ⟨hab0, hda0, hdb0, htx0⟩ := hge0
    obtain ⟨l, hl, _, hvals⟩ := ih (fun p hp => hgood p (List.mem_cons_of_mem _ hp))
    refine ⟨PyVal.num a0 :: l, ?_, ?_, ?_⟩
    · unfold firstXmins
      rw [List.mapM_cons]
      have hhd : (do
          let e ← pyHeadE it.2.elems
          e.attrXmin : Except PyError PyVal) = .ok (.num a0) := by
        rw [show pyHeadE it.2.elems >>= Elem.attrXmin =
          pyHeadE (Elem.iv ⟨tx0, PyVal.num a0, PyVal.num b0⟩ :: rest) >>=
            Elem.attrXmin from by rw [hels]]
        rfl
      rw [hhd]
      unfold firstXmins at hl
      rw [hl]
      rfl
    · intro _
      simp
    · intro w hw
      rcases List.mem_cons.mp hw with h2 | h2
      · exact ⟨a0, h2, hda0⟩
      · exact hvals w h2

theorem lastXmaxs_ok (items : List (PyVal × Tier)) :
    (∀ it ∈ items, goodTier it.2) →
    ∃ l, lastXmaxs items = .ok l ∧ (items ≠ [] → l ≠ []) ∧
      ∀ v ∈ l, ∃ q, v = PyVal.num q ∧ IsDec q := by
  induction items with
  | nil =>
    intro _
    exact ⟨[], rfl, fun h => absurd rfl h, by simp⟩
  | cons it its ih =>
    intro hgood
    obtain ⟨hpt, hne, hall⟩ := hgood it (List.mem_cons_self _ _)
    rcases hL : it.2.elems.getLast? with _ | eL
    · exfalso
      rcases hels : it.2.elems with _ | ⟨e0, rest⟩
      · exact absurd hels hne
      rw [hels, List.getLast?_eq_getLast _ (List.cons_ne_nil e0 rest)] at hL
      exact Option.noConfusion hL
    have hgeL : goodElem eL := hall eL (getLast?_mem_list hL)
    rcases eL with ivL | pL
    case pt => exact False.elim hgeL
    case iv =>
    rcases ivL with ⟨txL, xmL, xML⟩
    rcases xmL with u | aL | u <;> rcases xML with v | bL | v <;>
      try exact False.elim hgeL
    obtain ⟨habL, hdaL, hdbL, htxL⟩ := hgeL
    obtain ⟨l, hl, _, hvals⟩ := ih (fun p hp => hgood p (List.mem_cons_of_mem _ hp))
    refine ⟨PyVal.num bL :: l, ?_, ?_, ?_⟩
    · unfold lastXmaxs
      rw [List.mapM_cons]
      have hhd : (do
          let e ← pyLast it.2.elems
          e.attrXmax : Except PyError PyVal) = .ok (.num bL) := by
        show (pyLast it.2.elems >>= fun e => e.attrXmax) = _
        rw [show pyLast it.2.elems =
          .ok (Elem.iv ⟨txL, PyVal.num aL, PyVal.num bL⟩) from by
            unfold pyLast
            rw [hL]]
        rfl
      rw [hhd]
      unfold lastXmaxs at hl
      rw [hl]
      rfl
    · intro _
      simp
    · intro w hw
      rcases List.mem_cons.mp hw with h2 | h2
      · exact ⟨bL, h2, hdbL⟩
      · exact hvals w h2

theorem tierBlocks_ok (its : List (PyVal × Tier)) : ∀ c,
    (∀ it ∈ its, (∃ s, it.1 = .str s ∧ cleanStr s = true) ∧ goodTier it.2) →
    ∃ bls, tierBlocks c its = .ok bls ∧ ∀ l ∈ bls, '\n' ∉ l := by
  induction its with
  | nil =>
    intro c _
    exact ⟨[], rfl, by simp⟩
  | cons p its2 ih =>
    intro c hits
    rcases p with ⟨nm2, t2⟩
    obtain ⟨⟨s2, hs2eq, hs2c⟩, hgt2⟩ := hits _ (List.mem_cons_self _ _)
    obtain ⟨hpt2, hne2, hall2⟩ := hgt2
    dsimp only at hs2eq hpt2 hne2 hall2
    have ht2eta : t2 = ⟨false, t2.elems⟩ := by
      rcases t2 with ⟨pt, els⟩
      simp only at hpt2
      rw [hpt2]
    obtain ⟨a0, bN, els, hda, hdb, helsOk, hnl, heval⟩ :=
      tierLines_eval c s2 t2.elems hne2 hall2
    obtain ⟨bls2, hbls2, hnl2⟩ := ih (c + 1)
      (fun it hit => hits it (List.mem_cons_of_mem _ hit))
    refine ⟨([toL "\t" ++ cItemLine c,
        toL "\t\tclass = \"IntervalTier\"",
        toL "\t\t" ++ cNameLine s2,
        toL "\t\t" ++ cXminLine a0,
        toL "\t\t" ++ cXmaxLine bN,
        toL "\t\t" ++ (toL "intervals: size = " ++ natStr t2.elems.length)] ++ els) ++
      bls2, ?_, ?_⟩
    · show (do
        let bb ← tierLines c nm2 t2
        let r ← tierBlocks (c + 1) its2
        Except.ok (bb ++ r)) = _
      rw [hs2eq, ht2eta, heval, hbls2]
      rfl
    · intro l hl
      rcases List.mem_append.mp hl with h1 | h1
      · rcases List.mem_append.mp h1 with h2 | h2
        · simp only [List.mem_cons] at h2
          rcases h2 with h3 | h3 | h3 | h3 | h3 | h3 | h3
          · subst h3
            exact nl_notin_pad_append _ _ (by decide) (nl_notin_cItemLine c)
          · subst h3
            intro hmm
            exact absurd hmm (by decide)
          · subst h3
            exact nl_notin_pad_append _ _ (by decide) (nl_notin_cNameLine s2 hs2c)
          · subst h3
            exact nl_notin_pad_append _ _ (by decide) (nl_notin_cXminLine a0 hda)
          · subst h3
            exact nl_notin_pad_append _ _ (by decide) (nl_notin_cXmaxLine bN hdb)
          · subst h3
            exact nl_notin_pad_append _ _ (by decide)
              (nl_notin_sizeLine t2.elems.length)
          · simp at h3
        · exact hnl l h2
      · exact hnl2 l h1

theorem cook_topSize (n : ℕ) :
    pyStrip (tabRepl (toL "size = " ++ natStr n)) = toL "size = " ++ natStr n := by
  have htab : '\t' ∉ toL "size = " ++ natStr n := by
    intro h
    rcases List.mem_append.mp h with h1 | h1
    · exact absurd h1 (by decide)
    · exact absurd (natStr_digits n '\t' h1) (by decide)
  have hlast : ∀ c, (toL "size = " ++ natStr n).getLast? = some c →
      isWsChar c = false := by
    intro c hc
    rw [getLast?_append_right _ _ (natStr_ne_nil n)] at hc
    exact digit_not_ws c (natStr_digits n c (last_mem_of_getLast? hc))
  exact cook_line [] _ (by simp) htab (head_pred_of_eq rfl (by decide)) hlast

theorem cook_itemEmpty :
    pyStrip (tabRepl (toL "item []:")) = toL "item []:" := by decide

theorem lastTokenFloat_cXmin (q : ℚ) (hq : IsDec q) :
    lastTokenFloat (cXminLine q) = .ok q :=
  lastTokenFloat_kv ['x', 'm', 'i', 'n'] q (by decide) (by simp) hq

theorem lastTokenFloat_cXmax (q : ℚ) (hq : IsDec q) :
    lastTokenFloat (cXmaxLine q) = .ok q :=
  lastTokenFloat_kv ['x', 'm', 'a', 'x'] q (by decide) (by simp) hq

theorem allTiersRun (its : List (PyVal × Tier)) (i : ℕ) (g : Grid)
    (nmv : Option PyVal) (x0 x1 : Option ℚ) (c : ℕ) (bl : List Str)
    (hits : ∀ it ∈ its, (∃ s, it.1 = .str s ∧ cleanStr s = true) ∧ goodTier it.2)
    (hne : its ≠ [])
    (hbl : tierBlocks c its = .ok bl) :
    ∃ x0f x1f nmL tL,
      tL.elems ≠ [] ∧
      (∀ h : its ≠ [], (nmL, tL) = its.getLast h) ∧
      runLines longStep ⟨g, nmv, Option.none, x0, x1⟩ i
        (bl.map (fun l => pyStrip (tabRepl l))) =
      (⟨{ g with items := (its.dropLast).foldl (fun items p => odSet items p.1 p.2) g.items }, some nmL, some tL, x0f, x1f⟩, Option.none) := by
  rcases its with _ | ⟨⟨nm1, t1⟩, its2⟩
  · exact absurd rfl hne
  obtain ⟨⟨s1, hs1eq, hs1c⟩, hgt1⟩ := hits _ (List.mem_cons_self _ _)
  obtain ⟨hpt1, hne1, hall1⟩ := hgt1
  dsimp only at hs1eq hpt1 hne1 hall1
  have ht1eta : t1 = ⟨false, t1.elems⟩ := by
    rcases t1 with ⟨pt, els⟩
    simp only at hpt1
    rw [hpt1]
  rcases hb : tierLines c nm1 t1 with e1 | b
  · exfalso
    have h2 : tierBlocks c ((nm1, t1) :: its2) = .error e1 := by
      show (do
        let bb ← tierLines c nm1 t1
        let r ← tierBlocks (c + 1) its2
        Except.ok (bb ++ r)) = _
      rw [hb]
      rfl
    rw [h2] at hbl
    exact absurd hbl (by simp)
  rcases hr : tierBlocks (c + 1) its2 with e2 | r
  · exfalso
    have h2 : tierBlocks c ((nm1, t1) :: its2) = .error e2 := by
      show (do
        let bb ← tierLines c nm1 t1
        let r2 ← tierBlocks (c + 1) its2
        Except.ok (bb ++ r2)) = _
      rw [hb, hr]
      rfl
    rw [h2] at hbl
    exact absurd hbl (by simp)
  have h2 : tierBlocks c ((nm1, t1) :: its2) = .ok (b ++ r) := by
    show (do
      let bb ← tierLines c nm1 t1
      let r2 ← tierBlocks (c + 1) its2
      Except.ok (bb ++ r2)) = _
    rw [hb, hr]
    rfl
  rw [h2] at hbl
  injection hbl with hblv
  subst hblv
  rw [hs1eq, ht1eta] at hb
  obtain ⟨x0f1, x1f1, hrun1⟩ := tierBlockRun_first c i g nmv x0 x1
    s1 t1.elems b hs1c hne1 hall1 hb
  rcases its2 with _ | ⟨p2, its3⟩
  · have hr0 : r = [] := by
      have h3 : (Except.ok [] : Except PyError (List Str)) = .ok r := hr
      injection h3 with h4
      exact h4.symm
    subst hr0
    refine ⟨x0f1, x1f1, nm1, t1, hne1, ?_, ?_⟩
    · intro h
      rfl
    · rw [List.map_append, runLines_append longStep _ _ _ i, hrun1]
      show runLines longStep ⟨g, some (.str s1), some ⟨false, t1.elems⟩, x0f1, x1f1⟩
        (i + (b.map (fun l => pyStrip (tabRepl l))).length)
        (([] : List Str).map (fun l => pyStrip (tabRepl l))) = _
      rw [← hs1eq, ← ht1eta]
      rfl
  · obtain ⟨x0f, x1f, nmL, tL, hneL, hlast, hrun2⟩ := tiersRun (p2 :: its3) (c + 1)
      (i + (b.map (fun l => pyStrip (tabRepl l))).length) g
      (.str s1) ⟨false, t1.elems⟩ x0f1 x1f1 r
      (fun it hit => hits it (List.mem_cons_of_mem _ hit)) hne1 hr
    refine ⟨x0f, x1f, nmL, tL, hneL, ?_, ?_⟩
    · intro h
      rw [hlast]
      rw [show ((nm1, t1) :: p2 :: its3).getLast h =
        (p2 :: its3).getLast (List.cons_ne_nil _ _) from
          List.getLast_cons (List.cons_ne_nil _ _)]
      rw [show ((PyVal.str s1, (⟨false, t1.elems⟩ : Tier)) :: p2 :: its3).getLast
          (List.cons_ne_nil _ _) =
        (p2 :: its3).getLast (List.cons_ne_nil _ _) from
          List.getLast_cons (List.cons_ne_nil _ _)]
    · rw [List.map_append, runLines_append longStep _ _ _ i, hrun1]
      show runLines longStep ⟨g, some (.str s1), some ⟨false, t1.elems⟩, x0f1, x1f1⟩
        (i + (b.map (fun l => pyStrip (tabRepl l))).length)
        (r.map (fun l => pyStrip (tabRepl l))) = _
      rw [hrun2]
      have hitems : (((PyVal.str s1, (⟨false, t1.elems⟩ : Tier)) :: p2 :: its3).dropLast).foldl (fun items p => odSet items p.1 p.2) g.items = (((nm1, t1) :: p2 :: its3).dropLast).foldl (fun items p => odSet items p.1 p.2) g.items := by
        rw [← hs1eq, ← ht1eta]
      rw [hitems]



-- Chunk F2: reprBuff under goodness, and the full long-text round trip

theorem cook_topXmin (q : ℚ) (hq : IsDec q) :
    pyStrip (tabRepl (toL "xmin = " ++ pyFloatRepr q)) = cXminLine q :=
  cook_cXminLine [] q (by simp) hq

theorem cook_topXmax (q : ℚ) (hq : IsDec q) :
    pyStrip (tabRepl (toL "xmax = " ++ pyFloatRepr q)) = cXmaxLine q :=
  cook_cXmaxLine [] q (by simp) hq

theorem reprBuff_eval (g : Grid) (hg : goodGrid g) :
    ∃ m0 m1 blocks, IsDec m0 ∧ IsDec m1 ∧
      tierBlocks 1 g.items = .ok blocks ∧ (∀ l ∈ blocks, '\n' ∉ l) ∧
      reprBuff g = .ok ([headerFT, headerOC, [],
        toL "xmin = " ++ pyFloatRepr m0,
        toL "xmax = " ++ pyFloatRepr m1,
        toL "tiers? <exists>",
        toL "size = " ++ natStr g.items.length,
        toL "item []:"] ++ blocks) := by
  obtain ⟨hne, hitems, hnd⟩ := hg
  obtain ⟨l1, hl1, hl1ne, hl1vals⟩ :=
    firstXmins_ok g.items (fun it hit => (hitems it hit).2)
  obtain ⟨l2, hl2, hl2ne, hl2vals⟩ :=
    lastXmaxs_ok g.items (fun it hit => (hitems it hit).2)
  obtain ⟨m0, hm0, hm0mem⟩ := pyMinList_nums l1 (hl1ne hne)
    (fun v hv => (hl1vals v hv).imp (fun q hq => hq.1))
  obtain ⟨m1, hm1, hm1mem⟩ := pyMaxList_nums l2 (hl2ne hne)
    (fun v hv => (hl2vals v hv).imp (fun q hq => hq.1))
  have hd0 : IsDec m0 := by
    obtain ⟨q, hq1, hq2⟩ := hl1vals _ hm0mem
    injection hq1 with hq3
    exact hq3 ▸ hq2
  have hd1 : IsDec m1 := by
    obtain ⟨q, hq1, hq2⟩ := hl2vals _ hm1mem
    injection hq1 with hq3
    exact hq3 ▸ hq2
  obtain ⟨blocks, hblocks, hblnl⟩ := tierBlocks_ok g.items 1 hitems
  refine ⟨m0, m1, blocks, hd0, hd1, hblocks, hblnl, ?_⟩
  unfold reprBuff
  rw [if_neg (by simp [List.isEmpty_iff, hne])]
  simp only [hl1, exbind_ok, hm0, hl2, hm1, hblocks, strOfVal]
  rfl

theorem long_text_round_trip_core (g : Grid) (hg : goodGrid g) :
    ∃ x0 x1 : ℚ, roundTripLong g =
      .ok (⟨some x0, some x1, g.items⟩, Option.none) := by
  obtain ⟨hne, hitems, hnd⟩ := hg
  obtain ⟨m0, m1, blocks, hd0, hd1, hblocks, hblnl, hbuff⟩ :=
    reprBuff_eval g ⟨hne, hitems, hnd⟩
  refine ⟨m0, m1, ?_⟩
  unfold roundTripLong reprStr
  rw [hbuff]
  simp only [exmap_ok]
  -- every serialized line is newline-free
  have hrawnl : ∀ raw ∈ ([headerFT, headerOC, [],
      toL "xmin = " ++ pyFloatRepr m0,
      toL "xmax = " ++ pyFloatRepr m1,
      toL "tiers? <exists>",
      toL "size = " ++ natStr g.items.length,
      toL "item []:"] ++ blocks), '\n' ∉ raw := by
    intro raw hraw
    rcases List.mem_append.mp hraw with h1 | h1
    · simp only [List.mem_cons] at h1
      rcases h1 with h | h | h | h | h | h | h | h | h
      · subst h; decide
      · subst h; decide
      · subst h; simp
      · subst h
        intro hmm
        rcases List.mem_append.mp hmm with h2 | h2
        · exact absurd h2 (by decide)
        · rcases pyFloatRepr_chars m0 hd0 '\n' h2 with h3 | h3 | h3
          · exact absurd h3 (by decide)
          · exact absurd h3 (by decide)
          · exact absurd h3 (by decide)
      · subst h
        intro hmm
        rcases List.mem_append.mp hmm with h2 | h2
        · exact absurd h2 (by decide)
        · rcases pyFloatRepr_chars m1 hd1 '\n' h2 with h3 | h3 | h3
          · exact absurd h3 (by decide)
          · exact absurd h3 (by decide)
          · exact absurd h3 (by decide)
      · subst h; decide
      · subst h
        intro hmm
        rcases List.mem_append.mp hmm with h2 | h2
        · exact absurd h2 (by decide)
        · exact absurd (natStr_digits g.items.length '\n' h2) (by decide)
      · subst h; decide
      · simp at h
    · exact hblnl raw h1
  have hnlAll : ∀ l ∈ (([headerFT, headerOC, [],
      toL "xmin = " ++ pyFloatRepr m0,
      toL "xmax = " ++ pyFloatRepr m1,
      toL "tiers? <exists>",
      toL "size = " ++ natStr g.items.length,
      toL "item []:"] ++ blocks).map tabRepl), '\n' ∉ l := by
    intro l hl
    obtain ⟨raw, hraw, hrw⟩ := List.mem_map.mp hl
    exact hrw ▸ tabRepl_no_nl raw (hrawnl raw hraw)
  rw [readLines_joinNl _ hnlAll (by simp)]
  have hcooked : ((([headerFT, headerOC, [],
        toL "xmin = " ++ pyFloatRepr m0,
        toL "xmax = " ++ pyFloatRepr m1,
        toL "tiers? <exists>",
        toL "size = " ++ natStr g.items.length,
        toL "item []:"] ++ blocks).map tabRepl).map pyStrip) =
      [headerFT, headerOC, [], cXminLine m0, cXmaxLine m1,
       toL "tiers? <exists>", toL "size = " ++ natStr g.items.length,
       toL "item []:"] ++ blocks.map (fun l => pyStrip (tabRepl l)) := by
    rw [List.map_append, List.map_append]
    congr 1
    · simp only [List.map_cons, List.map_nil]
      rw [cook_headerFT, cook_headerOC, cook_blank, cook_topXmin m0 hd0,
          cook_topXmax m1 hd1, cook_tiersLine, cook_topSize, cook_itemEmpty]
    · rw [List.map_map]
      rfl
  rw [hcooked]
  -- parse: header accepted, long-text dispatch
  have hsd : shortDetect (cXminLine m0) = false := shortDetect_xmin m0
  have hpt : parseTG emptyGrid
      ([headerFT, headerOC, [], cXminLine m0, cXmaxLine m1,
        toL "tiers? <exists>", toL "size = " ++ natStr g.items.length,
        toL "item []:"] ++ blocks.map (fun l => pyStrip (tabRepl l))) =
      parseLongTG emptyGrid
        (cXminLine m0 :: cXmaxLine m1 :: toL "tiers? <exists>" ::
         (toL "size = " ++ natStr g.items.length) :: toL "item []:" ::
         blocks.map (fun l => pyStrip (tabRepl l))) := by
    show (if headerFT ≠ headerFT ∨ headerOC ≠ headerOC ∨ ([] : Str) ≠ [] then
        (emptyGrid, some (.parseError Option.none))
      else
        if shortDetect (cXminLine m0) then
          parseShortTG emptyGrid
            (cXminLine m0 :: cXmaxLine m1 :: toL "tiers? <exists>" ::
             (toL "size = " ++ natStr g.items.length) :: toL "item []:" ::
             blocks.map (fun l => pyStrip (tabRepl l)))
        else
          parseLongTG emptyGrid
            (cXminLine m0 :: cXmaxLine m1 :: toL "tiers? <exists>" ::
             (toL "size = " ++ natStr g.items.length) :: toL "item []:" ::
             blocks.map (fun l => pyStrip (tabRepl l)))) = _
    rw [if_neg (by simp), hsd]
    simp only [Bool.false_eq_true, if_false]
  rw [hpt]
  -- the long parser on the cooked lines
  obtain ⟨x0f, x1f, nmL, tL, hneL, hlastf, hrunAll⟩ := allTiersRun g.items 9
    ⟨some m0, some m1, []⟩ Option.none Option.none Option.none 1
    blocks hitems hne hblocks
  have hcs : containsSub (toL "tiers? <exists>") existsTag = true := by decide
  have hplt : parseLongTG emptyGrid
      (cXminLine m0 :: cXmaxLine m1 :: toL "tiers? <exists>" ::
       (toL "size = " ++ natStr g.items.length) :: toL "item []:" ::
       blocks.map (fun l => pyStrip (tabRepl l))) =
      ({ (⟨some m0, some m1, []⟩ : Grid) with
          items := odSet ((g.items.dropLast).foldl
            (fun items p => odSet items p.1 p.2) ([] : List (PyVal × Tier)))
            nmL tL }, Option.none) := by
    show (match lastTokenFloat (cXminLine m0) with
      | .error e => (emptyGrid, some e)
      | .ok x0v =>
        match lastTokenFloat (cXmaxLine m1) with
        | .error e => (emptyGrid, some e)
        | .ok x1v =>
          if ¬ containsSub (toL "tiers? <exists>") existsTag then
            ({ emptyGrid with xmin := some x0v, xmax := some x1v }, Option.none)
          else
            match runLines longStep
              ⟨{ emptyGrid with xmin := some x0v, xmax := some x1v },
               Option.none, Option.none, Option.none, Option.none⟩ 9
              (blocks.map (fun l => pyStrip (tabRepl l))) with
            | (st, some e) => (st.g, some e)
            | (st, Option.none) =>
              if tierTruthy st.tier then
                match st.name, st.tier with
                | some nm, some t =>
                  ({ st.g with items := odSet st.g.items nm t }, Option.none)
                | _, _ => (st.g, some .nameError)
              else (st.g, Option.none)) = _
    rw [lastTokenFloat_cXmin m0 hd0, lastTokenFloat_cXmax m1 hd1]
    show (if ¬ containsSub (toL "tiers? <exists>") existsTag then
        ((⟨some m0, some m1, ([] : List (PyVal × Tier))⟩ : Grid), Option.none)
      else
        match runLines longStep
          ⟨(⟨some m0, some m1, ([] : List (PyVal × Tier))⟩ : Grid),
           Option.none, Option.none, Option.none, Option.none⟩ 9
          (blocks.map (fun l => pyStrip (tabRepl l))) with
        | (st, some e) => (st.g, some e)
        | (st, Option.none) =>
          if tierTruthy st.tier then
            match st.name, st.tier with
            | some nm, some t =>
              ({ st.g with items := odSet st.g.items nm t }, Option.none)
            | _, _ => (st.g, some .nameError)
          else (st.g, Option.none)) = _
    rw [hcs]
    rw [if_neg (by simp)]
    rw [hrunAll]
    show (if tierTruthy (some tL) then
        ({ ({ (⟨some m0, some m1, []⟩ : Grid) with
              items := (g.items.dropLast).foldl
                (fun items p => odSet items p.1 p.2) ([] : List (PyVal × Tier)) } :
            Grid) with
          items := odSet ((g.items.dropLast).foldl
            (fun (items : List (PyVal × Tier)) (p : PyVal × Tier) => odSet items p.1 p.2)
            ([] : List (PyVal × Tier))) nmL tL }, Option.none)
      else _) = _
    rw [if_pos (by simp [tierTruthy, List.isEmpty_iff, hneL])]
  rw [hplt]
  -- the committed tiers are exactly the grid's items
  have hndDrop : ((g.items.dropLast).map Prod.fst).Nodup := by
    rw [List.map_dropLast]
    exact (List.dropLast_sublist _).nodup hnd
  have hfold : (g.items.dropLast).foldl
      (fun items p => odSet items p.1 p.2) ([] : List (PyVal × Tier)) =
      g.items.dropLast := by
    rw [odSet_foldl_fresh _ _ (by simp) hndDrop]
    rfl
  have hlastPair := hlastf hne
  have hsplit : g.items.dropLast ++ [g.items.getLast hne] = g.items :=
    List.dropLast_append_getLast hne
  have hfreshLast : nmL ∉ (g.items.dropLast).map Prod.fst := by
    intro hmem
    have h2 : ((g.items.dropLast ++ [g.items.getLast hne]).map Prod.fst).Nodup := by
      rw [hsplit]
      exact hnd
    rw [List.map_append, List.nodup_append] at h2
    have h3 := h2.2.2
    exact h3 hmem (by
      simp only [List.map_cons, List.map_nil, List.mem_singleton]
      rw [← hlastPair])
  have hitemsFinal : odSet ((g.items.dropLast).foldl
      (fun items p => odSet items p.1 p.2) ([] : List (PyVal × Tier))) nmL tL =
      g.items := by
    rw [hfold, odSet_fresh _ _ _ hfreshLast]
    rw [show ((nmL, tL) : PyVal × Tier) = g.items.getLast hne from hlastPair]
    exact hsplit
  rw [hitemsFinal]


theorem multOf_zero_of (p n : ℕ) (h : ¬ (2 ≤ p ∧ 1 ≤ n ∧ n % p = 0)) :
    multOf p n = 0 := by
  rw [multOf]
  exact dif_neg h

theorem isDec_den_one (q : ℚ) (hq : q.den = 1) : IsDec q := by
  unfold IsDec denExp
  rw [hq, multOf_zero_of 2 1 (by decide), multOf_zero_of 5 1 (by decide)]
  simp

/-! ### C1 — long-text round trip -/

/-- **C1** (corrected).  The long-text round trip is exact on every grid of
nonempty interval-only tiers whose element texts and tier names avoid the
four characters the format cannot carry (double quote, newline, tab, and
the equals sign, because the key/value regex splits at the *rightmost*
occurrence), whose interval bounds are decimal-representable numbers with
`xmin ≤ xmax`, and whose tier names are distinct: serializing with
`__repr__` and re-parsing with `parse`/`_parse_long` reproduces the tier
names, their order, their variants and their elements exactly, with the
global extent recomputed from the tiers.  The claim's own quantification —
a grid with at least one *point* tier — is refuted separately: `__repr__`
has no point-tier branch, so serialization raises `AttributeError` (see
the counterexample theorem). -/
theorem long_text_round_trip (g : Grid) (hg : goodGrid g) :
    ∃ x0 x1 : ℚ,
      roundTripLong g = .ok (⟨some x0, some x1, g.items⟩, Option.none) :=
  long_text_round_trip_core g hg

/-- **C1** (counterexample to the claim as stated).  On the claim's own
shape — a grid with one interval tier and one point tier — serialization
itself fails before producing any text: `__repr__` reads `tier[0].xmin` of
every tier to compute the global extent, and `Point` has no `xmin`
attribute, so `AttributeError` escapes and nothing can be round-tripped. -/
theorem long_text_round_trip_counterexample :
    roundTripLong gridWithPointTier = .error .attributeError := by rfl

/-- **C1** (witness).  The round trip at a concrete good grid: one
interval tier named `words` holding the single interval `("a", 0, 1)`. -/
theorem long_text_round_trip_witness :
    goodGrid gridGood ∧ ∃ x0 x1 : ℚ,
      roundTripLong gridGood =
        .ok (⟨some x0, some x1, gridGood.items⟩, Option.none) := by
  have hgood : goodGrid gridGood := by
    refine ⟨by simp [gridGood], ?_, by simp [gridGood]⟩
    intro it hit
    simp only [gridGood, List.mem_singleton] at hit
    subst hit
    refine ⟨⟨toL "words", rfl, by decide⟩, rfl, by simp, ?_⟩
    intro e he
    simp only [List.mem_singleton] at he
    subst he
    exact ⟨by decide, isDec_den_one 0 (by decide), isDec_den_one 1 (by decide),
      by decide⟩
  exact ⟨hgood, long_text_round_trip gridGood hgood⟩


theorem keyShape_spec (k : Str) (h : keyShape k = true) :
    ∃ c1 c2, k = ['\\', c1, c2] ∧ c1 ≠ '\\' ∧ c2 ≠ '\\' := by
  match k with
  | [c0, c1, c2] =>
    simp only [keyShape, decide_eq_true_eq] at h
    exact ⟨c1, c2, by rw [h.1], h.2.1, h.2.2⟩
  | [] => simp [keyShape] at h
  | [_] => simp [keyShape] at h
  | [_, _] => simp [keyShape] at h
  | _ :: _ :: _ :: _ :: _ => simp [keyShape] at h

theorem valShape_spec (v : Str) (h : valShape v = true) :
    ∃ w, v = [w] ∧ w ≠ '\\' := by
  match v with
  | [c] =>
    simp only [valShape, decide_eq_true_eq] at h
    exact ⟨c, rfl, h⟩
  | [] => simp [valShape] at h
  | _ :: _ :: _ => simp [valShape] at h

theorem fwdApply_val (ps : List (Str × Str))
    (hps : ∀ p ∈ ps, keyShape p.1 = true) (w : Char) :
    fwdApply ps [w] = [w] := by
  induction ps with
  | nil => rfl
  | cons kv ps ih =>
    show (if [w] = kv.1 then kv.2 else fwdApply ps [w]) = [w]
    rw [if_neg, ih (fun p hp => hps p (List.mem_cons_of_mem _ hp))]
    intro he
    have hk := hps kv (List.mem_cons_self _ _)
    rw [← he] at hk
    simp [keyShape] at hk

theorem bwdApply_key (ps : List (Str × Str))
    (hps : ∀ p ∈ ps, valShape p.2 = true) (k : Str) (hk : k.length = 3) :
    bwdApply ps k = k := by
  induction ps with
  | nil => rfl
  | cons kv ps ih =>
    show (if k = kv.2 then kv.1 else bwdApply ps k) = k
    rw [if_neg, ih (fun p hp => hps p (List.mem_cons_of_mem _ hp))]
    intro he
    obtain ⟨w, hw, _⟩ := valShape_spec kv.2 (hps kv (List.mem_cons_self _ _))
    rw [he, hw] at hk
    simp at hk

theorem foldl_fix {α β : Type} (f : α → β → α) (a : α) :
    ∀ l : List β, (∀ b ∈ l, f a b = a) → l.foldl f a = a := by
  intro l
  induction l with
  | nil => intro _; rfl
  | cons x xs ih =>
    intro h
    rw [List.foldl_cons, h x (List.mem_cons_self _ _)]
    exact ih (fun b hb => h b (List.mem_cons_of_mem _ hb))

theorem pyReplace_head_notin (c0 : Char) (pt r : Str) :
    ∀ s : Str, c0 ∉ s → pyReplace s (c0 :: pt) r = s := by
  intro s
  induction s with
  | nil => intro _; rfl
  | cons c rest ih =>
    intro h
    rw [pyReplace_cons, if_neg]
    · rw [ih (fun hm => h (List.mem_cons_of_mem _ hm))]
    · rintro ⟨-, hpre⟩
      simp only [List.isPrefixOf, Bool.and_eq_true, beq_iff_eq] at hpre
      exact h (by rw [hpre.1]; exact List.mem_cons_self _ _)

theorem flatMap_ite_notin (w : Char) (r : Str) :
    ∀ b : Str, w ∉ b →
      b.flatMap (fun c => if c = w then r else [c]) = b := by
  intro b
  induction b with
  | nil => intro _; rfl
  | cons c cs ih =>
    intro h
    rw [List.flatMap_cons,
      if_neg (fun hc => h (by rw [← hc]; exact List.mem_cons_self _ _)),
      ih (fun hm => h (List.mem_cons_of_mem _ hm))]
    rfl

theorem pyReplace_val_blocks (w : Char) (r : Str) :
    ∀ bs : List Str, (∀ b ∈ bs, b = [w] ∨ w ∉ b) →
      pyReplace bs.flatten [w] r =
        (bs.map (fun b => if b = [w] then r else b)).flatten := by
  intro bs
  induction bs with
  | nil => intro _; rfl
  | cons b rest ih =>
    intro hb
    have hrest := ih (fun x hx => hb x (List.mem_cons_of_mem _ hx))
    rw [pyReplace_single] at hrest ⊢
    rw [List.flatten_cons, List.flatMap_append, List.map_cons,
      List.flatten_cons, hrest]
    rcases hb b (List.mem_cons_self _ _) with hbw | hwb
    · subst hbw
      rw [if_pos rfl]
      simp
    · rw [flatMap_ite_notin w r b hwb,
        if_neg (fun he => hwb (by rw [he]; exact List.mem_cons_self _ _))]

theorem pyReplace_key_blocks (c1 c2 : Char) (h1 : c1 ≠ '\\') (h2 : c2 ≠ '\\')
    (r : Str) :
    ∀ bs : List Str, (∀ b ∈ bs, keyShape b = true ∨ valShape b = true) →
      pyReplace bs.flatten ['\\', c1, c2] r =
        (bs.map (fun b => if b = ['\\', c1, c2] then r else b)).flatten := by
  intro bs
  induction bs with
  | nil => intro _; rfl
  | cons b rest ih =>
    intro hb
    have hrest := ih (fun x hx => hb x (List.mem_cons_of_mem _ hx))
    rcases hb b (List.mem_cons_self _ _) with hk | hv
    · obtain ⟨d1, d2, hbd, hd1, hd2⟩ := keyShape_spec b hk
      subst hbd
      by_cases hbp : (['\\', d1, d2] : Str) = ['\\', c1, c2]
      · have hd : d1 = c1 ∧ d2 = c2 := by
          have := hbp
          simp only [List.cons.injEq, and_true] at this
          exact ⟨this.2.1, this.2.2⟩
        obtain ⟨rfl, rfl⟩ := hd
        show pyReplace ('\\' :: d1 :: d2 :: rest.flatten) ['\\', d1, d2] r = _
        rw [pyReplace_cons, if_pos ⟨by simp, by simp [List.isPrefixOf]⟩]
        show r ++ pyReplace rest.flatten ['\\', d1, d2] r = _
        rw [hrest, List.map_cons, if_pos rfl, List.flatten_cons]
      · show pyReplace ('\\' :: d1 :: d2 :: rest.flatten) ['\\', c1, c2] r = _
        rw [pyReplace_cons, if_neg]
        · rw [pyReplace_cons, if_neg]
          · rw [pyReplace_cons, if_neg]
            · rw [hrest, List.map_cons, if_neg hbp, List.flatten_cons]
              rfl
            · rintro ⟨-, hpre⟩
              simp only [List.isPrefixOf, Bool.and_eq_true, beq_iff_eq] at hpre
              exact hd2 hpre.1.symm
          · rintro ⟨-, hpre⟩
            simp only [List.isPrefixOf, Bool.and_eq_true, beq_iff_eq] at hpre
            exact hd1 hpre.1.symm
        · rintro ⟨-, hpre⟩
          simp only [List.isPrefixOf, Bool.and_eq_true, beq_iff_eq] at hpre
          exact hbp (by rw [hpre.2.1, hpre.2.2.1])
    · obtain ⟨w, hbw, hw⟩ := valShape_spec b hv
      subst hbw
      show pyReplace (w :: rest.flatten) ['\\', c1, c2] r = _
      rw [pyReplace_cons, if_neg]
      · rw [hrest, List.map_cons, if_neg (by simp),
          List.flatten_cons]
        rfl
      · rintro ⟨-, hpre⟩
        simp only [List.isPrefixOf, Bool.and_eq_true, beq_iff_eq] at hpre
        exact hw hpre.1.symm

theorem fwd_fold_blocks (ps : List (Str × Str)) :
    ∀ bs : List Str,
      (∀ p ∈ ps, keyShape p.1 = true ∧ valShape p.2 = true) →
      (∀ b ∈ bs, keyShape b = true ∨ valShape b = true) →
      ps.foldl (fun o kv => pyReplace o kv.1 kv.2) bs.flatten =
        (bs.map (fwdApply ps)).flatten := by
  induction ps with
  | nil =>
    intro bs _ _
    show bs.flatten = _
    have hmap : List.map (fwdApply []) bs = List.map id bs :=
      List.map_congr_left (fun b _ => rfl)
    rw [hmap, List.map_id]
  | cons kv ps ih =>
    intro bs hps hbs
    obtain ⟨hkS, hvS⟩ := hps kv (List.mem_cons_self _ _)
    obtain ⟨c1, c2, hk, hc1, hc2⟩ := keyShape_spec kv.1 hkS
    have hpsT := fun p hp => hps p (List.mem_cons_of_mem _ hp)
    have hstep : pyReplace bs.flatten kv.1 kv.2 =
        (bs.map (fun b => if b = kv.1 then kv.2 else b)).flatten := by
      rw [hk]
      exact pyReplace_key_blocks c1 c2 hc1 hc2 kv.2 bs hbs
    show ps.foldl (fun o kv => pyReplace o kv.1 kv.2)
        (pyReplace bs.flatten kv.1 kv.2) = _
    rw [hstep]
    have hbs' : ∀ b ∈ bs.map (fun b => if b = kv.1 then kv.2 else b),
        keyShape b = true ∨ valShape b = true := by
      intro b' hb'
      obtain ⟨b, hbm, rfl⟩ := List.mem_map.mp hb'
      by_cases hbk : b = kv.1
      · rw [if_pos hbk]; exact Or.inr hvS
      · rw [if_neg hbk]; exact hbs b hbm
    rw [ih _ hpsT hbs', List.map_map]
    apply congrArg List.flatten
    apply List.map_congr_left
    intro b hbm
    show fwdApply ps (if b = kv.1 then kv.2 else b) = fwdApply (kv :: ps) b
    by_cases hbk : b = kv.1
    · rw [if_pos hbk]
      obtain ⟨w, hv2, _⟩ := valShape_spec kv.2 hvS
      rw [hv2, fwdApply_val ps (fun p hp => (hpsT p hp).1) w]
      show _ = (if b = kv.1 then kv.2 else fwdApply ps b)
      rw [if_pos hbk, hv2]
    · rw [if_neg hbk]
      show _ = (if b = kv.1 then kv.2 else fwdApply ps b)
      rw [if_neg hbk]

theorem bwd_fold_blocks (ps : List (Str × Str)) :
    ∀ bs : List Str,
      (∀ p ∈ ps, p.1.length = 3 ∧ valShape p.2 = true) →
      List.Pairwise (fun p q => (∃ b ∈ bs, b = p.2) → ∀ w ∈ q.2, w ∉ p.1) ps →
      (∀ b ∈ bs, ∀ p ∈ ps, b = p.2 ∨ ∀ w ∈ p.2, w ∉ b) →
      ps.foldl (fun o kv => pyReplace o kv.2 kv.1) bs.flatten =
        (bs.map (bwdApply ps)).flatten := by
  induction ps with
  | nil =>
    intro bs _ _ _
    show bs.flatten = _
    have hmap : List.map (bwdApply []) bs = List.map id bs :=
      List.map_congr_left (fun b _ => rfl)
    rw [hmap, List.map_id]
  | cons kv ps ih =>
    intro bs hps hpw h3
    obtain ⟨hklen, hvS⟩ := hps kv (List.mem_cons_self _ _)
    obtain ⟨w, hv2, hw⟩ := valShape_spec kv.2 hvS
    have hpsT := fun p hp => hps p (List.mem_cons_of_mem _ hp)
    have hcond : ∀ b ∈ bs, b = [w] ∨ w ∉ b := by
      intro b hbm
      rcases h3 b hbm kv (List.mem_cons_self _ _) with he | hni
      · left; rw [he, hv2]
      · right
        exact hni w (by rw [hv2]; exact List.mem_cons_self _ _)
    have hstep : pyReplace bs.flatten kv.2 kv.1 =
        (bs.map (fun b => if b = kv.2 then kv.1 else b)).flatten := by
      rw [hv2]
      exact pyReplace_val_blocks w kv.1 bs hcond
    show ps.foldl (fun o kv => pyReplace o kv.2 kv.1)
        (pyReplace bs.flatten kv.2 kv.1) = _
    rw [hstep]
    obtain ⟨hhead, htail⟩ := List.pairwise_cons.mp hpw
    have hpw' : List.Pairwise
        (fun p q => (∃ b ∈ bs.map (fun b => if b = kv.2 then kv.1 else b),
          b = p.2) → ∀ w' ∈ q.2, w' ∉ p.1) ps := by
      refine htail.imp_of_mem ?_
      intro p q hpm hqm hR hex
      apply hR
      obtain ⟨b', hb'm, hb'e⟩ := hex
      obtain ⟨b0, hb0, rfl⟩ := List.mem_map.mp hb'm
      by_cases hb0k : b0 = kv.2
      · exfalso
        rw [if_pos hb0k] at hb'e
        obtain ⟨w', hp2, _⟩ := valShape_spec p.2 (hpsT p hpm).2
        rw [hp2] at hb'e
        rw [hb'e] at hklen
        simp at hklen
      · rw [if_neg hb0k] at hb'e
        exact ⟨b0, hb0, hb'e⟩
    have h3' : ∀ b ∈ bs.map (fun b => if b = kv.2 then kv.1 else b),
        ∀ p ∈ ps, b = p.2 ∨ ∀ w' ∈ p.2, w' ∉ b := by
      intro b' hb'm p hpm
      obtain ⟨b0, hb0, rfl⟩ := List.mem_map.mp hb'm
      by_cases hb0k : b0 = kv.2
      · rw [if_pos hb0k]
        exact Or.inr (hhead p hpm ⟨b0, hb0, hb0k⟩)
      · rw [if_neg hb0k]
        exact h3 b0 hb0 p (List.mem_cons_of_mem _ hpm)
    rw [ih _ hpsT hpw' h3', List.map_map]
    apply congrArg List.flatten
    apply List.map_congr_left
    intro b hbm
    show bwdApply ps (if b = kv.2 then kv.1 else b) = bwdApply (kv :: ps) b
    by_cases hbk : b = kv.2
    · rw [if_pos hbk,
        bwdApply_key ps (fun p hp => (hpsT p hp).2) kv.1 hklen]
      show _ = (if b = kv.2 then kv.1 else bwdApply ps b)
      rw [if_pos hbk]
    · rw [if_neg hbk]
      show _ = (if b = kv.2 then kv.1 else bwdApply ps b)
      rw [if_neg hbk]

set_option maxRecDepth 40000 in
theorem inline_table_shape :
    ∀ p ∈ inlineSymbols, keyShape p.1 = true ∧ valShape p.2 = true := by decide

theorem index_table_shape :
    ∀ p ∈ indexDiacritics, keyShape p.1 = true ∧ valShape p.2 = true := by
  decide

set_option maxRecDepth 40000 in
theorem okKeys_spec :
    ∀ k ∈ okKeys, keyShape k = true ∧
      valShape (fwdApply inlineSymbols k) = true ∧
      bwdApply inlineSymbols (fwdApply inlineSymbols k) = k := by decide

set_option maxRecDepth 40000 in
theorem okValues_not_banned : ∀ v ∈ okValues, v ∉ bannedVals := by decide

set_option maxRecDepth 40000 in
theorem okValues_index_disjoint :
    ∀ v ∈ okValues, ∀ q ∈ indexDiacritics, ∀ u ∈ q.2, u ∉ v := by decide

set_option maxRecDepth 40000 in
theorem inline_pairwise_ok :
    List.Pairwise (fun p q => p.2 ∉ bannedVals → ∀ w ∈ q.2, w ∉ p.1)
      inlineSymbols := by decide

/-! ### C5 — transcoding round trip -/

/-- **C5** (corrected).  Praat-escape → Unicode → Praat-escape transcoding
with the default diacritic handling is the identity on every concatenation
of `inline_symbols` escape sequences *except* the three click escapes
rendered with characters that contain the pipe: the round trip reproduces
the input exactly for every sequence of allowed escapes.  The claim as
stated (all inline symbols and inline diacritics) is refuted by the click
escapes themselves (see the counterexample theorem): transcoding back
replaces the pipe inside the freshly restored escape with the later
pipe-letter rule. -/
theorem transcode_round_trip (ks : List Str) (hks : ∀ k ∈ ks, k ∈ okKeys) :
    transcode (transcode ks.flatten true) false = ks.flatten := by
  have hT1 : transcode ks.flatten true =
      indexDiacritics.foldl (fun o kv => pyReplace o kv.1 [])
        (inlineSymbols.foldl (fun o kv => pyReplace o kv.1 kv.2)
          ks.flatten) := rfl
  have hblocks : ∀ b ∈ ks, keyShape b = true ∨ valShape b = true :=
    fun b hb => Or.inl (okKeys_spec b (hks b hb)).1
  have hfwd := fwd_fold_blocks inlineSymbols ks inline_table_shape hblocks
  have hvsShape : ∀ b ∈ ks.map (fwdApply inlineSymbols), valShape b = true := by
    intro b hb
    obtain ⟨k, hk, rfl⟩ := List.mem_map.mp hb
    exact (okKeys_spec k (hks k hk)).2.1
  have hvsOk : ∀ b ∈ ks.map (fwdApply inlineSymbols), b ∈ okValues := by
    intro b hb
    obtain ⟨k, hk, rfl⟩ := List.mem_map.mp hb
    exact List.mem_map_of_mem _ (hks k hk)
  have hnoBS : '\\' ∉ (ks.map (fwdApply inlineSymbols)).flatten := by
    intro hmem
    obtain ⟨b, hbm, hcb⟩ := List.mem_flatten.mp hmem
    obtain ⟨w, hbw, hw⟩ := valShape_spec b (hvsShape b hbm)
    rw [hbw] at hcb
    simp only [List.mem_singleton] at hcb
    exact hw hcb.symm
  have h3f : indexDiacritics.foldl (fun o kv => pyReplace o kv.1 [])
      ((ks.map (fwdApply inlineSymbols)).flatten) =
      (ks.map (fwdApply inlineSymbols)).flatten := by
    apply foldl_fix
    intro kv hkv
    obtain ⟨c1, c2, hk, _, _⟩ := keyShape_spec kv.1 (index_table_shape kv hkv).1
    rw [hk]
    exact pyReplace_head_notin '\\' [c1, c2] [] _ hnoBS
  have hT2 : transcode ((ks.map (fwdApply inlineSymbols)).flatten) false =
      inlineSymbols.foldl (fun o kv => pyReplace o kv.2 kv.1)
        (indexDiacritics.foldl (fun o kv => pyReplace o kv.2 [])
          ((ks.map (fwdApply inlineSymbols)).flatten)) := rfl
  have h1b : indexDiacritics.foldl (fun o kv => pyReplace o kv.2 [])
      ((ks.map (fwdApply inlineSymbols)).flatten) =
      (ks.map (fwdApply inlineSymbols)).flatten := by
    apply foldl_fix
    intro kv hkv
    obtain ⟨u, hv2, _⟩ := valShape_spec kv.2 (index_table_shape kv hkv).2
    rw [hv2]
    apply pyReplace_head_notin u [] []
    intro hu
    obtain ⟨b, hbm, hub⟩ := List.mem_flatten.mp hu
    exact okValues_index_disjoint b (hvsOk b hbm) kv hkv u
      (by rw [hv2]; exact List.mem_cons_self _ _) hub
  have hH1 : ∀ p ∈ inlineSymbols, p.1.length = 3 ∧ valShape p.2 = true := by
    intro p hp
    obtain ⟨hkS, hvS⟩ := inline_table_shape p hp
    obtain ⟨c1, c2, hk, _, _⟩ := keyShape_spec p.1 hkS
    exact ⟨by rw [hk]; rfl, hvS⟩
  have hPW : List.Pairwise
      (fun p q => (∃ b ∈ ks.map (fwdApply inlineSymbols), b = p.2) →
        ∀ w ∈ q.2, w ∉ p.1) inlineSymbols := by
    refine inline_pairwise_ok.imp ?_
    intro p q h hex
    obtain ⟨b, hbm, hbe⟩ := hex
    exact h (by rw [← hbe]; exact okValues_not_banned b (hvsOk b hbm))
  have hH3 : ∀ b ∈ ks.map (fwdApply inlineSymbols), ∀ p ∈ inlineSymbols,
      b = p.2 ∨ ∀ w ∈ p.2, w ∉ b := by
    intro b hbm p hpm
    obtain ⟨x, hbx, _⟩ := valShape_spec b (hvsShape b hbm)
    obtain ⟨y, hpy, _⟩ := valShape_spec p.2 (inline_table_shape p hpm).2
    by_cases hxy : x = y
    · left; rw [hbx, hpy, hxy]
    · right
      intro w hw
      rw [hpy] at hw
      simp only [List.mem_singleton] at hw
      subst hw
      rw [hbx]
      simp only [List.mem_singleton]
      exact fun he => hxy he.symm
  have hbwd := bwd_fold_blocks inlineSymbols (ks.map (fwdApply inlineSymbols))
    hH1 hPW hH3
  have hcomp : (ks.map (fwdApply inlineSymbols)).map (bwdApply inlineSymbols) =
      ks := by
    rw [List.map_map]
    have hpt : ∀ k ∈ ks,
        (bwdApply inlineSymbols ∘ fwdApply inlineSymbols) k = id k := by
      intro k hk
      exact (okKeys_spec k (hks k hk)).2.2
    rw [List.map_congr_left hpt, List.map_id]
  rw [hT1, hfwd, h3f, hT2, h1b, hbwd, hcomp]

set_option maxRecDepth 100000 in
/-- **C5** (counterexample to the claim as stated).  The single inline
symbol `\\|1` (the dental click) does not survive the round trip: the
Unicode pass renders it as the click letter, but the return pass first
restores `\\|1` and then a later table entry replaces the pipe inside it,
yielding a five-character string. -/
theorem transcode_round_trip_counterexample :
    transcode (transcode ['\\', '|', '1'] true) false ≠ ['\\', '|', '1'] := by
  decide

set_option maxRecDepth 100000 in
/-- **C5** (witness).  The round trip at a concrete allowed input: the
schwa escape followed by the pipe-letter escape. -/
theorem transcode_round_trip_witness :
    (∀ k ∈ [['\\', 's', 'w'], ['\\', '|', 'f']], k ∈ okKeys) ∧
      transcode (transcode ([['\\', 's', 'w'], ['\\', '|', 'f']] :
          List Str).flatten true) false =
        ([['\\', 's', 'w'], ['\\', '|', 'f']] : List Str).flatten :=
  ⟨by decide, transcode_round_trip _ (by decide)⟩

end Textgrids
